import Mathlib

/-!
Verification development for the `enum_convert` mapping-resolution engine.

The definitions below are a shallow embedding of the two resolver/emission
pipelines of the crate:
  * `EnumFrom.*`  embeds `src/enum_from/generator.rs`
  * `EnumInto.*`  embeds `src/enum_into/generator.rs`

Modelling conventions:
  * `syn::Ident` is a `String`; `proc_macro2::Span` is an opaque `Nat`
    (`callSite = 0`).
  * Rust `HashMap`s are association lists.  Where the code only performs
    keyed access (`get`, `get_mut`, `insert`, `contains_key`, `remove`)
    this is exact.  Where the code *iterates* a `HashMap` the iteration
    order is unspecified in Rust; emission therefore takes explicit order
    parameters — one for the top-level container table (`IsIterOrder`)
    and one family for the per-container variant tables
    (`IsInnerIterOrder`) — each admissible order being a permutation of
    the respective key set.  Maps that are only drained in a keyed way
    during resolution need no order parameter.
  * Rust `BTreeMap`s are key-sorted association lists (`btreeOfList`):
    duplicate keys keep the last inserted value, then entries are sorted.
  * `panic!` / `.expect` in the resolver is `Failure.panic`; in the
    emission step it is `Option` (`none` = panic).
  * fallible functions return `Except Failure _`.
-/

abbrev Span := Nat

def callSite : Span := 0

structure ContainerIdent where
  name : String
deriving DecidableEq

structure VariantIdent where
  name : String
deriving DecidableEq

structure FieldIdent where
  name : String
deriving DecidableEq

/-- Modelled from the spec: the `FieldRef` identifier type is used throughout
`src/enum_from/generator.rs` and `src/enum_into/generator.rs` but its
definition (in `src/idents.rs`) is not part of the snapshot.  Per the spec's
data model it is "either a position (for a positional-fields variant) or a
FieldIdent (for a named-fields variant)", totally ordered so that mapping
tables (`BTreeMap`s keyed by it) can be iterated deterministically. -/
inductive FieldRef where
  | FieldPos (pos : Nat)
  | FieldIdent (id : FieldIdent)
deriving DecidableEq

/-- Modelled from the spec: the total order on `FieldRef` ("positions and
names are totally ordered").  Positions are ordered numerically, names
lexicographically; positions sort before names (the relative order of the
two kinds is never observable in the resolver, because all keys of one
variant's field table have the same kind). -/
def FieldRef.le : FieldRef → FieldRef → Bool
  | .FieldPos a, .FieldPos b => a ≤ b
  | .FieldPos _, .FieldIdent _ => true
  | .FieldIdent _, .FieldPos _ => false
  | .FieldIdent a, .FieldIdent b => a.name ≤ b.name

/-- `syn::Fields`: the shape of one variant, carrying each field's span
(and name, for named fields). -/
inductive Fields where
  | Unit
  | Unnamed (fields : List Span)
  | Named (fields : List (FieldIdent × Span))
deriving DecidableEq

/-- `syn::Variant`, restricted to the parts the generators read. -/
structure Variant where
  ident : VariantIdent
  fields : Fields
deriving DecidableEq

/-- `syn::Error`: a source span plus a message. -/
structure SynError where
  span : Span
  msg : String
deriving DecidableEq

/-- A resolver failure: either a `syn::Error` returned to the caller or a
`panic!` raised inside the resolver. -/
inductive Failure where
  | syn (span : Span) (msg : String)
  | panic (msg : String)
deriving DecidableEq

/-- Association-list lookup (Rust `HashMap::get`). -/
def alookup {κ α : Type} [DecidableEq κ] : List (κ × α) → κ → Option α
  | [], _ => none
  | (k, v) :: m, k' => if k = k' then some v else alookup m k'

/-- Association-list insert-or-replace (Rust `HashMap::insert`). -/
def ainsert {κ α : Type} [DecidableEq κ] : List (κ × α) → κ → α → List (κ × α)
  | [], k, v => [(k, v)]
  | (k', v') :: m, k, v => if k' = k then (k, v) :: m else (k', v') :: ainsert m k v

/-- Rust `HashMap::contains_key`. -/
def acontains {κ α : Type} [DecidableEq κ] (m : List (κ × α)) (k : κ) : Bool :=
  (alookup m k).isSome

/-- Rust `HashMap::remove` (returned value and the shrunk map). -/
def aremove {κ α : Type} [DecidableEq κ] : List (κ × α) → κ → Option α × List (κ × α)
  | [], _ => (none, [])
  | (k', v') :: m, k =>
    if k' = k then (some v', m)
    else
      let (r, m') := aremove m k
      (r, (k', v') :: m')

/-- Drop all but the last occurrence of each key (the effect of collecting
an iterator with possibly repeated keys into a Rust map). -/
def dedupKeysKeepLast {κ α : Type} [DecidableEq κ] : List (κ × α) → List (κ × α)
  | [] => []
  | (k, v) :: m =>
    if m.any (fun p => p.1 == k) then dedupKeysKeepLast m
    else (k, v) :: dedupKeysKeepLast m

/-- Insertion into a list sorted by `le`. -/
def insertSortedBy {α : Type} (le : α → α → Bool) (a : α) : List α → List α
  | [] => [a]
  | b :: l => if le a b then a :: b :: l else b :: insertSortedBy le a l

/-- Insertion sort by `le`. -/
def sortBy {α : Type} (le : α → α → Bool) (l : List α) : List α :=
  l.foldr (insertSortedBy le) []

/-- Collecting a `(key, value)` iterator into a Rust `BTreeMap`, read back
as a sorted association list: later duplicates win, entries are ordered by
key. -/
def btreeOfList {κ α : Type} [DecidableEq κ] (le : κ → κ → Bool)
    (l : List (κ × α)) : List (κ × α) :=
  sortBy (fun p q => le p.1 q.1) (dedupKeysKeepLast l)

/-- `collect::<Result<Vec<_>>>`: map, short-circuiting at the first error. -/
def exceptMap {α β : Type} (f : α → Except Failure β) : List α → Except Failure (List β)
  | [] => .ok []
  | a :: l => do
    let b ← f a
    let bs ← exceptMap f l
    .ok (b :: bs)

/-- Fold a fallible step over a list, short-circuiting at the first error. -/
def foldlE {σ α : Type} (f : σ → α → Except Failure σ) : σ → List α → Except Failure σ
  | s, [] => .ok s
  | s, a :: l => do
    let s' ← f s a
    foldlE f s' l

/-- `Option`-valued map: `none` as soon as `f` is `none` (models a chain of
`.expect` calls inside an iterator, i.e. a potential panic). -/
def optionMapList {α β : Type} (f : α → Option β) : List α → Option (List β)
  | [] => some []
  | a :: l => do
    let b ← f a
    let bs ← optionMapList f l
    some (b :: bs)

namespace EnumFrom

/-- `enum_from::parser::FieldAnnotation`: one parsed `Enum::Variant.field`
reference attached to a field of the annotated (target) enum. -/
structure FieldAnnotation where
  source_enum : ContainerIdent
  source_variant : VariantIdent
  source_field : FieldRef
  enum_span : Span
  variant_span : Span
  field_span : Span
deriving DecidableEq

/-- `enum_from::parser::FieldAnnotations`: all parsed references on one
field, plus that field's span. -/
structure FieldAnnotations where
  fields_annotations : List FieldAnnotation
  field_span : Span
deriving DecidableEq

/-- `enum_from::parser::VariantAnnotation`. -/
inductive VariantAnnotation where
  | Nothing (span : Span)
  | EnumOnly (span : Span) (enum_ident : ContainerIdent)
  | EnumVariant (span : Span) (enum_ident : ContainerIdent) (variant_ident : VariantIdent)
deriving DecidableEq

/-- `enum_from::parser::VariantAnnotations`: the annotations attached to
one variant and to its fields (the field table is a `HashMap` keyed by
`FieldRef`; its iteration order is the list order). -/
structure VariantAnnotations where
  variant_annotations : List VariantAnnotation
  fields_annotations : List (FieldRef × FieldAnnotations)
deriving DecidableEq

/-- `enum_from::parser::ContainerAnnotation`: one source enum named in the
container-level `#[enum_from(...)]` list. -/
structure ContainerAnnotation where
  ident : ContainerIdent
deriving DecidableEq

/-- `enum_from::parser::ParsedEnumFrom` (the `variants_annotations`
`HashMap` is carried with an explicit iteration order). -/
structure ParsedEnumFrom where
  target_enum : ContainerIdent
  container_annotations : List ContainerAnnotation
  variants_annotations : List (Variant × VariantAnnotations)
deriving DecidableEq

/-- `enum_from::generator::VariantMapping` (field tables are the contents
of the Rust `HashMap`s, stored in construction order: sorted by the
annotated field because they are collected from a `BTreeMap`). -/
inductive VariantMapping where
  | UnitToUnit (target_variant : VariantIdent)
  | TupleToTuple (target_variant : VariantIdent) (fields_mapping : List (Nat × Nat))
  | TupleToStruct (target_variant : VariantIdent) (fields_mapping : List (FieldIdent × Nat))
  | StructToStruct (target_variant : VariantIdent) (fields_mapping : List (FieldIdent × FieldIdent))
  | StructToTuple (target_variant : VariantIdent) (fields_mapping : List (Nat × FieldIdent))
deriving DecidableEq

/-- `VariantMapping::target_variant`. -/
def VariantMapping.target_variant : VariantMapping → VariantIdent
  | .UnitToUnit tv => tv
  | .TupleToTuple tv _ => tv
  | .TupleToStruct tv _ => tv
  | .StructToStruct tv _ => tv
  | .StructToTuple tv _ => tv

/-- `enum_from::generator::VariantsMapping`: per-source-enum table keyed by
the source variant. -/
abbrev VariantsMapping := List (VariantIdent × VariantMapping)

/-- `enum_from::generator::EnumFromGenerator`. -/
structure EnumFromGenerator where
  source_enums : List (ContainerIdent × VariantsMapping)
  target_enum : ContainerIdent
  target_variants : List (VariantIdent × Variant)
deriving DecidableEq

/-- `enum_from::generator::get_source_enum_and_variant`. -/
def get_source_enum_and_variant (target_variant : Variant)
    (single_source_enum : Option ContainerIdent) (va : VariantAnnotation) :
    Except Failure (ContainerIdent × VariantIdent × Span) :=
  match va with
  | .Nothing span =>
    match single_source_enum with
    | some source_enum => .ok (source_enum, target_variant.ident, span)
    | none => .error (.syn span "When multiple source enums are specified, each variant must specify from which enum to convert with #[enum_from(Enum)] or #[enum_from(Enum::Variant)]")
  | .EnumOnly span enum_ident => .ok (enum_ident, target_variant.ident, span)
  | .EnumVariant span enum_ident variant_ident => .ok (enum_ident, variant_ident, span)

/-- `enum_from::generator::extract_fields_annotations`: for each field of
the variant, remove the annotations that reference `(source_enum,
source_variant)`; two or more on one field is an error; the extracted
pairs are collected into a `BTreeMap` keyed by the annotated field.
Returns the map and the drained residue of `fields_annotations`. -/
def extract_fields_annotations_list :
    List (FieldRef × FieldAnnotations) → ContainerIdent → VariantIdent →
    Except Failure (List (FieldRef × FieldAnnotation) × List (FieldRef × FieldAnnotations))
  | [], _, _ => .ok ([], [])
  | (target_field, fas) :: rest, source_enum, source_variant =>
    let matching := fas.fields_annotations.filter
      (fun fa => fa.source_enum = source_enum ∧ fa.source_variant = source_variant)
    let remaining := fas.fields_annotations.filter
      (fun fa => ¬(fa.source_enum = source_enum ∧ fa.source_variant = source_variant))
    if 2 ≤ matching.length then
      .error (.syn fas.field_span
        ("Multiple mapping found for source enum `" ++ source_enum.name ++ "`"))
    else do
      let (extracted, residue) ← extract_fields_annotations_list rest source_enum source_variant
      let rest_entry := (target_field, { fas with fields_annotations := remaining })
      match matching with
      | [] => .ok (extracted, rest_entry :: residue)
      | a :: _ => .ok ((target_field, a) :: extracted, rest_entry :: residue)

/-- `extract_fields_annotations`, with the extracted pairs read back from
the `BTreeMap` as a key-sorted list. -/
def extract_fields_annotations (fields_annotations : List (FieldRef × FieldAnnotations))
    (source_enum : ContainerIdent) (source_variant : VariantIdent) :
    Except Failure (List (FieldRef × FieldAnnotation) × List (FieldRef × FieldAnnotations)) := do
  let (extracted, residue) ← extract_fields_annotations_list fields_annotations source_enum source_variant
  .ok (btreeOfList FieldRef.le extracted, residue)

/-- `enum_from::generator::compute_tuple_to_tuple_variant_mapping`. -/
def compute_tuple_to_tuple_variant_mapping
    (fields_annotations : List (FieldRef × FieldAnnotation)) (target_variant : VariantIdent) :
    Except Failure VariantMapping := do
  let fields_mapping ← exceptMap
    (fun p => match p with
      | (.FieldPos target_pos, fa) =>
        match fa.source_field with
        | .FieldPos source_pos => .ok (target_pos, source_pos)
        | .FieldIdent _ => .error (.syn fa.field_span "Unexpected mapping to named field while another field mapped to a positional field.")
      | (.FieldIdent _, fa) => .error (.syn fa.field_span "Unexpected mapping to named field while another field mapped to a positional field."))
    fields_annotations
  .ok (.TupleToTuple target_variant fields_mapping)

/-- `enum_from::generator::compute_struct_to_struct_variant_mapping`. -/
def compute_struct_to_struct_variant_mapping
    (fields_annotations : List (FieldRef × FieldAnnotation)) (target_variant : VariantIdent) :
    Except Failure VariantMapping := do
  let fields_mapping ← exceptMap
    (fun p => match p with
      | (.FieldIdent target_ident, fa) =>
        match fa.source_field with
        | .FieldIdent source_ident => .ok (target_ident, source_ident)
        | .FieldPos _ => .error (.syn fa.field_span "Unexpected mapping to positional field while another field mapped to a named field.")
      | (.FieldPos _, fa) => .error (.syn fa.field_span "Unexpected mapping to positional field while another field mapped to a named field."))
    fields_annotations
  .ok (.StructToStruct target_variant fields_mapping)

/-- `enum_from::generator::compute_struct_to_tuple_variant_mapping`
(the annotated variant is a tuple; the annotations map its positions to
named fields of the source; every position must be covered). -/
def compute_struct_to_tuple_variant_mapping
    (source_enum : ContainerIdent) (source_variant : VariantIdent)
    (fields_annotations : List (FieldRef × FieldAnnotation)) (fields : List Span)
    (target_variant : VariantIdent) : Except Failure VariantMapping := do
  let pairs ← exceptMap
    (fun p => match p with
      | (.FieldIdent _, _) => .error (.panic "Target is a tuple variant but got named fields")
      | (.FieldPos target_pos, fa) =>
        match fa.source_field with
        | .FieldIdent source_ident => .ok (target_pos, source_ident)
        | .FieldPos _ => .error (.syn fa.field_span "Unexpected mapping to positional field while another field mapped to a named field."))
    fields_annotations
  let fields_mapping := dedupKeysKeepLast pairs
  match (fields.enum.find? (fun p => ¬ acontains fields_mapping p.1)) with
  | some (_, field_span) =>
    .error (.syn field_span
      ("Missing required mapping to named field for " ++ source_enum.name ++ "::" ++ source_variant.name))
  | none => .ok (.StructToTuple target_variant fields_mapping)

/-- `enum_from::generator::compute_tuple_to_struct_variant_mapping`
(the annotated variant is a struct; the annotations map its named fields
to positions of the source; every named field must be covered). -/
def compute_tuple_to_struct_variant_mapping
    (source_enum : ContainerIdent) (source_variant : VariantIdent)
    (fields_annotations : List (FieldRef × FieldAnnotation)) (fields : List (FieldIdent × Span))
    (target_variant : VariantIdent) : Except Failure VariantMapping := do
  let pairs ← exceptMap
    (fun p => match p with
      | (.FieldPos _, _) => .error (.panic "Target is a struct variant but got positional fields")
      | (.FieldIdent target_ident, fa) =>
        match fa.source_field with
        | .FieldPos source_pos => .ok (target_ident, source_pos)
        | .FieldIdent _ => .error (.syn fa.field_span "Unexpected mapping to named field while another field mapped to a positional field."))
    fields_annotations
  let fields_mapping := dedupKeysKeepLast pairs
  match (fields.find? (fun p => ¬ acontains fields_mapping p.1)) with
  | some (_, field_span) =>
    .error (.syn field_span
      ("Missing required mapping to named field for " ++ source_enum.name ++ "::" ++ source_variant.name))
  | none => .ok (.TupleToStruct target_variant fields_mapping)

/-- `enum_from::generator::compute_variant_mapping`: dispatch on the
annotated variant's shape and the `FieldRef` kind of the first (least-key)
field annotation. -/
def compute_variant_mapping (source_enum : ContainerIdent) (source_variant : VariantIdent)
    (fields_annotations : List (FieldRef × FieldAnnotation)) (fields : Fields)
    (target_variant : VariantIdent) : Except Failure VariantMapping :=
  match fields, (fields_annotations.head?.map (fun p => p.2.source_field) : Option FieldRef) with
  | .Unit, none => .ok (.UnitToUnit target_variant)
  | .Unit, some _ => .error (.panic "A unit variant cannot have field annotations")
  | .Unnamed _, none => compute_tuple_to_tuple_variant_mapping fields_annotations target_variant
  | .Unnamed _, some (.FieldPos _) => compute_tuple_to_tuple_variant_mapping fields_annotations target_variant
  | .Named _, none => compute_struct_to_struct_variant_mapping fields_annotations target_variant
  | .Named _, some (.FieldIdent _) => compute_struct_to_struct_variant_mapping fields_annotations target_variant
  | .Unnamed fs, some (.FieldIdent _) =>
    compute_struct_to_tuple_variant_mapping source_enum source_variant fields_annotations fs target_variant
  | .Named fs, some (.FieldPos _) =>
    compute_tuple_to_struct_variant_mapping source_enum source_variant fields_annotations fs target_variant

/-- `enum_from::generator::check_unused_fields_annotations`: any field
annotation left over after extraction is an error; the message depends on
whether the referenced enum is a declared source enum. -/
def check_unused_fields_annotations (source_enums : List (ContainerIdent × VariantsMapping)) :
    List (FieldRef × FieldAnnotations) → Except Failure Unit
  | [] => .ok ()
  | (_, fas) :: rest =>
    match fas.fields_annotations with
    | [] => check_unused_fields_annotations source_enums rest
    | fa :: _ =>
      if acontains source_enums fa.source_enum then
        .error (.syn fa.variant_span "Field mapping for unexpected enum and variant combination")
      else
        .error (.syn fa.enum_span "Field mapping for unknown enum")

/-- The body of the inner loop of `EnumFromGenerator::try_from`:
process one variant-level annotation of `target_variant`, threading the
container table and the variant's not-yet-extracted field annotations. -/
def process_variant_annot (single_source_enum : Option ContainerIdent)
    (target_variant : Variant)
    (st : List (ContainerIdent × VariantsMapping) × List (FieldRef × FieldAnnotations))
    (va : VariantAnnotation) :
    Except Failure (List (ContainerIdent × VariantsMapping) × List (FieldRef × FieldAnnotations)) := do
  let (source_enums, fields_annotations) := st
  let (source_enum, source_variant, span) ← get_source_enum_and_variant target_variant single_source_enum va
  match alookup source_enums source_enum with
  | none =>
    .error (.syn span
      ("source enum `" ++ source_enum.name ++ "` is not specified in this enum's #[enum_from] annotation"))
  | some variants_mapping => do
    let (extracted, residue) ← extract_fields_annotations fields_annotations source_enum source_variant
    let vm ← compute_variant_mapping source_enum source_variant extracted target_variant.fields target_variant.ident
    .ok (ainsert source_enums source_enum (ainsert variants_mapping source_variant vm), residue)

/-- The body of the outer loop of `EnumFromGenerator::try_from`: process
one variant of the annotated enum. -/
def process_variant (single_source_enum : Option ContainerIdent)
    (acc : List (ContainerIdent × VariantsMapping) × List (VariantIdent × Variant))
    (entry : Variant × VariantAnnotations) :
    Except Failure (List (ContainerIdent × VariantsMapping) × List (VariantIdent × Variant)) := do
  let (source_enums, target_variants) := acc
  let (target_variant, variant_annotations) := entry
  let (source_enums', residue) ← foldlE
    (process_variant_annot single_source_enum target_variant)
    (source_enums, variant_annotations.fields_annotations)
    variant_annotations.variant_annotations
  check_unused_fields_annotations source_enums' residue
  .ok (source_enums', ainsert target_variants target_variant.ident target_variant)

/-- `impl TryFrom<ParsedEnumFrom> for EnumFromGenerator`. -/
def EnumFromGenerator.try_from (p : ParsedEnumFrom) : Except Failure EnumFromGenerator := do
  let single_source_enum ←
    match p.container_annotations with
    | [] => .error (.syn callSite "enum_from attribute with source enum names is required")
    | [ca] => .ok (some ca.ident)
    | _ => .ok (none : Option ContainerIdent)
  let source_enums := p.container_annotations.foldl
    (fun m ca => ainsert m ca.ident ([] : VariantsMapping)) []
  let (source_enums, target_variants) ←
    foldlE (process_variant single_source_enum) (source_enums, []) p.variants_annotations
  .ok { source_enums := source_enums, target_enum := p.target_enum, target_variants := target_variants }

end EnumFrom

/-- A pattern of a generated match arm: `Enum::Variant`, `Enum::Variant(b0, b1)`
or `Enum::Variant { b0, b1 }` (the `bi` are the binder identifiers, in
emission order). -/
inductive Pat where
  | unit
  | tuple (binders : List String)
  | struct (binders : List String)
deriving DecidableEq

/-- The constructed right-hand side of a generated match arm: every
argument is `binder.into()`, struct arguments are `field: binder.into()`. -/
inductive ArmExpr where
  | unit
  | tuple (args : List String)
  | struct (args : List (String × String))
deriving DecidableEq

/-- One generated match arm
`SourceEnum::SourceVariant pat => TargetEnum::TargetVariant expr,`. -/
structure MatchArm where
  source_enum : ContainerIdent
  source_variant : VariantIdent
  pat : Pat
  target_enum : ContainerIdent
  target_variant : VariantIdent
  expr : ArmExpr
deriving DecidableEq

/-- One generated `impl From<SourceEnum> for TargetEnum` block. -/
structure ImplBlock where
  source_enum : ContainerIdent
  target_enum : ContainerIdent
  arms : List MatchArm
deriving DecidableEq

/-- `format_ident!("field_{i}")`. -/
def fieldBinder (i : Nat) : String := "field_" ++ toString i

def natLeB (a b : Nat) : Bool := a ≤ b

/-- A runtime payload of an enum value: the field contents of one variant
(field values are abstracted to `Nat`). -/
inductive Payload where
  | unit
  | tuple (vals : List Nat)
  | struct (fields : List (String × Nat))
deriving DecidableEq

/-- A runtime enum value: which enum, which variant, which payload. -/
structure Value where
  container : ContainerIdent
  variant : VariantIdent
  payload : Payload
deriving DecidableEq

/-- Rust pattern-matching semantics for the restricted patterns the
generators emit, producing a binder environment.  A tuple pattern requires
matching arity and linear (duplicate-free) binders; a struct pattern (no
`..` rest) requires its binders to be exactly the value's field names. -/
def matchPat : Pat → Payload → Option (List (String × Nat))
  | .unit, .unit => some []
  | .tuple binders, .tuple vals =>
    if binders.length = vals.length ∧ binders.Nodup then some (binders.zip vals) else none
  | .struct binders, .struct fields =>
    if binders.Nodup ∧ (fields.map Prod.fst).Perm binders then
      optionMapList (fun b => (alookup fields b).map (fun v => (b, v))) binders
    else none
  | _, _ => none

/-- Evaluate the right-hand side of an arm under a binder environment;
`conv` is the one generic per-field `.into()` conversion. -/
def evalArmExpr (conv : Nat → Nat) (env : List (String × Nat)) : ArmExpr → Option Payload
  | .unit => some .unit
  | .tuple args =>
    (optionMapList (fun a => (alookup env a).map conv) args).map Payload.tuple
  | .struct args =>
    (optionMapList (fun p => (alookup env p.2).map (fun v => (p.1, conv v))) args).map Payload.struct

/-- Apply one generated match arm to a runtime value. -/
def evalMatchArm (conv : Nat → Nat) (arm : MatchArm) (v : Value) : Option Value :=
  if v.container = arm.source_enum ∧ v.variant = arm.source_variant then
    (matchPat arm.pat v.payload).bind (fun env =>
      (evalArmExpr conv env arm.expr).map (fun p =>
        { container := arm.target_enum, variant := arm.target_variant, payload := p }))
  else none

/-- Apply the arms of a generated match in order; the first arm whose
pattern matches produces the result (no catch-all arm exists). -/
def evalArms (conv : Nat → Nat) : List MatchArm → Value → Option Value
  | [], _ => none
  | arm :: rest, v =>
    match evalMatchArm conv arm v with
    | some w => some w
    | none => evalArms conv rest v

/-- Apply one generated `impl From` block to a runtime value. -/
def evalImplBlock (conv : Nat → Nat) (impl : ImplBlock) (v : Value) : Option Value :=
  evalArms conv impl.arms v

namespace EnumFrom

/-- `enum_from::generator::generate_match_arm`: turn one `VariantMapping`
into one match arm; `variant` is the entry of `target_variants` for the
mapping's target variant.  `none` models the `panic!`/`.expect` branches. -/
def generate_match_arm (source_variant : VariantIdent) (variant_mapping : VariantMapping)
    (source_enum target_enum : ContainerIdent) (variant : Variant) : Option MatchArm :=
  match variant.fields, variant_mapping with
  | .Unit, .UnitToUnit target_variant =>
    some { source_enum := source_enum, source_variant := source_variant, pat := .unit,
           target_enum := target_enum, target_variant := target_variant, expr := .unit }
  | .Unnamed fs, .TupleToTuple target_variant fields_mapping =>
    let source_fields := (List.range fs.length).map
      (fun field_target_pos => fieldBinder ((alookup fields_mapping field_target_pos).getD field_target_pos))
    let target_fields := (List.range fs.length).map fieldBinder
    some { source_enum := source_enum, source_variant := source_variant, pat := .tuple source_fields,
           target_enum := target_enum, target_variant := target_variant, expr := .tuple target_fields }
  | .Unnamed fs, .StructToTuple target_variant fields_mapping => do
    let source_fields ← optionMapList
      (fun field_target_pos => (alookup fields_mapping field_target_pos).map (fun fi => fi.name))
      (List.range fs.length)
    some { source_enum := source_enum, source_variant := source_variant, pat := .struct source_fields,
           target_enum := target_enum, target_variant := target_variant, expr := .tuple source_fields }
  | .Named fs, .StructToStruct target_variant fields_mapping =>
    let source_fields := fs.map
      (fun p => (((alookup fields_mapping p.1).getD p.1)).name)
    let target_fields := fs.map
      (fun p => (p.1.name, (((alookup fields_mapping p.1).getD p.1)).name))
    some { source_enum := source_enum, source_variant := source_variant, pat := .struct source_fields,
           target_enum := target_enum, target_variant := target_variant, expr := .struct target_fields }
  | .Named _, .TupleToStruct target_variant fields_mapping =>
    let sorted := btreeOfList natLeB (fields_mapping.map (fun p => (p.2, p.1)))
    let idents := sorted.map (fun p => p.2.name)
    some { source_enum := source_enum, source_variant := source_variant, pat := .tuple idents,
           target_enum := target_enum, target_variant := target_variant,
           expr := .struct (idents.map (fun s => (s, s))) }
  | _, _ => none

/-- `enum_from::generator::generate_from_impl`: one `impl From<Source> for
Target` with one arm per `VariantMapping` in the per-source-enum table.
The Rust code iterates the `variants_mapping` `HashMap`, whose order is
unspecified; `inner` makes that iteration order explicit. -/
def generate_from_impl (source_enum : ContainerIdent) (variants_mapping : VariantsMapping)
    (inner : List VariantIdent)
    (target_enum : ContainerIdent) (target_variants : List (VariantIdent × Variant)) :
    Option ImplBlock := do
  let arms ← optionMapList
    (fun source_variant => do
      let variant_mapping ← alookup variants_mapping source_variant
      let tv ← alookup target_variants (VariantMapping.target_variant variant_mapping)
      generate_match_arm source_variant variant_mapping source_enum target_enum tv)
    inner
  some { source_enum := source_enum, target_enum := target_enum, arms := arms }

/-- `EnumFromGenerator::generate`: one impl block per source enum.  The
Rust code iterates the `source_enums` `HashMap` and, per block, the inner
`variants_mapping` `HashMap`; both orders are unspecified, so `order` and
`inner` make them explicit. -/
def EnumFromGenerator.generate (g : EnumFromGenerator) (order : List ContainerIdent)
    (inner : ContainerIdent → List VariantIdent) :
    Option (List ImplBlock) :=
  optionMapList
    (fun source_enum => do
      let variants_mapping ← alookup g.source_enums source_enum
      generate_from_impl source_enum variants_mapping (inner source_enum)
        g.target_enum g.target_variants)
    order

/-- An admissible `HashMap` iteration order: a permutation of the keys. -/
def IsIterOrder (order : List ContainerIdent) (m : List (ContainerIdent × VariantsMapping)) : Prop :=
  order.Perm (m.map Prod.fst)

/-- An admissible family of inner iteration orders: for each source enum,
a permutation of its table's keys. -/
def IsInnerIterOrder (inner : ContainerIdent → List VariantIdent)
    (m : List (ContainerIdent × VariantsMapping)) : Prop :=
  ∀ q ∈ m, (inner q.1).Perm (q.2.map Prod.fst)

end EnumFrom

namespace EnumInto

/-- `enum_into::parser::FieldAnnotation` as consumed by
`src/enum_into/generator.rs` (the generator reads a `FieldRef`-valued
`target_field` and the three spans; the parser file in the snapshot is an
older revision that predates those fields). -/
structure FieldAnnotation where
  target_enum : ContainerIdent
  target_variant : VariantIdent
  target_field : FieldRef
  enum_span : Span
  variant_span : Span
  field_span : Span
deriving DecidableEq

/-- `enum_into::parser::FieldAnnotations`. -/
structure FieldAnnotations where
  fields_annotations : List FieldAnnotation
  field_span : Span
deriving DecidableEq

/-- `enum_into::parser::VariantAnnotation` (the bare marker `Nothing`
carries no span in this direction). -/
inductive VariantAnnotation where
  | Nothing
  | EnumOnly (span : Span) (enum_ident : ContainerIdent)
  | EnumVariant (span : Span) (enum_ident : ContainerIdent) (variant_ident : VariantIdent)
deriving DecidableEq

/-- `enum_into::parser::VariantAnnotations` (the field table is a `HashMap`
keyed by `FieldRef`; its iteration order is the list order). -/
structure VariantAnnotations where
  variant_annotations : List VariantAnnotation
  fields_annotations : List (FieldRef × FieldAnnotations)
deriving DecidableEq

/-- `enum_into::parser::ContainerAnnotation`. -/
structure ContainerAnnotation where
  ident : ContainerIdent
deriving DecidableEq

/-- `enum_into::parser::ParsedEnumInto`. -/
structure ParsedEnumInto where
  source_enum : ContainerIdent
  container_annotations : List ContainerAnnotation
  variants_annotations : List (Variant × VariantAnnotations)
deriving DecidableEq

/-- `enum_into::generator::VariantMapping`. -/
inductive VariantMapping where
  | UnitToUnit (source_variant : VariantIdent)
  | TupleToTuple (source_variant : VariantIdent) (fields_mapping : List (Nat × Nat))
  | TupleToStruct (source_variant : VariantIdent) (fields_mapping : List (Nat × FieldIdent))
  | StructToStruct (source_variant : VariantIdent) (fields_mapping : List (FieldIdent × FieldIdent))
  | StructToTuple (source_variant : VariantIdent) (fields_mapping : List (FieldIdent × Nat))
deriving DecidableEq

/-- `VariantMapping::source_variant`. -/
def VariantMapping.source_variant : VariantMapping → VariantIdent
  | .UnitToUnit sv => sv
  | .TupleToTuple sv _ => sv
  | .TupleToStruct sv _ => sv
  | .StructToStruct sv _ => sv
  | .StructToTuple sv _ => sv

/-- `enum_into::generator::VariantsMapping`: per-target-enum table keyed by
the target variant, holding a vector of mappings. -/
abbrev VariantsMapping := List (VariantIdent × List VariantMapping)

/-- `enum_into::generator::EnumIntoGenerator`. -/
structure EnumIntoGenerator where
  target_enums : List (ContainerIdent × VariantsMapping)
  source_enum : ContainerIdent
  source_variants : List (VariantIdent × Variant)
deriving DecidableEq

/-- `enum_into::generator::extract_fields_annotations` (list pass). -/
def extract_fields_annotations_list :
    List (FieldRef × FieldAnnotations) → ContainerIdent → VariantIdent →
    Except Failure (List (FieldRef × FieldAnnotation) × List (FieldRef × FieldAnnotations))
  | [], _, _ => .ok ([], [])
  | (source_field, fas) :: rest, target_enum, target_variant =>
    let matching := fas.fields_annotations.filter
      (fun fa => fa.target_enum = target_enum ∧ fa.target_variant = target_variant)
    let remaining := fas.fields_annotations.filter
      (fun fa => ¬(fa.target_enum = target_enum ∧ fa.target_variant = target_variant))
    if 2 ≤ matching.length then
      .error (.syn fas.field_span
        ("Multiple mapping found for target enum `" ++ target_enum.name ++ "`"))
    else do
      let (extracted, residue) ← extract_fields_annotations_list rest target_enum target_variant
      let rest_entry := (source_field, { fas with fields_annotations := remaining })
      match matching with
      | [] => .ok (extracted, rest_entry :: residue)
      | a :: _ => .ok ((source_field, a) :: extracted, rest_entry :: residue)

/-- `enum_into::generator::extract_fields_annotations`: extract the
annotations scoped to `(target_enum, target_variant)` into a `BTreeMap`
keyed by the annotated (source) field; two on one field is an error. -/
def extract_fields_annotations (fields_annotations : List (FieldRef × FieldAnnotations))
    (target_enum : ContainerIdent) (target_variant : VariantIdent) :
    Except Failure (List (FieldRef × FieldAnnotation) × List (FieldRef × FieldAnnotations)) := do
  let (extracted, residue) ← extract_fields_annotations_list fields_annotations target_enum target_variant
  .ok (btreeOfList FieldRef.le extracted, residue)

/-- `enum_into::generator::compute_tuple_to_tuple_variant_mapping`. -/
def compute_tuple_to_tuple_variant_mapping
    (fields_annotations : List (FieldRef × FieldAnnotation)) (source_variant : VariantIdent) :
    Except Failure VariantMapping := do
  let fields_mapping ← exceptMap
    (fun p => match p with
      | (.FieldPos source_pos, fa) =>
        match fa.target_field with
        | .FieldPos target_pos => .ok (source_pos, target_pos)
        | .FieldIdent _ => .error (.syn fa.field_span "Unexpected mapping to named field while another field mapped to a positional field.")
      | (.FieldIdent _, fa) => .error (.syn fa.field_span "Unexpected mapping to named field while another field mapped to a positional field."))
    fields_annotations
  .ok (.TupleToTuple source_variant fields_mapping)

/-- `enum_into::generator::compute_struct_to_struct_variant_mapping`. -/
def compute_struct_to_struct_variant_mapping
    (fields_annotations : List (FieldRef × FieldAnnotation)) (source_variant : VariantIdent) :
    Except Failure VariantMapping := do
  let fields_mapping ← exceptMap
    (fun p => match p with
      | (.FieldIdent source_ident, fa) =>
        match fa.target_field with
        | .FieldIdent target_ident => .ok (source_ident, target_ident)
        | .FieldPos _ => .error (.syn fa.field_span "Unexpected mapping to positional field while another field mapped to a named field.")
      | (.FieldPos _, fa) => .error (.syn fa.field_span "Unexpected mapping to positional field while another field mapped to a named field."))
    fields_annotations
  .ok (.StructToStruct source_variant fields_mapping)

/-- `enum_into::generator::compute_struct_to_tuple_variant_mapping`
(the annotated source variant is a struct; every named field must carry an
annotation mapping it to a target position). -/
def compute_struct_to_tuple_variant_mapping
    (target_enum : ContainerIdent) (target_variant : VariantIdent)
    (fields_annotations : List (FieldRef × FieldAnnotation)) (fields : List (FieldIdent × Span))
    (source_variant : VariantIdent) : Except Failure VariantMapping := do
  let pairs ← exceptMap
    (fun p => match p with
      | (.FieldPos _, _) => .error (.panic "Source is a struct variant but got positional fields")
      | (.FieldIdent source_ident, fa) =>
        match fa.target_field with
        | .FieldPos target_pos => .ok (source_ident, target_pos)
        | .FieldIdent _ => .error (.syn fa.field_span "Unexpected mapping to named field while another field mapped to a positional field."))
    fields_annotations
  let fields_mapping := dedupKeysKeepLast pairs
  match (fields.find? (fun p => ¬ acontains fields_mapping p.1)) with
  | some (_, field_span) =>
    .error (.syn field_span
      ("Missing required mapping to named field for " ++ target_enum.name ++ "::" ++ target_variant.name))
  | none => .ok (.StructToTuple source_variant fields_mapping)

/-- `enum_into::generator::compute_tuple_to_struct_variant_mapping`
(the annotated source variant is a tuple; every position must carry an
annotation mapping it to a named target field). -/
def compute_tuple_to_struct_variant_mapping
    (target_enum : ContainerIdent) (target_variant : VariantIdent)
    (fields_annotations : List (FieldRef × FieldAnnotation)) (fields : List Span)
    (source_variant : VariantIdent) : Except Failure VariantMapping := do
  let pairs ← exceptMap
    (fun p => match p with
      | (.FieldIdent _, _) => .error (.panic "Source is a tuple variant but got named fields")
      | (.FieldPos source_pos, fa) =>
        match fa.target_field with
        | .FieldIdent target_ident => .ok (source_pos, target_ident)
        | .FieldPos _ => .error (.syn fa.field_span "Unexpected mapping to positional field while another field mapped to a named field."))
    fields_annotations
  let fields_mapping := dedupKeysKeepLast pairs
  match (fields.enum.find? (fun p => ¬ acontains fields_mapping p.1)) with
  | some (_, field_span) =>
    .error (.syn field_span
      ("Missing required mapping to named field for " ++ target_enum.name ++ "::" ++ target_variant.name))
  | none => .ok (.TupleToStruct source_variant fields_mapping)

/-- `enum_into::generator::compute_variant_mapping`. -/
def compute_variant_mapping (target_enum : ContainerIdent) (target_variant : VariantIdent)
    (fields_annotations : List (FieldRef × FieldAnnotation)) (fields : Fields)
    (source_variant : VariantIdent) : Except Failure VariantMapping :=
  match fields, (fields_annotations.head?.map (fun p => p.2.target_field) : Option FieldRef) with
  | .Unit, none => .ok (.UnitToUnit source_variant)
  | .Unit, some _ => .error (.panic "A unit variant cannot have field annotations")
  | .Unnamed _, none => compute_tuple_to_tuple_variant_mapping fields_annotations source_variant
  | .Unnamed _, some (.FieldPos _) => compute_tuple_to_tuple_variant_mapping fields_annotations source_variant
  | .Named _, none => compute_struct_to_struct_variant_mapping fields_annotations source_variant
  | .Named _, some (.FieldIdent _) => compute_struct_to_struct_variant_mapping fields_annotations source_variant
  | .Unnamed fs, some (.FieldIdent _) =>
    compute_tuple_to_struct_variant_mapping target_enum target_variant fields_annotations fs source_variant
  | .Named fs, some (.FieldPos _) =>
    compute_struct_to_tuple_variant_mapping target_enum target_variant fields_annotations fs source_variant

/-- `enum_into::generator::check_unused_variants_annotations`: any
variant-level annotation left after the loop references an undeclared
target enum. -/
def check_unused_variants_annotations :
    List (ContainerIdent × (VariantIdent × Span)) → Except Failure Unit
  | [] => .ok ()
  | (target_enum, (_, span)) :: _ =>
    .error (.syn span
      ("target enum `" ++ target_enum.name ++ "` is not specified in this enum's #[enum_into] annotation"))

/-- `enum_into::generator::check_unused_fields_annotations`. -/
def check_unused_fields_annotations (target_enums : List (ContainerIdent × VariantsMapping)) :
    List (FieldRef × FieldAnnotations) → Except Failure Unit
  | [] => .ok ()
  | (_, fas) :: rest =>
    match fas.fields_annotations with
    | [] => check_unused_fields_annotations target_enums rest
    | fa :: _ =>
      if acontains target_enums fa.target_enum then
        .error (.syn fa.variant_span "Field mapping for unexpected enum and variant combination")
      else
        .error (.syn fa.enum_span "Field mapping for unknown enum")

/-- The inner loop of `EnumIntoGenerator::try_from`: for one source
variant, walk every declared target enum, resolving the target variant
(explicit annotation or same-name default), extracting the scoped field
annotations and pushing the computed mapping.  Returns the updated
per-target-enum tables, the unconsumed variant-level annotation map and
the drained field-annotation map. -/
def process_target_enums (source_variant : Variant) :
    List (ContainerIdent × VariantsMapping) →
    List (ContainerIdent × (VariantIdent × Span)) × List (FieldRef × FieldAnnotations) →
    Except Failure (List (ContainerIdent × VariantsMapping) ×
      (List (ContainerIdent × (VariantIdent × Span)) × List (FieldRef × FieldAnnotations)))
  | [], st => .ok ([], st)
  | (target_enum, variants_mapping) :: rest, (target_variants, fields_annotations) => do
    let (removed, target_variants') := aremove target_variants target_enum
    let target_variant :=
      match removed with
      | some p => p.1
      | none => source_variant.ident
    let (extracted, residue) ← extract_fields_annotations fields_annotations target_enum target_variant
    let vm ← compute_variant_mapping target_enum target_variant extracted source_variant.fields source_variant.ident
    let (prev, variants_mapping') := aremove variants_mapping target_variant
    let updated := ainsert variants_mapping' target_variant ((prev.getD []) ++ [vm])
    let (rest', st') ← process_target_enums source_variant rest (target_variants', residue)
    .ok ((target_enum, updated) :: rest', st')

/-- The outer loop body of `EnumIntoGenerator::try_from`: process one
variant of the annotated (source) enum. -/
def process_variant
    (acc : List (ContainerIdent × VariantsMapping) × List (VariantIdent × Variant))
    (entry : Variant × VariantAnnotations) :
    Except Failure (List (ContainerIdent × VariantsMapping) × List (VariantIdent × Variant)) := do
  let (target_enums, source_variants) := acc
  let (source_variant, variant_annotations) := entry
  let target_variants :=
    (variant_annotations.variant_annotations.filterMap
      (fun va => match va with
        | .Nothing => none
        | .EnumOnly span enum_ident => some (enum_ident, (source_variant.ident, span))
        | .EnumVariant span enum_ident variant_ident => some (enum_ident, (variant_ident, span)))).foldl
      (fun m p => ainsert m p.1 p.2) []
  let (target_enums', st') ← process_target_enums source_variant target_enums
    (target_variants, variant_annotations.fields_annotations)
  check_unused_variants_annotations st'.1
  check_unused_fields_annotations target_enums' st'.2
  .ok (target_enums', ainsert source_variants source_variant.ident source_variant)

/-- `impl TryFrom<ParsedEnumInto> for EnumIntoGenerator`. -/
def EnumIntoGenerator.try_from (p : ParsedEnumInto) : Except Failure EnumIntoGenerator :=
  if p.container_annotations.isEmpty then
    .error (.syn callSite "enum_into attribute with target enum names is required")
  else do
    let target_enums := p.container_annotations.foldl
      (fun m ca => ainsert m ca.ident ([] : VariantsMapping)) []
    let (target_enums, source_variants) ←
      foldlE process_variant (target_enums, []) p.variants_annotations
    .ok { target_enums := target_enums, source_enum := p.source_enum, source_variants := source_variants }

/-- `enum_into::generator::generate_match_arm`; `variant` is the entry of
`source_variants` for the mapping's source variant. -/
def generate_match_arm (target_variant : VariantIdent) (variant_mapping : VariantMapping)
    (target_enum source_enum : ContainerIdent) (variant : Variant) : Option MatchArm :=
  match variant.fields, variant_mapping with
  | .Unit, .UnitToUnit source_variant =>
    some { source_enum := source_enum, source_variant := source_variant, pat := .unit,
           target_enum := target_enum, target_variant := target_variant, expr := .unit }
  | .Unnamed fs, .TupleToTuple source_variant fields_mapping =>
    let source_fields := (List.range fs.length).map fieldBinder
    let target_fields := (List.range fs.length).map
      (fun field_source_pos => fieldBinder ((alookup fields_mapping field_source_pos).getD field_source_pos))
    some { source_enum := source_enum, source_variant := source_variant, pat := .tuple source_fields,
           target_enum := target_enum, target_variant := target_variant, expr := .tuple target_fields }
  | .Unnamed fs, .TupleToStruct source_variant fields_mapping => do
    let target_idents ← optionMapList
      (fun field_source_pos => (alookup fields_mapping field_source_pos).map (fun fi => fi.name))
      (List.range fs.length)
    some { source_enum := source_enum, source_variant := source_variant, pat := .tuple target_idents,
           target_enum := target_enum, target_variant := target_variant,
           expr := .struct (target_idents.map (fun s => (s, s))) }
  | .Named fs, .StructToStruct source_variant fields_mapping =>
    let source_fields := fs.map (fun p => p.1.name)
    let target_fields := fs.map
      (fun p => ((((alookup fields_mapping p.1).getD p.1)).name, p.1.name))
    some { source_enum := source_enum, source_variant := source_variant, pat := .struct source_fields,
           target_enum := target_enum, target_variant := target_variant, expr := .struct target_fields }
  | .Named _, .StructToTuple source_variant fields_mapping =>
    let sorted := btreeOfList natLeB (fields_mapping.map (fun p => (p.2, p.1)))
    let idents := sorted.map (fun p => p.2.name)
    some { source_enum := source_enum, source_variant := source_variant, pat := .struct idents,
           target_enum := target_enum, target_variant := target_variant, expr := .tuple idents }
  | _, _ => none

/-- `enum_into::generator::generate_from_impl`: one impl block per target
enum, one arm per mapping in the vectors of the per-target-enum table.
The Rust code flat-maps over the `variants_mapping` `HashMap`, whose
group order is unspecified; `inner` makes it explicit (the `Vec` inside
each group keeps its push order). -/
def generate_from_impl (target_enum : ContainerIdent) (variants_mapping : VariantsMapping)
    (inner : List VariantIdent)
    (source_enum : ContainerIdent) (source_variants : List (VariantIdent × Variant)) :
    Option ImplBlock := do
  let arm_lists ← optionMapList
    (fun target_variant => do
      let group ← alookup variants_mapping target_variant
      optionMapList
        (fun vm => do
          let sv ← alookup source_variants (VariantMapping.source_variant vm)
          generate_match_arm target_variant vm target_enum source_enum sv)
        group)
    inner
  some { source_enum := source_enum, target_enum := target_enum, arms := arm_lists.flatten }

/-- `EnumIntoGenerator::generate` with the `HashMap` iteration orders over
target enums (`order`) and per-block target-variant groups (`inner`) made
explicit. -/
def EnumIntoGenerator.generate (g : EnumIntoGenerator) (order : List ContainerIdent)
    (inner : ContainerIdent → List VariantIdent) :
    Option (List ImplBlock) :=
  optionMapList
    (fun target_enum => do
      let variants_mapping ← alookup g.target_enums target_enum
      generate_from_impl target_enum variants_mapping (inner target_enum)
        g.source_enum g.source_variants)
    order

/-- An admissible family of inner iteration orders: for each target enum,
a permutation of its table's group keys. -/
def IsInnerIterOrder (inner : ContainerIdent → List VariantIdent)
    (m : List (ContainerIdent × VariantsMapping)) : Prop :=
  ∀ q ∈ m, (inner q.1).Perm (q.2.map Prod.fst)

end EnumInto

deriving instance DecidableEq for Except

theorem alookup_ainsert {κ α : Type} [DecidableEq κ] (m : List (κ × α)) (k x : κ) (v : α) :
    alookup (ainsert m k v) x = if x = k then some v else alookup m x := by
  induction m with
  | nil =>
    simp only [ainsert, alookup]
    by_cases h : x = k
    · subst h; simp
    · rw [if_neg (fun h' => h h'.symm), if_neg h]
  | cons p m ih =>
    obtain ⟨k', v'⟩ := p
    simp only [ainsert]
    by_cases hk : k' = k
    · subst hk
      simp only [if_pos rfl, alookup]
      by_cases hx : x = k'
      · subst hx; simp
      · rw [if_neg (fun h' => hx h'.symm), if_neg hx, if_neg (fun h' => hx h'.symm)]
    · rw [if_neg hk]
      simp only [alookup]
      by_cases hx : k' = x
      · subst hx
        rw [if_pos rfl, if_neg hk, if_pos rfl]
      · rw [if_neg hx, ih]
        by_cases hxk : x = k
        · rw [if_pos hxk, if_pos hxk]
        · rw [if_neg hxk, if_neg hxk, if_neg hx]

theorem mem_ainsert {κ α : Type} [DecidableEq κ] (m : List (κ × α)) (k : κ) (v : α)
    (p : κ × α) (h : p ∈ ainsert m k v) : p = (k, v) ∨ p ∈ m := by
  induction m with
  | nil =>
    simp [ainsert] at h
    simp [h]
  | cons q m ih =>
    obtain ⟨qk, qv⟩ := q
    simp only [ainsert] at h
    by_cases hq : qk = k
    · rw [if_pos hq] at h
      rcases List.mem_cons.mp h with h | h
      · exact Or.inl h
      · exact Or.inr (List.mem_cons_of_mem _ h)
    · rw [if_neg hq] at h
      rcases List.mem_cons.mp h with h | h
      · exact Or.inr (List.mem_cons.mpr (Or.inl h))
      · rcases ih h with h' | h'
        · exact Or.inl h'
        · exact Or.inr (List.mem_cons_of_mem _ h')

theorem alookup_eq_none_iff {κ α : Type} [DecidableEq κ] (m : List (κ × α)) (k : κ) :
    alookup m k = none ↔ k ∉ m.map Prod.fst := by
  induction m with
  | nil => simp [alookup]
  | cons p m ih =>
    obtain ⟨k', v'⟩ := p
    simp only [alookup, List.map_cons, List.mem_cons]
    by_cases h : k' = k
    · subst h; simp
    · rw [if_neg h, ih]
      constructor
      · intro hm hor
        rcases hor with h' | h'
        · exact h h'.symm
        · exact hm h'
      · intro hm h'
        exact hm (Or.inr h')

theorem aremove_of_not_mem {κ α : Type} [DecidableEq κ] (m : List (κ × α)) (k : κ)
    (h : alookup m k = none) : aremove m k = (none, m) := by
  induction m with
  | nil => simp [aremove]
  | cons p m ih =>
    obtain ⟨k', v'⟩ := p
    simp only [alookup] at h
    by_cases hk : k' = k
    · rw [if_pos hk] at h
      exact absurd h (by simp)
    · rw [if_neg hk] at h
      simp [aremove, hk, ih h]

theorem ainsert_of_not_mem {κ α : Type} [DecidableEq κ] (m : List (κ × α)) (k : κ) (v : α)
    (h : alookup m k = none) : ainsert m k v = m ++ [(k, v)] := by
  induction m with
  | nil => simp [ainsert]
  | cons p m ih =>
    obtain ⟨k', v'⟩ := p
    simp only [alookup] at h
    by_cases hk : k' = k
    · rw [if_pos hk] at h
      exact absurd h (by simp)
    · rw [if_neg hk] at h
      simp [ainsert, hk, ih h]

theorem alookup_append {κ α : Type} [DecidableEq κ] (m1 m2 : List (κ × α)) (x : κ) :
    alookup (m1 ++ m2) x =
      match alookup m1 x with
      | some v => some v
      | none => alookup m2 x := by
  induction m1 with
  | nil => simp [alookup]
  | cons p m ih =>
    obtain ⟨k', v'⟩ := p
    by_cases h : k' = x <;> simp [alookup, h, ih]

/-- The per-shape mapping the from-direction resolver computes when a
variant carries no field annotations. -/
def EnumFrom.defaultFromMapping (v : Variant) : EnumFrom.VariantMapping :=
  match v.fields with
  | .Unit => .UnitToUnit v.ident
  | .Unnamed _ => .TupleToTuple v.ident []
  | .Named _ => .StructToStruct v.ident []

/-- The per-shape mapping the into-direction resolver computes when a
variant carries no field annotations. -/
def EnumInto.defaultIntoMapping (v : Variant) : EnumInto.VariantMapping :=
  match v.fields with
  | .Unit => .UnitToUnit v.ident
  | .Unnamed _ => .TupleToTuple v.ident []
  | .Named _ => .StructToStruct v.ident []

theorem from_extract_all_empty (l : List (FieldRef × EnumFrom.FieldAnnotations))
    (E : ContainerIdent) (W : VariantIdent)
    (h : ∀ p ∈ l, p.2.fields_annotations = []) :
    EnumFrom.extract_fields_annotations l E W = .ok ([], l) := by
  have hlist : EnumFrom.extract_fields_annotations_list l E W = .ok ([], l) := by
    induction l with
    | nil => rfl
    | cons p l ih =>
      obtain ⟨fr, fas⟩ := p
      obtain ⟨fl, sp⟩ := fas
      have hp : fl = [] := h _ (List.mem_cons_self _ _)
      subst hp
      have ih' := ih (fun q hq => h q (List.mem_cons_of_mem _ hq))
      simp [EnumFrom.extract_fields_annotations_list, ih', List.filter, Bind.bind, Except.bind]
  simp [EnumFrom.extract_fields_annotations, hlist, btreeOfList, dedupKeysKeepLast, sortBy,
    Bind.bind, Except.bind]

theorem into_extract_all_empty (l : List (FieldRef × EnumInto.FieldAnnotations))
    (E : ContainerIdent) (W : VariantIdent)
    (h : ∀ p ∈ l, p.2.fields_annotations = []) :
    EnumInto.extract_fields_annotations l E W = .ok ([], l) := by
  have hlist : EnumInto.extract_fields_annotations_list l E W = .ok ([], l) := by
    induction l with
    | nil => rfl
    | cons p l ih =>
      obtain ⟨fr, fas⟩ := p
      obtain ⟨fl, sp⟩ := fas
      have hp : fl = [] := h _ (List.mem_cons_self _ _)
      subst hp
      have ih' := ih (fun q hq => h q (List.mem_cons_of_mem _ hq))
      simp [EnumInto.extract_fields_annotations_list, ih', List.filter, Bind.bind, Except.bind]
  simp [EnumInto.extract_fields_annotations, hlist, btreeOfList, dedupKeysKeepLast, sortBy,
    Bind.bind, Except.bind]

theorem from_check_unused_all_empty (se : List (ContainerIdent × EnumFrom.VariantsMapping))
    (l : List (FieldRef × EnumFrom.FieldAnnotations))
    (h : ∀ p ∈ l, p.2.fields_annotations = []) :
    EnumFrom.check_unused_fields_annotations se l = .ok () := by
  induction l with
  | nil => rfl
  | cons p l ih =>
    obtain ⟨fr, fas⟩ := p
    have hp : fas.fields_annotations = [] := h _ (List.mem_cons_self _ _)
    have ih' := ih (fun q hq => h q (List.mem_cons_of_mem _ hq))
    simp [EnumFrom.check_unused_fields_annotations, hp, ih']

theorem into_check_unused_all_empty (se : List (ContainerIdent × EnumInto.VariantsMapping))
    (l : List (FieldRef × EnumInto.FieldAnnotations))
    (h : ∀ p ∈ l, p.2.fields_annotations = []) :
    EnumInto.check_unused_fields_annotations se l = .ok () := by
  induction l with
  | nil => rfl
  | cons p l ih =>
    obtain ⟨fr, fas⟩ := p
    have hp : fas.fields_annotations = [] := h _ (List.mem_cons_self _ _)
    have ih' := ih (fun q hq => h q (List.mem_cons_of_mem _ hq))
    simp [EnumInto.check_unused_fields_annotations, hp, ih']

theorem from_compute_empty (E : ContainerIdent) (W : VariantIdent) (v : Variant) :
    EnumFrom.compute_variant_mapping E W [] v.fields v.ident =
      .ok (EnumFrom.defaultFromMapping v) := by
  cases h : v.fields <;>
    simp [EnumFrom.compute_variant_mapping, EnumFrom.defaultFromMapping,
      EnumFrom.compute_tuple_to_tuple_variant_mapping,
      EnumFrom.compute_struct_to_struct_variant_mapping, exceptMap, Bind.bind, Except.bind, h]

theorem into_compute_empty (E : ContainerIdent) (W : VariantIdent) (v : Variant) :
    EnumInto.compute_variant_mapping E W [] v.fields v.ident =
      .ok (EnumInto.defaultIntoMapping v) := by
  cases h : v.fields <;>
    simp [EnumInto.compute_variant_mapping, EnumInto.defaultIntoMapping,
      EnumInto.compute_tuple_to_tuple_variant_mapping,
      EnumInto.compute_struct_to_struct_variant_mapping, exceptMap, Bind.bind, Except.bind, h]

theorem into_process_variant_no_ann (P : ContainerIdent)
    (tbl0 : EnumInto.VariantsMapping) (svs0 : List (VariantIdent × Variant))
    (v : Variant) (anns : EnumInto.VariantAnnotations)
    (h1 : anns.variant_annotations = [])
    (h2 : ∀ q ∈ anns.fields_annotations, q.2.fields_annotations = [])
    (h3 : alookup tbl0 v.ident = none) (h4 : alookup svs0 v.ident = none) :
    EnumInto.process_variant ([(P, tbl0)], svs0) (v, anns) =
      .ok ([(P, tbl0 ++ [(v.ident, [EnumInto.defaultIntoMapping v])])],
        svs0 ++ [(v.ident, v)]) := by
  have hx := into_extract_all_empty anns.fields_annotations P v.ident h2
  have hc := into_compute_empty P v.ident v
  have hr := aremove_of_not_mem tbl0 v.ident h3
  have hi := ainsert_of_not_mem tbl0 v.ident [EnumInto.defaultIntoMapping v] h3
  have hs := ainsert_of_not_mem svs0 v.ident v h4
  have hcheck := into_check_unused_all_empty
    [(P, tbl0 ++ [(v.ident, [EnumInto.defaultIntoMapping v])])] anns.fields_annotations h2
  simp [EnumInto.process_variant, EnumInto.process_target_enums, h1, aremove,
    hx, hc, hr, hi, hs, hcheck, EnumInto.check_unused_variants_annotations,
    Bind.bind, Except.bind]

theorem from_process_variant_bare (P : ContainerIdent)
    (tbl0 : EnumFrom.VariantsMapping) (tvs0 : List (VariantIdent × Variant))
    (v : Variant) (anns : EnumFrom.VariantAnnotations) (s : Span)
    (h1 : anns.variant_annotations = [.Nothing s])
    (h2 : ∀ q ∈ anns.fields_annotations, q.2.fields_annotations = [])
    (h3 : alookup tbl0 v.ident = none) (h4 : alookup tvs0 v.ident = none) :
    EnumFrom.process_variant (some P) ([(P, tbl0)], tvs0) (v, anns) =
      .ok ([(P, tbl0 ++ [(v.ident, EnumFrom.defaultFromMapping v)])],
        tvs0 ++ [(v.ident, v)]) := by
  have hx := from_extract_all_empty anns.fields_annotations P v.ident h2
  have hc := from_compute_empty P v.ident v
  have hi := ainsert_of_not_mem tbl0 v.ident (EnumFrom.defaultFromMapping v) h3
  have hs := ainsert_of_not_mem tvs0 v.ident v h4
  have hcheck := from_check_unused_all_empty
    [(P, tbl0 ++ [(v.ident, EnumFrom.defaultFromMapping v)])] anns.fields_annotations h2
  simp [EnumFrom.process_variant, foldlE, EnumFrom.process_variant_annot,
    EnumFrom.get_source_enum_and_variant, h1, alookup, ainsert,
    hx, hc, hi, hs, hcheck, Bind.bind, Except.bind]

theorem into_fold_no_ann (P : ContainerIdent) :
    ∀ (vs : List (Variant × EnumInto.VariantAnnotations))
      (tbl0 : EnumInto.VariantsMapping) (svs0 : List (VariantIdent × Variant)),
      (∀ e ∈ vs, e.2.variant_annotations = [] ∧
        ∀ q ∈ e.2.fields_annotations, q.2.fields_annotations = []) →
      (∀ e ∈ vs, alookup tbl0 e.1.ident = none ∧ alookup svs0 e.1.ident = none) →
      (vs.map (fun e => e.1.ident)).Nodup →
      foldlE EnumInto.process_variant ([(P, tbl0)], svs0) vs =
        .ok ([(P, tbl0 ++ vs.map (fun e => (e.1.ident, [EnumInto.defaultIntoMapping e.1])))],
          svs0 ++ vs.map (fun e => (e.1.ident, e.1)))
  | [], tbl0, svs0, _, _, _ => by simp [foldlE]
  | (v, anns) :: rest, tbl0, svs0, hann, hfresh, hnodup => by
    have hhead := hann _ (List.mem_cons_self _ _)
    have hf := hfresh _ (List.mem_cons_self _ _)
    have hstep := into_process_variant_no_ann P tbl0 svs0 v anns hhead.1 hhead.2 hf.1 hf.2
    have hne : ∀ e ∈ rest, e.1.ident ≠ v.ident := by
      intro e he heq
      have : v.ident ∈ rest.map (fun e => e.1.ident) := by
        exact List.mem_map.mpr ⟨e, he, heq⟩
      simp only [List.map_cons, List.nodup_cons] at hnodup
      exact hnodup.1 this
    have hrest := into_fold_no_ann P rest
      (tbl0 ++ [(v.ident, [EnumInto.defaultIntoMapping v])])
      (svs0 ++ [(v.ident, v)])
      (fun e he => hann e (List.mem_cons_of_mem _ he))
      (by
        intro e he
        have hfe := hfresh e (List.mem_cons_of_mem _ he)
        constructor
        · rw [alookup_append, hfe.1]
          simp [alookup, Ne.symm (hne e he)]
        · rw [alookup_append, hfe.2]
          simp [alookup, Ne.symm (hne e he)])
      (by
        simp only [List.map_cons, List.nodup_cons] at hnodup
        exact hnodup.2)
    simp only [foldlE, hstep, Bind.bind, Except.bind, hrest, List.map_cons]
    simp [List.append_assoc]

theorem from_fold_bare (P : ContainerIdent) :
    ∀ (vs : List (Variant × EnumFrom.VariantAnnotations))
      (tbl0 : EnumFrom.VariantsMapping) (tvs0 : List (VariantIdent × Variant)),
      (∀ e ∈ vs, (∃ s, e.2.variant_annotations = [.Nothing s]) ∧
        ∀ q ∈ e.2.fields_annotations, q.2.fields_annotations = []) →
      (∀ e ∈ vs, alookup tbl0 e.1.ident = none ∧ alookup tvs0 e.1.ident = none) →
      (vs.map (fun e => e.1.ident)).Nodup →
      foldlE (EnumFrom.process_variant (some P)) ([(P, tbl0)], tvs0) vs =
        .ok ([(P, tbl0 ++ vs.map (fun e => (e.1.ident, EnumFrom.defaultFromMapping e.1)))],
          tvs0 ++ vs.map (fun e => (e.1.ident, e.1)))
  | [], tbl0, tvs0, _, _, _ => by simp [foldlE]
  | (v, anns) :: rest, tbl0, tvs0, hann, hfresh, hnodup => by
    have hhead := hann _ (List.mem_cons_self _ _)
    obtain ⟨s, hs⟩ := hhead.1
    have hf := hfresh _ (List.mem_cons_self _ _)
    have hstep := from_process_variant_bare P tbl0 tvs0 v anns s hs hhead.2 hf.1 hf.2
    have hne : ∀ e ∈ rest, e.1.ident ≠ v.ident := by
      intro e he heq
      have : v.ident ∈ rest.map (fun e => e.1.ident) := by
        exact List.mem_map.mpr ⟨e, he, heq⟩
      simp only [List.map_cons, List.nodup_cons] at hnodup
      exact hnodup.1 this
    have hrest := from_fold_bare P rest
      (tbl0 ++ [(v.ident, EnumFrom.defaultFromMapping v)])
      (tvs0 ++ [(v.ident, v)])
      (fun e he => hann e (List.mem_cons_of_mem _ he))
      (by
        intro e he
        have hfe := hfresh e (List.mem_cons_of_mem _ he)
        constructor
        · rw [alookup_append, hfe.1]
          simp [alookup, Ne.symm (hne e he)]
        · rw [alookup_append, hfe.2]
          simp [alookup, Ne.symm (hne e he)])
      (by
        simp only [List.map_cons, List.nodup_cons] at hnodup
        exact hnodup.2)
    simp only [foldlE, hstep, Bind.bind, Except.bind, hrest, List.map_cons]
    simp [List.append_assoc]

/-- C1 counterexample input: unions `Target` and `Source` with the same
single unit variant `A`; no variant-level or field-level annotations at
all, only the container-level pairing. -/
def c1ex : EnumFrom.ParsedEnumFrom :=
  { target_enum := ⟨"Target"⟩
  , container_annotations := [⟨⟨"Source"⟩⟩]
  , variants_annotations := [(⟨⟨"A"⟩, .Unit⟩, ⟨[], []⟩)] }

/-- C1 counterexample: in the from direction, with no variant-level
annotations at all, resolution succeeds but produces an *empty* mapping
table for the paired union — not one `VariantMapping` per variant (the
annotated union has one variant).  A variant participates in the from
direction only if it carries at least the bare `#[enum_from]` marker. -/
theorem c1_counterexample :
    EnumFrom.EnumFromGenerator.try_from c1ex =
      .ok { source_enums := [(⟨"Source"⟩, [])], target_enum := ⟨"Target"⟩,
            target_variants := [(⟨"A"⟩, ⟨⟨"A"⟩, .Unit⟩)] } ∧
    c1ex.variants_annotations.length = 1 := by
  constructor
  · rfl
  · rfl

/-- C1 amended: for unions with identical variant names and shapes and a
single paired union, (a) in the into direction, with no annotations at
all, resolution succeeds and produces exactly one `VariantMapping` per
variant, pairing the same-named variant, with an empty stored field table;
(b) in the from direction the same holds provided every variant carries
the bare `#[enum_from]` marker (without any marker a variant receives no
mapping); (c) the empty field table is completed by the emission step's
defaulting to the identity map by position (tuple) or by name (struct). -/
theorem c1_amended
    (S P T : ContainerIdent)
    (ivs : List (Variant × EnumInto.VariantAnnotations))
    (fvs : List (Variant × EnumFrom.VariantAnnotations))
    (hi1 : ∀ e ∈ ivs, e.2.variant_annotations = [] ∧
      ∀ q ∈ e.2.fields_annotations, q.2.fields_annotations = [])
    (hi2 : (ivs.map (fun e => e.1.ident)).Nodup)
    (hf1 : ∀ e ∈ fvs, (∃ s, e.2.variant_annotations = [.Nothing s]) ∧
      ∀ q ∈ e.2.fields_annotations, q.2.fields_annotations = [])
    (hf2 : (fvs.map (fun e => e.1.ident)).Nodup) :
    EnumInto.EnumIntoGenerator.try_from ⟨S, [⟨P⟩], ivs⟩ =
      .ok { target_enums := [(P, ivs.map (fun e => (e.1.ident, [EnumInto.defaultIntoMapping e.1])))],
            source_enum := S,
            source_variants := ivs.map (fun e => (e.1.ident, e.1)) } ∧
    EnumFrom.EnumFromGenerator.try_from ⟨T, [⟨P⟩], fvs⟩ =
      .ok { source_enums := [(P, fvs.map (fun e => (e.1.ident, EnumFrom.defaultFromMapping e.1)))],
            target_enum := T,
            target_variants := fvs.map (fun e => (e.1.ident, e.1)) } ∧
    (∀ k : Nat, ((alookup ([] : List (Nat × Nat)) k).getD k) = k) ∧
    (∀ fi : FieldIdent, ((alookup ([] : List (FieldIdent × FieldIdent)) fi).getD fi) = fi) := by
  refine ⟨?_, ?_, fun k => rfl, fun fi => rfl⟩
  · have h := into_fold_no_ann P ivs [] [] hi1 (fun e _ => ⟨rfl, rfl⟩) hi2
    simp [EnumInto.EnumIntoGenerator.try_from, ainsert, h, Bind.bind, Except.bind]
  · have h := from_fold_bare P fvs [] [] hf1 (fun e _ => ⟨rfl, rfl⟩) hf2
    simp [EnumFrom.EnumFromGenerator.try_from, ainsert, h, Bind.bind, Except.bind]

/-- Witness for C1's amended theorem at a concrete input. -/
theorem c1_witness :
    EnumInto.EnumIntoGenerator.try_from
      ⟨⟨"S"⟩, [⟨⟨"P"⟩⟩], [(⟨⟨"A"⟩, .Unit⟩, ⟨[], []⟩)]⟩ =
      .ok { target_enums := [(⟨"P"⟩, [(⟨"A"⟩, [.UnitToUnit ⟨"A"⟩])])],
            source_enum := ⟨"S"⟩,
            source_variants := [(⟨"A"⟩, ⟨⟨"A"⟩, .Unit⟩)] } :=
  (c1_amended ⟨"S"⟩ ⟨"P"⟩ ⟨"T"⟩
    [(⟨⟨"A"⟩, .Unit⟩, ⟨[], []⟩)] [(⟨⟨"B"⟩, .Unit⟩, ⟨[.Nothing 3], []⟩)]
    (by intro e he; simp at he; subst he; exact ⟨rfl, by intro q hq; simp at hq⟩)
    (by simp)
    (by intro e he; simp at he; subst he; exact ⟨⟨3, rfl⟩, by intro q hq; simp at hq⟩)
    (by simp)).1

theorem filterMap_filter_of_none {α β : Type} (f : α → Option β) (p : α → Bool)
    (hf : ∀ a, p a = false → f a = none) :
    ∀ l : List α, (l.filter p).filterMap f = l.filterMap f := by
  intro l
  induction l with
  | nil => rfl
  | cons a l ih =>
    by_cases hp : p a
    · simp [List.filter, hp, List.filterMap_cons, ih]
    · simp only [Bool.not_eq_true] at hp
      simp [List.filter, hp, List.filterMap_cons, hf a hp, ih]

theorem foldlE_congr_map {σ α : Type} (f : σ → α → Except Failure σ) (g : α → α)
    (h : ∀ acc a, f acc (g a) = f acc a) :
    ∀ (l : List α) (s : σ), foldlE f s (l.map g) = foldlE f s l := by
  intro l
  induction l with
  | nil => intro s; rfl
  | cons a l ih =>
    intro s
    simp only [List.map_cons, foldlE, h, Bind.bind]
    cases f s a with
    | error e => rfl
    | ok s' => exact ih s'

/-- The into direction's `ParsedEnumInto` with every bare `#[enum_into]`
marker (`VariantAnnotation::Nothing`) removed. -/
def EnumInto.stripMarkerOne (va : EnumInto.VariantAnnotations) : EnumInto.VariantAnnotations :=
  { va with variant_annotations := va.variant_annotations.filter (fun a => a ≠ .Nothing) }

def EnumInto.stripBareMarkers (p : EnumInto.ParsedEnumInto) : EnumInto.ParsedEnumInto :=
  { p with variants_annotations :=
      p.variants_annotations.map (fun e => (e.1, EnumInto.stripMarkerOne e.2)) }

theorem from_pva_nothing_multi (v : Variant)
    (st : List (ContainerIdent × EnumFrom.VariantsMapping) × List (FieldRef × EnumFrom.FieldAnnotations))
    (s : Span) :
    EnumFrom.process_variant_annot none v st (.Nothing s) =
      .error (.syn s "When multiple source enums are specified, each variant must specify from which enum to convert with #[enum_from(Enum)] or #[enum_from(Enum::Variant)]") := by
  obtain ⟨se, fa⟩ := st
  rfl

theorem from_process_variant_nothing_multi
    (acc : List (ContainerIdent × EnumFrom.VariantsMapping) × List (VariantIdent × Variant))
    (v : Variant) (anns : EnumFrom.VariantAnnotations) (s : Span)
    (arest : List EnumFrom.VariantAnnotation)
    (h : anns.variant_annotations = .Nothing s :: arest) :
    EnumFrom.process_variant none acc (v, anns) =
      .error (.syn s "When multiple source enums are specified, each variant must specify from which enum to convert with #[enum_from(Enum)] or #[enum_from(Enum::Variant)]") := by
  obtain ⟨se, tvs⟩ := acc
  simp [EnumFrom.process_variant, h, foldlE, from_pva_nothing_multi, Bind.bind, Except.bind]

theorem into_process_variant_strip
    (acc : List (ContainerIdent × EnumInto.VariantsMapping) × List (VariantIdent × Variant))
    (e : Variant × EnumInto.VariantAnnotations) :
    EnumInto.process_variant acc (e.1, EnumInto.stripMarkerOne e.2) =
      EnumInto.process_variant acc e := by
  obtain ⟨v, anns⟩ := e
  obtain ⟨te, svs⟩ := acc
  simp only [EnumInto.process_variant, EnumInto.stripMarkerOne]
  rw [filterMap_filter_of_none _ _ (by intro a ha; cases a <;> simp_all)]

theorem into_try_from_strip (p : EnumInto.ParsedEnumInto) :
    EnumInto.EnumIntoGenerator.try_from (EnumInto.stripBareMarkers p) =
      EnumInto.EnumIntoGenerator.try_from p := by
  simp only [EnumInto.EnumIntoGenerator.try_from, EnumInto.stripBareMarkers]
  by_cases h : p.container_annotations.isEmpty
  · simp [h]
  · simp only [h, if_neg, Bool.false_eq_true, not_false_eq_true]
    rw [foldlE_congr_map EnumInto.process_variant
      (fun e => (e.1, EnumInto.stripMarkerOne e.2)) into_process_variant_strip]

/-- C2 counterexample input: the into direction with two declared target
enums and a bare `#[enum_into]` marker (`Nothing`) on the only variant. -/
def c2ex : EnumInto.ParsedEnumInto :=
  { source_enum := ⟨"Source"⟩
  , container_annotations := [⟨⟨"A"⟩⟩, ⟨⟨"B"⟩⟩]
  , variants_annotations := [(⟨⟨"Unit"⟩, .Unit⟩, ⟨[.Nothing], []⟩)] }

/-- C2 counterexample: in the into direction a bare marker with more than
one paired union does **not** fail with an ambiguity error — the resolver
silently drops the marker and default-maps the variant to **every**
declared target enum by name identity. -/
theorem c2_counterexample :
    EnumInto.EnumIntoGenerator.try_from c2ex =
      .ok { target_enums := [(⟨"A"⟩, [(⟨"Unit"⟩, [.UnitToUnit ⟨"Unit"⟩])]),
                             (⟨"B"⟩, [(⟨"Unit"⟩, [.UnitToUnit ⟨"Unit"⟩])])],
            source_enum := ⟨"Source"⟩,
            source_variants := [(⟨"Unit"⟩, ⟨⟨"Unit"⟩, .Unit⟩)] } := by
  rfl

/-- C2 amended: (a) in the from direction a bare `Nothing` marker resolved
against no single source enum is the ambiguity error, and (b) with two or
more declared source enums a variant whose annotations start with the bare
marker makes the whole resolution fail with exactly that error; (c) in the
into direction bare markers are silently discarded: resolution is
unchanged when all of them are removed (so no `AmbiguousTarget` error
exists; the variant still receives the default mapping to every declared
target). -/
theorem c2_amended :
    (∀ (v : Variant) (s : Span),
      EnumFrom.get_source_enum_and_variant v none (.Nothing s) =
        .error (.syn s "When multiple source enums are specified, each variant must specify from which enum to convert with #[enum_from(Enum)] or #[enum_from(Enum::Variant)]")) ∧
    (∀ (T : ContainerIdent) (ca1 ca2 : EnumFrom.ContainerAnnotation)
      (cs : List EnumFrom.ContainerAnnotation)
      (v : Variant) (anns : EnumFrom.VariantAnnotations) (s : Span)
      (arest : List EnumFrom.VariantAnnotation)
      (rest : List (Variant × EnumFrom.VariantAnnotations)),
      anns.variant_annotations = .Nothing s :: arest →
      EnumFrom.EnumFromGenerator.try_from ⟨T, ca1 :: ca2 :: cs, (v, anns) :: rest⟩ =
        .error (.syn s "When multiple source enums are specified, each variant must specify from which enum to convert with #[enum_from(Enum)] or #[enum_from(Enum::Variant)]")) ∧
    (∀ p : EnumInto.ParsedEnumInto,
      EnumInto.EnumIntoGenerator.try_from (EnumInto.stripBareMarkers p) =
        EnumInto.EnumIntoGenerator.try_from p) := by
  refine ⟨fun v s => rfl, ?_, into_try_from_strip⟩
  intro T ca1 ca2 cs v anns s arest rest h
  simp only [EnumFrom.EnumFromGenerator.try_from, foldlE, Bind.bind, Except.bind]
  rw [from_process_variant_nothing_multi _ v anns s arest h]

/-- Witness for C2's amended theorem at a concrete input. -/
theorem c2_witness :
    EnumFrom.EnumFromGenerator.try_from
      ⟨⟨"T"⟩, [⟨⟨"A"⟩⟩, ⟨⟨"B"⟩⟩], [(⟨⟨"U"⟩, .Unit⟩, ⟨[.Nothing 7], []⟩)]⟩ =
      .error (.syn 7 "When multiple source enums are specified, each variant must specify from which enum to convert with #[enum_from(Enum)] or #[enum_from(Enum::Variant)]") :=
  c2_amended.2.1 ⟨"T"⟩ ⟨⟨"A"⟩⟩ ⟨⟨"B"⟩⟩ [] ⟨⟨"U"⟩, .Unit⟩ ⟨[.Nothing 7], []⟩ 7 [] [] rfl

/-- C10: in the from direction, when two different variants of the
annotated union both claim the same `(source enum, source variant)` pair,
resolution succeeds with no diagnostic and the per-source-enum table
(keyed by source variant) retains only the mapping of the later-processed
variant — the second insertion silently replaces the first. -/
theorem c10_theorem (T E : ContainerIdent) (W v1 v2 : VariantIdent)
    (s1 s2 : Span) (hv : v1 ≠ v2) :
    EnumFrom.EnumFromGenerator.try_from
      ⟨T, [⟨E⟩], [(⟨v1, .Unit⟩, ⟨[.EnumVariant s1 E W], []⟩),
                  (⟨v2, .Unit⟩, ⟨[.EnumVariant s2 E W], []⟩)]⟩ =
      .ok { source_enums := [(E, [(W, .UnitToUnit v2)])], target_enum := T,
            target_variants := [(v1, ⟨v1, .Unit⟩), (v2, ⟨v2, .Unit⟩)] } := by
  simp [EnumFrom.EnumFromGenerator.try_from, foldlE, EnumFrom.process_variant,
    EnumFrom.process_variant_annot, EnumFrom.get_source_enum_and_variant,
    EnumFrom.extract_fields_annotations, EnumFrom.extract_fields_annotations_list,
    btreeOfList, dedupKeysKeepLast, sortBy, EnumFrom.compute_variant_mapping,
    EnumFrom.check_unused_fields_annotations, alookup, ainsert, hv,
    Bind.bind, Except.bind]

/-- Witness for C10 at concrete idents. -/
theorem c10_witness :
    EnumFrom.EnumFromGenerator.try_from
      ⟨⟨"T"⟩, [⟨⟨"E"⟩⟩], [(⟨⟨"V1"⟩, .Unit⟩, ⟨[.EnumVariant 1 ⟨"E"⟩ ⟨"W"⟩], []⟩),
                  (⟨⟨"V2"⟩, .Unit⟩, ⟨[.EnumVariant 2 ⟨"E"⟩ ⟨"W"⟩], []⟩)]⟩ =
      .ok { source_enums := [(⟨"E"⟩, [(⟨"W"⟩, .UnitToUnit ⟨"V2"⟩)])], target_enum := ⟨"T"⟩,
            target_variants := [(⟨"V1"⟩, ⟨⟨"V1"⟩, .Unit⟩), (⟨"V2"⟩, ⟨⟨"V2"⟩, .Unit⟩)] } :=
  c10_theorem ⟨"T"⟩ ⟨"E"⟩ ⟨"W"⟩ ⟨"V1"⟩ ⟨"V2"⟩ 1 2 (by decide)

theorem foldlE_preserves {σ α : Type} (P : σ → Prop) (f : σ → α → Except Failure σ)
    (h : ∀ s a s', P s → f s a = .ok s' → P s') :
    ∀ (l : List α) (s s' : σ), P s → foldlE f s l = .ok s' → P s' := by
  intro l
  induction l with
  | nil =>
    intro s s' hP hf
    simp only [foldlE] at hf
    cases hf
    exact hP
  | cons a l ih =>
    intro s s' hP hf
    simp only [foldlE, Bind.bind, Except.bind] at hf
    cases hfa : f s a with
    | error e => rw [hfa] at hf; cases hf
    | ok s1 =>
      rw [hfa] at hf
      exact ih s1 s' (h s a s1 hP hfa) hf

theorem foldlE_error_of_mem {σ α : Type} (P : σ → Prop) (f : σ → α → Except Failure σ)
    (hpres : ∀ s a s', P s → f s a = .ok s' → P s')
    (a : α) (herr : ∀ s, P s → ∃ e, f s a = .error e) :
    ∀ (l : List α) (s : σ), a ∈ l → P s → ∃ e, foldlE f s l = .error e := by
  intro l
  induction l with
  | nil => intro s ha; cases ha
  | cons b l ih =>
    intro s hmem hP
    rcases List.mem_cons.mp hmem with hb | hb
    · subst hb
      obtain ⟨e, he⟩ := herr s hP
      exact ⟨e, by simp [foldlE, he, Bind.bind, Except.bind]⟩
    · cases hfb : f s b with
      | error e => exact ⟨e, by simp [foldlE, hfb, Bind.bind, Except.bind]⟩
      | ok s1 =>
        obtain ⟨e, he⟩ := ih s1 hb (hpres s b s1 hP hfb)
        exact ⟨e, by simp [foldlE, hfb, he, Bind.bind, Except.bind]⟩

theorem alookup_aremove_ne {κ α : Type} [DecidableEq κ] (m : List (κ × α)) (k x : κ)
    (hx : x ≠ k) : alookup (aremove m k).2 x = alookup m x := by
  induction m with
  | nil => simp [aremove]
  | cons p m ih =>
    obtain ⟨k', v'⟩ := p
    by_cases hk : k' = k
    · subst hk
      simp [aremove, alookup, Ne.symm hx]
    · simp only [aremove, if_neg hk]
      by_cases hkx : k' = x
      · subst hkx
        simp [alookup]
      · simp [alookup, hkx, ih]

theorem ainsert_keys_of_mem {κ α : Type} [DecidableEq κ] (m : List (κ × α)) (k : κ) (v : α)
    (h : (alookup m k).isSome) : (ainsert m k v).map Prod.fst = m.map Prod.fst := by
  induction m with
  | nil => simp [alookup] at h
  | cons p m ih =>
    obtain ⟨k', v'⟩ := p
    by_cases hk : k' = k
    · subst hk
      simp [ainsert]
    · simp only [alookup, if_neg hk] at h
      simp [ainsert, hk, ih h]

theorem alookup_foldl_ainsert_notmem {κ α β : Type} [DecidableEq κ]
    (f : β → κ) (c : α) (E : κ) :
    ∀ (l : List β) (m0 : List (κ × α)), alookup m0 E = none →
      (∀ b ∈ l, f b ≠ E) →
      alookup (l.foldl (fun m b => ainsert m (f b) c) m0) E = none := by
  intro l
  induction l with
  | nil => intro m0 h0 _; simpa using h0
  | cons b l ih =>
    intro m0 h0 hne
    simp only [List.foldl_cons]
    refine ih (ainsert m0 (f b) c) ?_ (fun b' hb' => hne b' (List.mem_cons_of_mem _ hb'))
    rw [alookup_ainsert]
    rw [if_neg (fun h => hne b (List.mem_cons_self _ _) h.symm)]
    exact h0

theorem from_pva_ok_shape (single : Option ContainerIdent) (v : Variant)
    (st st' : List (ContainerIdent × EnumFrom.VariantsMapping) × List (FieldRef × EnumFrom.FieldAnnotations))
    (va : EnumFrom.VariantAnnotation)
    (hok : EnumFrom.process_variant_annot single v st va = .ok st') :
    ∃ k x, (alookup st.1 k).isSome ∧ st'.1 = ainsert st.1 k x := by
  obtain ⟨se, fa⟩ := st
  simp only [EnumFrom.process_variant_annot, Bind.bind, Except.bind] at hok
  cases hgs : EnumFrom.get_source_enum_and_variant v single va with
  | error e => rw [hgs] at hok; cases hok
  | ok triple =>
    rw [hgs] at hok
    obtain ⟨k, sv, sp⟩ := triple
    simp only at hok
    cases hlk : alookup se k with
    | none => rw [hlk] at hok; cases hok
    | some vm =>
      rw [hlk] at hok
      simp only at hok
      cases hex : EnumFrom.extract_fields_annotations fa k sv with
      | error e => rw [hex] at hok; cases hok
      | ok pair =>
        rw [hex] at hok
        obtain ⟨ex, res⟩ := pair
        simp only at hok
        cases hcm : EnumFrom.compute_variant_mapping k sv ex v.fields v.ident with
        | error e => rw [hcm] at hok; cases hok
        | ok vmap =>
          rw [hcm] at hok
          simp only at hok
          cases hok
          exact ⟨k, ainsert vm sv vmap, by rw [hlk]; rfl, rfl⟩

theorem from_pva_preserves_notmem (E : ContainerIdent) (single : Option ContainerIdent)
    (v : Variant)
    (st st' : List (ContainerIdent × EnumFrom.VariantsMapping) × List (FieldRef × EnumFrom.FieldAnnotations))
    (va : EnumFrom.VariantAnnotation)
    (hP : alookup st.1 E = none)
    (hok : EnumFrom.process_variant_annot single v st va = .ok st') :
    alookup st'.1 E = none := by
  obtain ⟨k, x, hk, hshape⟩ := from_pva_ok_shape single v st st' va hok
  rw [hshape, alookup_ainsert]
  have hke : E ≠ k := by
    intro h
    rw [h] at hP
    rw [hP] at hk
    cases hk
  rw [if_neg hke]
  exact hP

theorem from_pva_unknown_errors (E : ContainerIdent) (single : Option ContainerIdent)
    (v : Variant)
    (st : List (ContainerIdent × EnumFrom.VariantsMapping) × List (FieldRef × EnumFrom.FieldAnnotations))
    (va : EnumFrom.VariantAnnotation) (sp : Span)
    (hva : va = .EnumOnly sp E ∨ ∃ W, va = .EnumVariant sp E W)
    (hP : alookup st.1 E = none) :
    EnumFrom.process_variant_annot single v st va =
      .error (.syn sp ("source enum `" ++ E.name ++ "` is not specified in this enum's #[enum_from] annotation")) := by
  obtain ⟨se, fa⟩ := st
  simp only at hP
  rcases hva with h | ⟨W, h⟩ <;> subst h <;>
    simp [EnumFrom.process_variant_annot, EnumFrom.get_source_enum_and_variant,
      hP, Bind.bind, Except.bind]

theorem from_process_variant_preserves_notmem (E : ContainerIdent) (single : Option ContainerIdent)
    (acc acc' : List (ContainerIdent × EnumFrom.VariantsMapping) × List (VariantIdent × Variant))
    (entry : Variant × EnumFrom.VariantAnnotations)
    (hP : alookup acc.1 E = none)
    (hok : EnumFrom.process_variant single acc entry = .ok acc') :
    alookup acc'.1 E = none := by
  obtain ⟨se, tvs⟩ := acc
  obtain ⟨v, anns⟩ := entry
  simp only [EnumFrom.process_variant, Bind.bind, Except.bind] at hok
  cases hfold : foldlE (EnumFrom.process_variant_annot single v)
      (se, anns.fields_annotations) anns.variant_annotations with
  | error e => rw [hfold] at hok; cases hok
  | ok st' =>
    rw [hfold] at hok
    simp only at hok
    cases hch : EnumFrom.check_unused_fields_annotations st'.1 st'.2 with
    | error e => rw [hch] at hok; cases hok
    | ok u =>
      rw [hch] at hok
      simp only at hok
      cases hok
      exact foldlE_preserves (fun st => alookup st.1 E = none) _
        (fun s a s' h hf => from_pva_preserves_notmem E single v s s' a h hf)
        anns.variant_annotations (se, anns.fields_annotations) st' hP hfold

theorem from_process_variant_unknown_errors (E : ContainerIdent) (single : Option ContainerIdent)
    (v : Variant) (anns : EnumFrom.VariantAnnotations) (va : EnumFrom.VariantAnnotation) (sp : Span)
    (hmem : va ∈ anns.variant_annotations)
    (hva : va = .EnumOnly sp E ∨ ∃ W, va = .EnumVariant sp E W) :
    ∀ acc, alookup acc.1 E = none →
      ∃ e, EnumFrom.process_variant single acc (v, anns) = .error e := by
  intro acc hP
  obtain ⟨se, tvs⟩ := acc
  obtain ⟨e, he⟩ := foldlE_error_of_mem (fun st => alookup st.1 E = none)
    (EnumFrom.process_variant_annot single v)
    (fun s a s' h hf => from_pva_preserves_notmem E single v s s' a h hf)
    va
    (fun st h => ⟨_, from_pva_unknown_errors E single v st va sp hva h⟩)
    anns.variant_annotations (se, anns.fields_annotations) hmem hP
  exact ⟨e, by simp [EnumFrom.process_variant, he, Bind.bind, Except.bind]⟩

theorem from_try_from_unknown_errors (p : EnumFrom.ParsedEnumFrom)
    (v : Variant) (anns : EnumFrom.VariantAnnotations) (va : EnumFrom.VariantAnnotation)
    (sp : Span) (E : ContainerIdent)
    (hvmem : (v, anns) ∈ p.variants_annotations)
    (hamem : va ∈ anns.variant_annotations)
    (hva : va = .EnumOnly sp E ∨ ∃ W, va = .EnumVariant sp E W)
    (hE : ∀ ca ∈ p.container_annotations, ca.ident ≠ E) :
    ∃ e, EnumFrom.EnumFromGenerator.try_from p = .error e := by
  obtain ⟨T, cas, vas⟩ := p
  simp only at hvmem hE
  have main : ∀ single : Option ContainerIdent,
      ∃ e, foldlE (EnumFrom.process_variant single)
        (cas.foldl (fun m ca => ainsert m ca.ident ([] : EnumFrom.VariantsMapping)) [], []) vas =
        .error e := by
    intro single
    exact foldlE_error_of_mem (fun acc => alookup acc.1 E = none)
      (EnumFrom.process_variant single)
      (fun s a s' h hf => from_process_variant_preserves_notmem E single s s' a h hf)
      (v, anns)
      (from_process_variant_unknown_errors E single v anns va sp hamem hva)
      vas _ hvmem
      (alookup_foldl_ainsert_notmem (fun ca => ca.ident) [] E cas [] rfl hE)
  cases cas with
  | nil => exact ⟨.syn callSite "enum_from attribute with source enum names is required", rfl⟩
  | cons ca cs =>
    cases cs with
    | nil =>
      obtain ⟨e, he⟩ := main (some ca.ident)
      refine ⟨e, ?_⟩
      simp only [EnumFrom.EnumFromGenerator.try_from, Bind.bind, Except.bind]
      rw [he]
    | cons ca2 cs' =>
      obtain ⟨e, he⟩ := main none
      refine ⟨e, ?_⟩
      simp only [EnumFrom.EnumFromGenerator.try_from, Bind.bind, Except.bind]
      rw [he]

theorem alookup_foldl_ainsert_isSome {κ α : Type} [DecidableEq κ] (E : κ) :
    ∀ (l : List (κ × α)) (m0 : List (κ × α)),
      ((alookup m0 E).isSome ∨ ∃ pr ∈ l, pr.1 = E) →
      (alookup (l.foldl (fun m p => ainsert m p.1 p.2) m0) E).isSome := by
  intro l
  induction l with
  | nil =>
    intro m0 h
    rcases h with h | ⟨pr, hpr, _⟩
    · simpa using h
    · cases hpr
  | cons p l ih =>
    intro m0 h
    simp only [List.foldl_cons]
    refine ih (ainsert m0 p.1 p.2) ?_
    rcases h with h | ⟨pr, hpr, hE⟩
    · left
      rw [alookup_ainsert]
      by_cases hk : E = p.1
      · simp [hk]
      · rw [if_neg hk]; exact h
    · rcases List.mem_cons.mp hpr with hh | ht
      · subst hh
        left
        rw [alookup_ainsert, hE, if_pos rfl]
        rfl
      · exact Or.inr ⟨pr, ht, hE⟩

theorem into_pte_tv_lookup (v : Variant) (E : ContainerIdent) :
    ∀ (tes : List (ContainerIdent × EnumInto.VariantsMapping))
      (st : List (ContainerIdent × (VariantIdent × Span)) × List (FieldRef × EnumInto.FieldAnnotations))
      (res : List (ContainerIdent × EnumInto.VariantsMapping) ×
        (List (ContainerIdent × (VariantIdent × Span)) × List (FieldRef × EnumInto.FieldAnnotations))),
      (∀ q ∈ tes, q.1 ≠ E) →
      EnumInto.process_target_enums v tes st = .ok res →
      alookup res.2.1 E = alookup st.1 E
  | [], st, res, _, hok => by
    simp only [EnumInto.process_target_enums] at hok
    cases hok
    rfl
  | (k, vm) :: rest, st, res, hne, hok => by
    obtain ⟨tv, fa⟩ := st
    simp only [EnumInto.process_target_enums, Bind.bind, Except.bind] at hok
    cases hex : EnumInto.extract_fields_annotations fa k
        (match (aremove tv k).1 with | some p => p.1 | none => v.ident) with
    | error e => rw [hex] at hok; cases hok
    | ok pair =>
      rw [hex] at hok
      obtain ⟨ex, residue⟩ := pair
      simp only at hok
      cases hcm : EnumInto.compute_variant_mapping k
          (match (aremove tv k).1 with | some p => p.1 | none => v.ident)
          ex v.fields v.ident with
      | error e => rw [hcm] at hok; cases hok
      | ok vmap =>
        rw [hcm] at hok
        simp only at hok
        cases hrec : EnumInto.process_target_enums v rest ((aremove tv k).2, residue) with
        | error e => rw [hrec] at hok; cases hok
        | ok res' =>
          rw [hrec] at hok
          simp only at hok
          cases hok
          have hkE : k ≠ E := hne (k, vm) (List.mem_cons_self _ _)
          have := into_pte_tv_lookup v E rest ((aremove tv k).2, residue) res'
            (fun q hq => hne q (List.mem_cons_of_mem _ hq)) hrec
          rw [this]
          exact alookup_aremove_ne tv k E (fun h => hkE h.symm)

theorem into_pte_keys (v : Variant) :
    ∀ (tes : List (ContainerIdent × EnumInto.VariantsMapping))
      (st : List (ContainerIdent × (VariantIdent × Span)) × List (FieldRef × EnumInto.FieldAnnotations))
      (res : List (ContainerIdent × EnumInto.VariantsMapping) ×
        (List (ContainerIdent × (VariantIdent × Span)) × List (FieldRef × EnumInto.FieldAnnotations))),
      EnumInto.process_target_enums v tes st = .ok res →
      res.1.map Prod.fst = tes.map Prod.fst
  | [], st, res, hok => by
    simp only [EnumInto.process_target_enums] at hok
    cases hok
    rfl
  | (k, vm) :: rest, st, res, hok => by
    obtain ⟨tv, fa⟩ := st
    simp only [EnumInto.process_target_enums, Bind.bind, Except.bind] at hok
    cases hex : EnumInto.extract_fields_annotations fa k
        (match (aremove tv k).1 with | some p => p.1 | none => v.ident) with
    | error e => rw [hex] at hok; cases hok
    | ok pair =>
      rw [hex] at hok
      obtain ⟨ex, residue⟩ := pair
      simp only at hok
      cases hcm : EnumInto.compute_variant_mapping k
          (match (aremove tv k).1 with | some p => p.1 | none => v.ident)
          ex v.fields v.ident with
      | error e => rw [hcm] at hok; cases hok
      | ok vmap =>
        rw [hcm] at hok
        simp only at hok
        cases hrec : EnumInto.process_target_enums v rest ((aremove tv k).2, residue) with
        | error e => rw [hrec] at hok; cases hok
        | ok res' =>
          rw [hrec] at hok
          simp only at hok
          cases hok
          have := into_pte_keys v rest ((aremove tv k).2, residue) res' hrec
          simp [this]

theorem into_check_unused_variants_nonempty
    (l : List (ContainerIdent × (VariantIdent × Span))) (hl : l ≠ []) :
    ∃ e, EnumInto.check_unused_variants_annotations l = .error e := by
  cases l with
  | nil => exact absurd rfl hl
  | cons q rest =>
    obtain ⟨k, w, s⟩ := q
    exact ⟨_, rfl⟩

/-- The variant-level annotation map the into-direction resolver builds for
one source variant (`target_variants` in `EnumIntoGenerator::try_from`). -/
def EnumInto.variantTargets (v : Variant) (anns : EnumInto.VariantAnnotations) :
    List (ContainerIdent × (VariantIdent × Span)) :=
  (anns.variant_annotations.filterMap
    (fun va => match va with
      | .Nothing => none
      | .EnumOnly span enum_ident => some (enum_ident, (v.ident, span))
      | .EnumVariant span enum_ident variant_ident => some (enum_ident, (variant_ident, span)))).foldl
    (fun m p => ainsert m p.1 p.2) []

theorem into_process_variant_eq (tes : List (ContainerIdent × EnumInto.VariantsMapping))
    (svs : List (VariantIdent × Variant)) (v : Variant) (anns : EnumInto.VariantAnnotations) :
    EnumInto.process_variant (tes, svs) (v, anns) = (do
      let (target_enums', st') ← EnumInto.process_target_enums v tes
        (EnumInto.variantTargets v anns, anns.fields_annotations)
      EnumInto.check_unused_variants_annotations st'.1
      EnumInto.check_unused_fields_annotations target_enums' st'.2
      .ok (target_enums', ainsert svs v.ident v)) := rfl

theorem into_variantTargets_isSome (E : ContainerIdent) (v : Variant)
    (anns : EnumInto.VariantAnnotations) (va : EnumInto.VariantAnnotation) (sp : Span)
    (hmem : va ∈ anns.variant_annotations)
    (hva : va = .EnumOnly sp E ∨ ∃ W, va = .EnumVariant sp E W) :
    (alookup (EnumInto.variantTargets v anns) E).isSome := by
  refine alookup_foldl_ainsert_isSome E _ [] (Or.inr ?_)
  rcases hva with h | ⟨W, h⟩
  · exact ⟨(E, (v.ident, sp)), List.mem_filterMap.mpr ⟨va, hmem, by rw [h]⟩, rfl⟩
  · exact ⟨(E, (W, sp)), List.mem_filterMap.mpr ⟨va, hmem, by rw [h]⟩, rfl⟩

theorem into_process_variant_unknown_errors (E : ContainerIdent)
    (v : Variant) (anns : EnumInto.VariantAnnotations) (va : EnumInto.VariantAnnotation) (sp : Span)
    (hmem : va ∈ anns.variant_annotations)
    (hva : va = .EnumOnly sp E ∨ ∃ W, va = .EnumVariant sp E W) :
    ∀ acc, alookup acc.1 E = none →
      ∃ e, EnumInto.process_variant acc (v, anns) = .error e := by
  intro acc hP
  obtain ⟨tes, svs⟩ := acc
  simp only at hP
  have htv := into_variantTargets_isSome E v anns va sp hmem hva
  have hne : ∀ q ∈ tes, q.1 ≠ E := by
    intro q hq hqE
    rw [alookup_eq_none_iff] at hP
    exact hP (List.mem_map.mpr ⟨q, hq, hqE⟩)
  rw [into_process_variant_eq]
  simp only [Bind.bind, Except.bind]
  cases hpte : EnumInto.process_target_enums v tes
      (EnumInto.variantTargets v anns, anns.fields_annotations) with
  | error e => exact ⟨e, rfl⟩
  | ok res =>
    have hlook := into_pte_tv_lookup v E tes _ res hne hpte
    have hsome : (alookup res.2.1 E).isSome := by rw [hlook]; exact htv
    have hnil : res.2.1 ≠ [] := by
      intro h
      rw [h] at hsome
      simp [alookup] at hsome
    obtain ⟨e, he⟩ := into_check_unused_variants_nonempty res.2.1 hnil
    refine ⟨e, ?_⟩
    simp only [he]

theorem into_process_variant_preserves_notmem (E : ContainerIdent)
    (acc acc' : List (ContainerIdent × EnumInto.VariantsMapping) × List (VariantIdent × Variant))
    (entry : Variant × EnumInto.VariantAnnotations)
    (hP : alookup acc.1 E = none)
    (hok : EnumInto.process_variant acc entry = .ok acc') :
    alookup acc'.1 E = none := by
  obtain ⟨tes, svs⟩ := acc
  obtain ⟨v, anns⟩ := entry
  rw [into_process_variant_eq] at hok
  simp only [Bind.bind, Except.bind] at hok
  cases hpte : EnumInto.process_target_enums v tes
      (EnumInto.variantTargets v anns, anns.fields_annotations) with
  | error e => rw [hpte] at hok; cases hok
  | ok res =>
    rw [hpte] at hok
    simp only at hok
    cases hcv : EnumInto.check_unused_variants_annotations res.2.1 with
    | error e => rw [hcv] at hok; cases hok
    | ok u =>
      rw [hcv] at hok
      simp only at hok
      cases hcf : EnumInto.check_unused_fields_annotations res.1 res.2.2 with
      | error e => rw [hcf] at hok; cases hok
      | ok u2 =>
        rw [hcf] at hok
        simp only at hok
        cases hok
        have hkeys := into_pte_keys v tes _ res hpte
        rw [alookup_eq_none_iff] at hP ⊢
        rw [hkeys]
        exact hP

theorem into_try_from_unknown_errors (p : EnumInto.ParsedEnumInto)
    (v : Variant) (anns : EnumInto.VariantAnnotations) (va : EnumInto.VariantAnnotation)
    (sp : Span) (E : ContainerIdent)
    (hvmem : (v, anns) ∈ p.variants_annotations)
    (hamem : va ∈ anns.variant_annotations)
    (hva : va = .EnumOnly sp E ∨ ∃ W, va = .EnumVariant sp E W)
    (hE : ∀ ca ∈ p.container_annotations, ca.ident ≠ E) :
    ∃ e, EnumInto.EnumIntoGenerator.try_from p = .error e := by
  obtain ⟨S, cas, vas⟩ := p
  simp only at hvmem hE
  cases cas with
  | nil => exact ⟨.syn callSite "enum_into attribute with target enum names is required", rfl⟩
  | cons ca cs =>
    obtain ⟨e, he⟩ := foldlE_error_of_mem (fun acc => alookup acc.1 E = none)
      EnumInto.process_variant
      (fun s a s' h hf => into_process_variant_preserves_notmem E s s' a h hf)
      (v, anns)
      (into_process_variant_unknown_errors E v anns va sp hamem hva)
      vas ((ca :: cs).foldl (fun m ca => ainsert m ca.ident ([] : EnumInto.VariantsMapping)) [], [])
      hvmem
      (alookup_foldl_ainsert_notmem (fun ca => ca.ident) [] E (ca :: cs) [] rfl hE)
    refine ⟨e, ?_⟩
    simp only [EnumInto.EnumIntoGenerator.try_from, List.isEmpty_cons, Bind.bind, Except.bind,
      Bool.false_eq_true, if_false]
    rw [he]

/-- C7 counterexample input: the scenario of
`tests/enum_from/compile_fail/variant/invalid_source_variant.rs` — the
annotation references `Source::NonExistent` while the paired union
`Source` only has the variant `Unit`. -/
def c7ex : EnumFrom.ParsedEnumFrom :=
  { target_enum := ⟨"Target"⟩
  , container_annotations := [⟨⟨"Source"⟩⟩]
  , variants_annotations :=
      [(⟨⟨"Unit"⟩, .Unit⟩, ⟨[.EnumVariant 4 ⟨"Source"⟩ ⟨"NonExistent"⟩], []⟩)] }

/-- C7 counterexample: the resolver does **not** validate that a referenced
source variant exists — it has no access to the paired union's variant
list.  Resolution of `c7ex` succeeds, mapping the nonexistent variant
`Source::NonExistent`; the failure only surfaces later, in the host
compiler, on the emitted code. -/
theorem c7_counterexample :
    EnumFrom.EnumFromGenerator.try_from c7ex =
      .ok { source_enums := [(⟨"Source"⟩, [(⟨"NonExistent"⟩, .UnitToUnit ⟨"Unit"⟩)])],
            target_enum := ⟨"Target"⟩,
            target_variants := [(⟨"Unit"⟩, ⟨⟨"Unit"⟩, .Unit⟩)] } ∧
    (⟨"NonExistent"⟩ : VariantIdent) ∉ ([⟨"Unit"⟩] : List VariantIdent) := by
  exact ⟨rfl, by decide⟩

/-- C7 amended: the resolver does validate the referenced paired union:
(a) in the from direction a variant annotation naming an undeclared enum
makes the processing step fail with the exact "not specified" diagnostic,
attributed to the annotation span, and (b) any such annotation anywhere
makes the whole resolution fail; (c)/(d) the same holds in the into
direction, where the leftover annotation is reported by
`check_unused_variants_annotations` with its own "not specified" message;
(e) but a non-existent *variant* of a declared union is not validated by
the resolver (no `UnknownVariant` diagnostic exists): resolution of the
counterexample input succeeds and the check is left to the host compiler. -/
theorem c7_amended :
    (∀ (single : Option ContainerIdent) (v : Variant)
      (st : List (ContainerIdent × EnumFrom.VariantsMapping) × List (FieldRef × EnumFrom.FieldAnnotations))
      (va : EnumFrom.VariantAnnotation) (sp : Span) (E : ContainerIdent),
      (va = .EnumOnly sp E ∨ ∃ W, va = .EnumVariant sp E W) →
      alookup st.1 E = none →
      EnumFrom.process_variant_annot single v st va =
        .error (.syn sp ("source enum `" ++ E.name ++ "` is not specified in this enum's #[enum_from] annotation"))) ∧
    (∀ (p : EnumFrom.ParsedEnumFrom) (v : Variant) (anns : EnumFrom.VariantAnnotations)
      (va : EnumFrom.VariantAnnotation) (sp : Span) (E : ContainerIdent),
      (v, anns) ∈ p.variants_annotations →
      va ∈ anns.variant_annotations →
      (va = .EnumOnly sp E ∨ ∃ W, va = .EnumVariant sp E W) →
      (∀ ca ∈ p.container_annotations, ca.ident ≠ E) →
      ∃ e, EnumFrom.EnumFromGenerator.try_from p = .error e) ∧
    (∀ (E : ContainerIdent) (W : VariantIdent) (s : Span)
      (rest : List (ContainerIdent × (VariantIdent × Span))),
      EnumInto.check_unused_variants_annotations ((E, (W, s)) :: rest) =
        .error (.syn s ("target enum `" ++ E.name ++ "` is not specified in this enum's #[enum_into] annotation"))) ∧
    (∀ (p : EnumInto.ParsedEnumInto) (v : Variant) (anns : EnumInto.VariantAnnotations)
      (va : EnumInto.VariantAnnotation) (sp : Span) (E : ContainerIdent),
      (v, anns) ∈ p.variants_annotations →
      va ∈ anns.variant_annotations →
      (va = .EnumOnly sp E ∨ ∃ W, va = .EnumVariant sp E W) →
      (∀ ca ∈ p.container_annotations, ca.ident ≠ E) →
      ∃ e, EnumInto.EnumIntoGenerator.try_from p = .error e) ∧
    (∃ g, EnumFrom.EnumFromGenerator.try_from c7ex = .ok g) := by
  refine ⟨?_, ?_, fun E W s rest => rfl, ?_, ⟨_, rfl⟩⟩
  · intro single v st va sp E hva hP
    exact from_pva_unknown_errors E single v st va sp hva hP
  · intro p v anns va sp E h1 h2 h3 h4
    exact from_try_from_unknown_errors p v anns va sp E h1 h2 h3 h4
  · intro p v anns va sp E h1 h2 h3 h4
    exact into_try_from_unknown_errors p v anns va sp E h1 h2 h3 h4

/-- Witness for C7's amended theorem at a concrete input. -/
theorem c7_witness :
    ∃ e, EnumFrom.EnumFromGenerator.try_from
      ⟨⟨"T"⟩, [⟨⟨"A"⟩⟩], [(⟨⟨"U"⟩, .Unit⟩, ⟨[.EnumOnly 9 ⟨"B"⟩], []⟩)]⟩ = .error e :=
  c7_amended.2.1 ⟨⟨"T"⟩, [⟨⟨"A"⟩⟩], [(⟨⟨"U"⟩, .Unit⟩, ⟨[.EnumOnly 9 ⟨"B"⟩], []⟩)]⟩
    ⟨⟨"U"⟩, .Unit⟩ ⟨[.EnumOnly 9 ⟨"B"⟩], []⟩ (.EnumOnly 9 ⟨"B"⟩) 9 ⟨"B"⟩
    (by simp) (by simp) (Or.inl rfl) (by intro ca hca; simp at hca; subst hca; decide)

theorem from_extract_list_dup_errors (E : ContainerIdent) (W : VariantIdent) :
    ∀ l : List (FieldRef × EnumFrom.FieldAnnotations),
      (∃ entry ∈ l, 2 ≤ (entry.2.fields_annotations.filter
        (fun fa => fa.source_enum = E ∧ fa.source_variant = W)).length) →
      ∃ sp, EnumFrom.extract_fields_annotations_list l E W =
        .error (.syn sp ("Multiple mapping found for source enum `" ++ E.name ++ "`")) := by
  intro l
  induction l with
  | nil =>
    intro h
    obtain ⟨entry, hmem, _⟩ := h
    cases hmem
  | cons p l ih =>
    intro h
    obtain ⟨fr, fas⟩ := p
    by_cases hhead : 2 ≤ (fas.fields_annotations.filter
        (fun fa => fa.source_enum = E ∧ fa.source_variant = W)).length
    · refine ⟨fas.field_span, ?_⟩
      simp only [EnumFrom.extract_fields_annotations_list]
      rw [if_pos hhead]
    · obtain ⟨entry, hmem, hcnt⟩ := h
      rcases List.mem_cons.mp hmem with hh | ht
      · subst hh
        exact absurd hcnt hhead
      · obtain ⟨sp, hsp⟩ := ih ⟨entry, ht, hcnt⟩
        refine ⟨sp, ?_⟩
        simp only [EnumFrom.extract_fields_annotations_list]
        rw [if_neg hhead, hsp]
        rfl

theorem into_extract_list_dup_errors (E : ContainerIdent) (W : VariantIdent) :
    ∀ l : List (FieldRef × EnumInto.FieldAnnotations),
      (∃ entry ∈ l, 2 ≤ (entry.2.fields_annotations.filter
        (fun fa => fa.target_enum = E ∧ fa.target_variant = W)).length) →
      ∃ sp, EnumInto.extract_fields_annotations_list l E W =
        .error (.syn sp ("Multiple mapping found for target enum `" ++ E.name ++ "`")) := by
  intro l
  induction l with
  | nil =>
    intro h
    obtain ⟨entry, hmem, _⟩ := h
    cases hmem
  | cons p l ih =>
    intro h
    obtain ⟨fr, fas⟩ := p
    by_cases hhead : 2 ≤ (fas.fields_annotations.filter
        (fun fa => fa.target_enum = E ∧ fa.target_variant = W)).length
    · refine ⟨fas.field_span, ?_⟩
      simp only [EnumInto.extract_fields_annotations_list]
      rw [if_pos hhead]
    · obtain ⟨entry, hmem, hcnt⟩ := h
      rcases List.mem_cons.mp hmem with hh | ht
      · subst hh
        exact absurd hcnt hhead
      · obtain ⟨sp, hsp⟩ := ih ⟨entry, ht, hcnt⟩
        refine ⟨sp, ?_⟩
        simp only [EnumInto.extract_fields_annotations_list]
        rw [if_neg hhead, hsp]
        rfl

/-- C5 counterexample input: one field (`x`) carries two annotations that
reference the same pair `(Source, W)`, but no variant-level annotation on
the variant claims that pair (the bare marker claims `(Source, V)`). -/
def c5ex : EnumFrom.ParsedEnumFrom :=
  { target_enum := ⟨"Target"⟩
  , container_annotations := [⟨⟨"Source"⟩⟩]
  , variants_annotations :=
      [(⟨⟨"V"⟩, .Named [(⟨"x"⟩, 20)]⟩, ⟨[.Nothing 5],
        [(.FieldIdent ⟨"x"⟩,
          ⟨[⟨⟨"Source"⟩, ⟨"W"⟩, .FieldIdent ⟨"a"⟩, 31, 32, 33⟩,
            ⟨⟨"Source"⟩, ⟨"W"⟩, .FieldIdent ⟨"b"⟩, 34, 35, 36⟩], 20⟩)]⟩)] }

/-- C5 counterexample: two field annotations on the same field referencing
the same `(paired union, paired variant)` pair do **not** always produce
the `DuplicateFieldMapping` diagnostic: when no variant-level annotation
claims that pair, the duplicates are never extracted, and resolution fails
with the `UnusedFieldAnnotation` diagnostic instead. -/
theorem c5_counterexample :
    EnumFrom.EnumFromGenerator.try_from c5ex =
      .error (.syn 32 "Field mapping for unexpected enum and variant combination") ∧
    "Field mapping for unexpected enum and variant combination" ≠
      "Multiple mapping found for source enum `Source`" := by
  exact ⟨rfl, by decide⟩

/-- C5 amended: at most one field annotation per distinct paired
union+variant is accepted per field.  When the extraction for a claimed
pair `(E, W)` runs over a field with two or more annotations referencing
that pair, it fails with the `DuplicateFieldMapping` diagnostic naming
`E`, in both directions; end to end, a claimed duplicate makes resolution
fail with exactly that diagnostic.  (If the pair is not claimed by any
variant-level annotation, resolution still fails, but with the
`UnusedFieldAnnotation` diagnostic — see the counterexample.) -/
theorem c5_amended :
    (∀ (l : List (FieldRef × EnumFrom.FieldAnnotations)) (E : ContainerIdent) (W : VariantIdent),
      (∃ entry ∈ l, 2 ≤ (entry.2.fields_annotations.filter
        (fun fa => fa.source_enum = E ∧ fa.source_variant = W)).length) →
      ∃ sp, EnumFrom.extract_fields_annotations l E W =
        .error (.syn sp ("Multiple mapping found for source enum `" ++ E.name ++ "`"))) ∧
    (∀ (l : List (FieldRef × EnumInto.FieldAnnotations)) (E : ContainerIdent) (W : VariantIdent),
      (∃ entry ∈ l, 2 ≤ (entry.2.fields_annotations.filter
        (fun fa => fa.target_enum = E ∧ fa.target_variant = W)).length) →
      ∃ sp, EnumInto.extract_fields_annotations l E W =
        .error (.syn sp ("Multiple mapping found for target enum `" ++ E.name ++ "`"))) ∧
    EnumFrom.EnumFromGenerator.try_from
      ⟨⟨"Target"⟩, [⟨⟨"Source"⟩⟩],
        [(⟨⟨"V"⟩, .Named [(⟨"x"⟩, 20)]⟩, ⟨[.Nothing 5],
          [(.FieldIdent ⟨"x"⟩,
            ⟨[⟨⟨"Source"⟩, ⟨"V"⟩, .FieldIdent ⟨"a"⟩, 31, 32, 33⟩,
              ⟨⟨"Source"⟩, ⟨"V"⟩, .FieldIdent ⟨"b"⟩, 34, 35, 36⟩], 20⟩)]⟩)]⟩ =
      .error (.syn 20 "Multiple mapping found for source enum `Source`") := by
  refine ⟨?_, ?_, rfl⟩
  · intro l E W h
    obtain ⟨sp, hsp⟩ := from_extract_list_dup_errors E W l h
    exact ⟨sp, by simp [EnumFrom.extract_fields_annotations, hsp, Bind.bind, Except.bind]⟩
  · intro l E W h
    obtain ⟨sp, hsp⟩ := into_extract_list_dup_errors E W l h
    exact ⟨sp, by simp [EnumInto.extract_fields_annotations, hsp, Bind.bind, Except.bind]⟩

/-- Witness for C5's amended theorem at a concrete input. -/
theorem c5_witness :
    ∃ sp, EnumFrom.extract_fields_annotations
      [(.FieldIdent ⟨"x"⟩,
        ⟨[⟨⟨"S"⟩, ⟨"V"⟩, .FieldIdent ⟨"a"⟩, 1, 2, 3⟩,
          ⟨⟨"S"⟩, ⟨"V"⟩, .FieldIdent ⟨"b"⟩, 4, 5, 6⟩], 9⟩)] ⟨"S"⟩ ⟨"V"⟩ =
      .error (.syn sp ("Multiple mapping found for source enum `" ++
        ContainerIdent.name ⟨"S"⟩ ++ "`")) :=
  c5_amended.1
    [(.FieldIdent ⟨"x"⟩,
      ⟨[⟨⟨"S"⟩, ⟨"V"⟩, .FieldIdent ⟨"a"⟩, 1, 2, 3⟩,
        ⟨⟨"S"⟩, ⟨"V"⟩, .FieldIdent ⟨"b"⟩, 4, 5, 6⟩], 9⟩)] ⟨"S"⟩ ⟨"V"⟩
    ⟨_, List.mem_cons_self _ _, by decide⟩

theorem acontains_iff_mem {κ α : Type} [DecidableEq κ] (m : List (κ × α)) (k : κ) :
    acontains m k = true ↔ k ∈ m.map Prod.fst := by
  rw [acontains]
  rcases h : alookup m k with _ | v
  · rw [alookup_eq_none_iff] at h
    simp [h]
  · have : ¬ alookup m k = none := by rw [h]; simp
    rw [alookup_eq_none_iff] at this
    simp only [not_not] at this
    simp [this]

theorem acontains_dedup {κ α : Type} [DecidableEq κ] :
    ∀ (l : List (κ × α)) (k : κ), acontains (dedupKeysKeepLast l) k = acontains l k := by
  intro l
  induction l with
  | nil => intro k; rfl
  | cons p l ih =>
    intro k
    obtain ⟨k', v⟩ := p
    by_cases hany : l.any (fun q => q.1 == k')
    · simp only [dedupKeysKeepLast, hany, if_true]
      by_cases hk : k' = k
      · subst hk
        have hmem : k' ∈ l.map Prod.fst := by
          obtain ⟨q, hq, hqk⟩ := List.any_eq_true.mp hany
          exact List.mem_map.mpr ⟨q, hq, by simpa using hqk⟩
        rw [ih k']
        have h1 : acontains l k' = true := (acontains_iff_mem l k').mpr hmem
        have h2 : acontains ((k', v) :: l) k' = true := by
          simp [acontains, alookup]
        rw [h1, h2]
      · rw [ih k]
        simp [acontains, alookup, hk]
    · simp only [dedupKeysKeepLast, hany, if_false, Bool.false_eq_true]
      by_cases hk : k' = k
      · subst hk
        simp [acontains, alookup]
      · simp only [acontains, alookup, hk, if_false]
        exact ih k

theorem find?_congr_pred {α : Type} (p q : α → Bool) (hpq : ∀ a, p a = q a)
    (l : List α) : l.find? p = l.find? q := by
  have : p = q := funext hpq
  rw [this]

theorem from_s2t_pairs_ok :
    ∀ fas : List (FieldRef × EnumFrom.FieldAnnotation),
      (∀ p ∈ fas, (∃ tp, p.1 = FieldRef.FieldPos tp) ∧
        (∃ si, p.2.source_field = FieldRef.FieldIdent si)) →
      ∃ pairs, exceptMap
        (fun p => match p with
          | (.FieldIdent _, _) => .error (.panic "Target is a tuple variant but got named fields")
          | (.FieldPos target_pos, fa) =>
            match fa.source_field with
            | .FieldIdent source_ident => .ok (target_pos, source_ident)
            | .FieldPos _ => .error (.syn fa.field_span "Unexpected mapping to positional field while another field mapped to a named field."))
        fas = .ok pairs ∧
      ∀ n : Nat, acontains pairs n = fas.any (fun q => q.1 == FieldRef.FieldPos n) := by
  intro fas
  induction fas with
  | nil => intro _; exact ⟨[], rfl, fun n => rfl⟩
  | cons p rest ih =>
    intro h
    obtain ⟨⟨tp, hk⟩, ⟨si, hs⟩⟩ := h p (List.mem_cons_self _ _)
    obtain ⟨k, fa⟩ := p
    simp only at hk hs
    subst hk
    obtain ⟨pairs, hok, hkeys⟩ := ih (fun q hq => h q (List.mem_cons_of_mem _ hq))
    refine ⟨(tp, si) :: pairs, ?_, ?_⟩
    · simp [exceptMap, hs, hok, Bind.bind, Except.bind]
    · intro n
      by_cases hn : tp = n
      · subst hn
        simp [acontains, alookup]
      · simp only [acontains, alookup, hn, if_false, List.any_cons]
        rw [← acontains, hkeys n]
        have : (FieldRef.FieldPos tp == FieldRef.FieldPos n) = false := by
          simp [hn]
        rw [this]
        simp

theorem from_s2t_missing (E : ContainerIdent) (W : VariantIdent)
    (fas : List (FieldRef × EnumFrom.FieldAnnotation)) (fields : List Span)
    (tv : VariantIdent) (pos : Nat) (sp : Span)
    (hkinds : ∀ p ∈ fas, (∃ tp, p.1 = FieldRef.FieldPos tp) ∧
      (∃ si, p.2.source_field = FieldRef.FieldIdent si))
    (huncov : fields.enum.find?
      (fun q => ¬ fas.any (fun r => r.1 == FieldRef.FieldPos q.1)) = some (pos, sp)) :
    EnumFrom.compute_struct_to_tuple_variant_mapping E W fas fields tv =
      .error (.syn sp ("Missing required mapping to named field for " ++ E.name ++ "::" ++ W.name)) := by
  obtain ⟨pairs, hok, hkeys⟩ := from_s2t_pairs_ok fas hkinds
  simp only [EnumFrom.compute_struct_to_tuple_variant_mapping, hok, Bind.bind, Except.bind]
  rw [find?_congr_pred _ (fun q => ¬ fas.any (fun r => r.1 == FieldRef.FieldPos q.1))
    (fun q => by rw [acontains_dedup, hkeys q.1])]
  rw [huncov]

theorem from_t2s_pairs_ok :
    ∀ fas : List (FieldRef × EnumFrom.FieldAnnotation),
      (∀ p ∈ fas, (∃ ti, p.1 = FieldRef.FieldIdent ti) ∧
        (∃ sp', p.2.source_field = FieldRef.FieldPos sp')) →
      ∃ pairs, exceptMap
        (fun p => match p with
          | (.FieldPos _, _) => .error (.panic "Target is a struct variant but got positional fields")
          | (.FieldIdent target_ident, fa) =>
            match fa.source_field with
            | .FieldPos source_pos => .ok (target_ident, source_pos)
            | .FieldIdent _ => .error (.syn fa.field_span "Unexpected mapping to named field while another field mapped to a positional field."))
        fas = .ok pairs ∧
      ∀ n : FieldIdent, acontains pairs n = fas.any (fun q => q.1 == FieldRef.FieldIdent n) := by
  intro fas
  induction fas with
  | nil => intro _; exact ⟨[], rfl, fun n => rfl⟩
  | cons p rest ih =>
    intro h
    obtain ⟨⟨ti, hk⟩, ⟨sp', hs⟩⟩ := h p (List.mem_cons_self _ _)
    obtain ⟨k, fa⟩ := p
    simp only at hk hs
    subst hk
    obtain ⟨pairs, hok, hkeys⟩ := ih (fun q hq => h q (List.mem_cons_of_mem _ hq))
    refine ⟨(ti, sp') :: pairs, ?_, ?_⟩
    · simp [exceptMap, hs, hok, Bind.bind, Except.bind]
    · intro n
      by_cases hn : ti = n
      · subst hn
        simp [acontains, alookup]
      · simp only [acontains, alookup, hn, if_false, List.any_cons]
        rw [← acontains, hkeys n]
        have : (FieldRef.FieldIdent ti == FieldRef.FieldIdent n) = false := by
          simp [hn]
        rw [this]
        simp

theorem from_t2s_missing (E : ContainerIdent) (W : VariantIdent)
    (fas : List (FieldRef × EnumFrom.FieldAnnotation)) (fields : List (FieldIdent × Span))
    (tv : VariantIdent) (fid : FieldIdent) (sp : Span)
    (hkinds : ∀ p ∈ fas, (∃ ti, p.1 = FieldRef.FieldIdent ti) ∧
      (∃ sp', p.2.source_field = FieldRef.FieldPos sp'))
    (huncov : fields.find?
      (fun q => ¬ fas.any (fun r => r.1 == FieldRef.FieldIdent q.1)) = some (fid, sp)) :
    EnumFrom.compute_tuple_to_struct_variant_mapping E W fas fields tv =
      .error (.syn sp ("Missing required mapping to named field for " ++ E.name ++ "::" ++ W.name)) := by
  obtain ⟨pairs, hok, hkeys⟩ := from_t2s_pairs_ok fas hkinds
  simp only [EnumFrom.compute_tuple_to_struct_variant_mapping, hok, Bind.bind, Except.bind]
  rw [find?_congr_pred _ (fun q => ¬ fas.any (fun r => r.1 == FieldRef.FieldIdent q.1))
    (fun q => by rw [acontains_dedup, hkeys q.1])]
  rw [huncov]

theorem into_s2t_pairs_ok :
    ∀ fas : List (FieldRef × EnumInto.FieldAnnotation),
      (∀ p ∈ fas, (∃ si, p.1 = FieldRef.FieldIdent si) ∧
        (∃ tp, p.2.target_field = FieldRef.FieldPos tp)) →
      ∃ pairs, exceptMap
        (fun p => match p with
          | (.FieldPos _, _) => .error (.panic "Source is a struct variant but got positional fields")
          | (.FieldIdent source_ident, fa) =>
            match fa.target_field with
            | .FieldPos target_pos => .ok (source_ident, target_pos)
            | .FieldIdent _ => .error (.syn fa.field_span "Unexpected mapping to named field while another field mapped to a positional field."))
        fas = .ok pairs ∧
      ∀ n : FieldIdent, acontains pairs n = fas.any (fun q => q.1 == FieldRef.FieldIdent n) := by
  intro fas
  induction fas with
  | nil => intro _; exact ⟨[], rfl, fun n => rfl⟩
  | cons p rest ih =>
    intro h
    obtain ⟨⟨si, hk⟩, ⟨tp, hs⟩⟩ := h p (List.mem_cons_self _ _)
    obtain ⟨k, fa⟩ := p
    simp only at hk hs
    subst hk
    obtain ⟨pairs, hok, hkeys⟩ := ih (fun q hq => h q (List.mem_cons_of_mem _ hq))
    refine ⟨(si, tp) :: pairs, ?_, ?_⟩
    · simp [exceptMap, hs, hok, Bind.bind, Except.bind]
    · intro n
      by_cases hn : si = n
      · subst hn
        simp [acontains, alookup]
      · simp only [acontains, alookup, hn, if_false, List.any_cons]
        rw [← acontains, hkeys n]
        have : (FieldRef.FieldIdent si == FieldRef.FieldIdent n) = false := by
          simp [hn]
        rw [this]
        simp

theorem into_s2t_missing (E : ContainerIdent) (W : VariantIdent)
    (fas : List (FieldRef × EnumInto.FieldAnnotation)) (fields : List (FieldIdent × Span))
    (sv : VariantIdent) (fid : FieldIdent) (sp : Span)
    (hkinds : ∀ p ∈ fas, (∃ si, p.1 = FieldRef.FieldIdent si) ∧
      (∃ tp, p.2.target_field = FieldRef.FieldPos tp))
    (huncov : fields.find?
      (fun q => ¬ fas.any (fun r => r.1 == FieldRef.FieldIdent q.1)) = some (fid, sp)) :
    EnumInto.compute_struct_to_tuple_variant_mapping E W fas fields sv =
      .error (.syn sp ("Missing required mapping to named field for " ++ E.name ++ "::" ++ W.name)) := by
  obtain ⟨pairs, hok, hkeys⟩ := into_s2t_pairs_ok fas hkinds
  simp only [EnumInto.compute_struct_to_tuple_variant_mapping, hok, Bind.bind, Except.bind]
  rw [find?_congr_pred _ (fun q => ¬ fas.any (fun r => r.1 == FieldRef.FieldIdent q.1))
    (fun q => by rw [acontains_dedup, hkeys q.1])]
  rw [huncov]

theorem into_t2s_pairs_ok :
    ∀ fas : List (FieldRef × EnumInto.FieldAnnotation),
      (∀ p ∈ fas, (∃ sp', p.1 = FieldRef.FieldPos sp') ∧
        (∃ ti, p.2.target_field = FieldRef.FieldIdent ti)) →
      ∃ pairs, exceptMap
        (fun p => match p with
          | (.FieldIdent _, _) => .error (.panic "Source is a tuple variant but got named fields")
          | (.FieldPos source_pos, fa) =>
            match fa.target_field with
            | .FieldIdent target_ident => .ok (source_pos, target_ident)
            | .FieldPos _ => .error (.syn fa.field_span "Unexpected mapping to positional field while another field mapped to a named field."))
        fas = .ok pairs ∧
      ∀ n : Nat, acontains pairs n = fas.any (fun q => q.1 == FieldRef.FieldPos n) := by
  intro fas
  induction fas with
  | nil => intro _; exact ⟨[], rfl, fun n => rfl⟩
  | cons p rest ih =>
    intro h
    obtain ⟨⟨sp', hk⟩, ⟨ti, hs⟩⟩ := h p (List.mem_cons_self _ _)
    obtain ⟨k, fa⟩ := p
    simp only at hk hs
    subst hk
    obtain ⟨pairs, hok, hkeys⟩ := ih (fun q hq => h q (List.mem_cons_of_mem _ hq))
    refine ⟨(sp', ti) :: pairs, ?_, ?_⟩
    · simp [exceptMap, hs, hok, Bind.bind, Except.bind]
    · intro n
      by_cases hn : sp' = n
      · subst hn
        simp [acontains, alookup]
      · simp only [acontains, alookup, hn, if_false, List.any_cons]
        rw [← acontains, hkeys n]
        have : (FieldRef.FieldPos sp' == FieldRef.FieldPos n) = false := by
          simp [hn]
        rw [this]
        simp

theorem into_t2s_missing (E : ContainerIdent) (W : VariantIdent)
    (fas : List (FieldRef × EnumInto.FieldAnnotation)) (fields : List Span)
    (sv : VariantIdent) (pos : Nat) (sp : Span)
    (hkinds : ∀ p ∈ fas, (∃ sp', p.1 = FieldRef.FieldPos sp') ∧
      (∃ ti, p.2.target_field = FieldRef.FieldIdent ti))
    (huncov : fields.enum.find?
      (fun q => ¬ fas.any (fun r => r.1 == FieldRef.FieldPos q.1)) = some (pos, sp)) :
    EnumInto.compute_tuple_to_struct_variant_mapping E W fas fields sv =
      .error (.syn sp ("Missing required mapping to named field for " ++ E.name ++ "::" ++ W.name)) := by
  obtain ⟨pairs, hok, hkeys⟩ := into_t2s_pairs_ok fas hkinds
  simp only [EnumInto.compute_tuple_to_struct_variant_mapping, hok, Bind.bind, Except.bind]
  rw [find?_congr_pred _ (fun q => ¬ fas.any (fun r => r.1 == FieldRef.FieldPos q.1))
    (fun q => by rw [acontains_dedup, hkeys q.1])]
  rw [huncov]

/-- C4 counterexample input: the annotated tuple variant `Target::V(_)` is
paired with `Source::W`, whose real shape is `Struct { a }` — a
cross-shape pairing — but **no** field carries an annotation. -/
def c4ex : EnumFrom.ParsedEnumFrom :=
  { target_enum := ⟨"Target"⟩
  , container_annotations := [⟨⟨"Source"⟩⟩]
  , variants_annotations :=
      [(⟨⟨"V"⟩, .Unnamed [10]⟩,
        ⟨[.EnumVariant 4 ⟨"Source"⟩ ⟨"W"⟩], [(.FieldPos 0, ⟨[], 10⟩)]⟩)] }

/-- C4 counterexample: in a cross-shape pairing where *every* field lacks
an annotation, resolution does not fail with `MissingFieldAnnotation` — it
cannot see the paired variant's shape, treats the pairing as
tuple-to-tuple, and succeeds with an empty (identity) field table; the
shape mismatch is only caught later by the host compiler.  The second
conjunct records that the paired variant's real shape (`Struct { a }`)
differs from the annotated variant's tuple shape. -/
theorem c4_counterexample :
    EnumFrom.EnumFromGenerator.try_from c4ex =
      .ok { source_enums := [(⟨"Source"⟩, [(⟨"W"⟩, .TupleToTuple ⟨"V"⟩ [])])],
            target_enum := ⟨"Target"⟩,
            target_variants := [(⟨"V"⟩, ⟨⟨"V"⟩, .Unnamed [10]⟩)] } ∧
    (Fields.Named [(⟨"a"⟩, 0)]) ≠ (Fields.Unnamed [10]) := by
  exact ⟨rfl, by decide⟩

/-- C4 amended: when the cross-shape pairing is visible to the resolver —
at least one field annotation maps to the other `FieldRef` kind, so the
cross-shape builder is dispatched — any field of the annotated variant
left uncovered makes resolution fail with the `MissingFieldAnnotation`
diagnostic naming the pairing, attributed to the span of the first
uncovered field.  This holds for all four orientations
(struct→tuple and tuple→struct, in both the from and the into direction);
end to end, an uncovered position fails resolution with exactly that
diagnostic.  With no annotation at all the cross shape is invisible and
resolution succeeds (see the counterexample). -/
theorem c4_amended :
    (∀ (E : ContainerIdent) (W : VariantIdent) (fas : List (FieldRef × EnumFrom.FieldAnnotation))
      (fields : List Span) (tv : VariantIdent) (pos : Nat) (sp : Span),
      (∀ p ∈ fas, (∃ tp, p.1 = FieldRef.FieldPos tp) ∧
        (∃ si, p.2.source_field = FieldRef.FieldIdent si)) →
      fields.enum.find? (fun q => ¬ fas.any (fun r => r.1 == FieldRef.FieldPos q.1)) = some (pos, sp) →
      EnumFrom.compute_struct_to_tuple_variant_mapping E W fas fields tv =
        .error (.syn sp ("Missing required mapping to named field for " ++ E.name ++ "::" ++ W.name))) ∧
    (∀ (E : ContainerIdent) (W : VariantIdent) (fas : List (FieldRef × EnumFrom.FieldAnnotation))
      (fields : List (FieldIdent × Span)) (tv : VariantIdent) (fid : FieldIdent) (sp : Span),
      (∀ p ∈ fas, (∃ ti, p.1 = FieldRef.FieldIdent ti) ∧
        (∃ sp', p.2.source_field = FieldRef.FieldPos sp')) →
      fields.find? (fun q => ¬ fas.any (fun r => r.1 == FieldRef.FieldIdent q.1)) = some (fid, sp) →
      EnumFrom.compute_tuple_to_struct_variant_mapping E W fas fields tv =
        .error (.syn sp ("Missing required mapping to named field for " ++ E.name ++ "::" ++ W.name))) ∧
    (∀ (E : ContainerIdent) (W : VariantIdent) (fas : List (FieldRef × EnumInto.FieldAnnotation))
      (fields : List (FieldIdent × Span)) (sv : VariantIdent) (fid : FieldIdent) (sp : Span),
      (∀ p ∈ fas, (∃ si, p.1 = FieldRef.FieldIdent si) ∧
        (∃ tp, p.2.target_field = FieldRef.FieldPos tp)) →
      fields.find? (fun q => ¬ fas.any (fun r => r.1 == FieldRef.FieldIdent q.1)) = some (fid, sp) →
      EnumInto.compute_struct_to_tuple_variant_mapping E W fas fields sv =
        .error (.syn sp ("Missing required mapping to named field for " ++ E.name ++ "::" ++ W.name))) ∧
    (∀ (E : ContainerIdent) (W : VariantIdent) (fas : List (FieldRef × EnumInto.FieldAnnotation))
      (fields : List Span) (sv : VariantIdent) (pos : Nat) (sp : Span),
      (∀ p ∈ fas, (∃ sp', p.1 = FieldRef.FieldPos sp') ∧
        (∃ ti, p.2.target_field = FieldRef.FieldIdent ti)) →
      fields.enum.find? (fun q => ¬ fas.any (fun r => r.1 == FieldRef.FieldPos q.1)) = some (pos, sp) →
      EnumInto.compute_tuple_to_struct_variant_mapping E W fas fields sv =
        .error (.syn sp ("Missing required mapping to named field for " ++ E.name ++ "::" ++ W.name))) ∧
    EnumFrom.EnumFromGenerator.try_from
      ⟨⟨"Target"⟩, [⟨⟨"Source"⟩⟩],
        [(⟨⟨"V"⟩, .Unnamed [10, 11]⟩, ⟨[.Nothing 5],
          [(.FieldPos 0, ⟨[⟨⟨"Source"⟩, ⟨"V"⟩, .FieldIdent ⟨"a"⟩, 31, 32, 33⟩], 10⟩),
           (.FieldPos 1, ⟨[], 11⟩)]⟩)]⟩ =
      .error (.syn 11 "Missing required mapping to named field for Source::V") := by
  exact ⟨from_s2t_missing, from_t2s_missing, into_s2t_missing, into_t2s_missing, rfl⟩

/-- Witness for C4's amended theorem at a concrete input. -/
theorem c4_witness :
    EnumFrom.compute_struct_to_tuple_variant_mapping ⟨"S"⟩ ⟨"W"⟩
      [(.FieldPos 0, ⟨⟨"S"⟩, ⟨"W"⟩, .FieldIdent ⟨"a"⟩, 1, 2, 3⟩)] [10, 11] ⟨"V"⟩ =
      .error (.syn 11 ("Missing required mapping to named field for " ++
        ContainerIdent.name ⟨"S"⟩ ++ "::" ++ VariantIdent.name ⟨"W"⟩)) :=
  c4_amended.1 ⟨"S"⟩ ⟨"W"⟩
    [(.FieldPos 0, ⟨⟨"S"⟩, ⟨"W"⟩, .FieldIdent ⟨"a"⟩, 1, 2, 3⟩)] [10, 11] ⟨"V"⟩ 1 11
    (by intro p hp; simp at hp; subst hp; exact ⟨⟨0, rfl⟩, ⟨⟨"a"⟩, rfl⟩⟩)
    (by decide)

theorem aremove_some_mem {κ α : Type} [DecidableEq κ] :
    ∀ (m : List (κ × α)) (k : κ) (val : α),
      (aremove m k).1 = some val → (k, val) ∈ m := by
  intro m
  induction m with
  | nil => intro k val h; simp [aremove] at h
  | cons p m ih =>
    intro k val h
    obtain ⟨k', v'⟩ := p
    by_cases hk : k' = k
    · subst hk
      simp only [aremove, if_pos rfl] at h
      cases h
      exact List.mem_cons_self _ _
    · simp only [aremove, if_neg hk] at h
      exact List.mem_cons_of_mem _ (ih k val h)

theorem aremove_snd_subset {κ α : Type} [DecidableEq κ] :
    ∀ (m : List (κ × α)) (k : κ) (q : κ × α),
      q ∈ (aremove m k).2 → q ∈ m := by
  intro m
  induction m with
  | nil => intro k q h; simp [aremove] at h
  | cons p m ih =>
    intro k q h
    obtain ⟨k', v'⟩ := p
    by_cases hk : k' = k
    · subst hk
      simp only [aremove, if_pos rfl] at h
      exact List.mem_cons_of_mem _ h
    · simp only [aremove, if_neg hk] at h
      rcases List.mem_cons.mp h with hh | ht
      · exact hh ▸ List.mem_cons_self _ _
      · exact List.mem_cons_of_mem _ (ih k q ht)

theorem mem_foldl_ainsert {κ α : Type} [DecidableEq κ] :
    ∀ (l : List (κ × α)) (m0 : List (κ × α)) (p : κ × α),
      p ∈ l.foldl (fun m q => ainsert m q.1 q.2) m0 → p ∈ m0 ∨ p ∈ l := by
  intro l
  induction l with
  | nil => intro m0 p h; exact Or.inl h
  | cons q l ih =>
    intro m0 p h
    simp only [List.foldl_cons] at h
    rcases ih (ainsert m0 q.1 q.2) p h with h' | h'
    · rcases mem_ainsert m0 q.1 q.2 p h' with h'' | h''
      · exact Or.inr (List.mem_cons.mpr (Or.inl (by rw [h''])))
      · exact Or.inl h''
    · exact Or.inr (List.mem_cons_of_mem _ h')

theorem foldlE_preserves_mem {σ α : Type} (P : σ → Prop) (f : σ → α → Except Failure σ) :
    ∀ (l : List α),
      (∀ s a s', a ∈ l → P s → f s a = .ok s' → P s') →
      ∀ (s s' : σ), P s → foldlE f s l = .ok s' → P s' := by
  intro l
  induction l with
  | nil =>
    intro _ s s' hP hf
    simp only [foldlE] at hf
    cases hf
    exact hP
  | cons a l ih =>
    intro h s s' hP hf
    simp only [foldlE, Bind.bind, Except.bind] at hf
    cases hfa : f s a with
    | error e => rw [hfa] at hf; cases hf
    | ok s1 =>
      rw [hfa] at hf
      exact ih (fun s a' s' ha' => h s a' s' (List.mem_cons_of_mem _ ha'))
        s1 s' (h s a s1 (List.mem_cons_self _ _) hP hfa) hf

theorem from_extract_list_surv (fa : EnumFrom.FieldAnnotation)
    (E' : ContainerIdent) (W' : VariantIdent)
    (hne : ¬(fa.source_enum = E' ∧ fa.source_variant = W')) :
    ∀ (m : List (FieldRef × EnumFrom.FieldAnnotations)) ex res,
      (∃ entry ∈ m, fa ∈ entry.2.fields_annotations) →
      EnumFrom.extract_fields_annotations_list m E' W' = .ok (ex, res) →
      ∃ entry ∈ res, fa ∈ entry.2.fields_annotations := by
  intro m
  induction m with
  | nil =>
    intro ex res h _
    obtain ⟨entry, hmem, _⟩ := h
    cases hmem
  | cons p m ih =>
    intro ex res hsurv hok
    obtain ⟨k, fas⟩ := p
    simp only [EnumFrom.extract_fields_annotations_list] at hok
    by_cases hlen : 2 ≤ (fas.fields_annotations.filter
        (fun fa => fa.source_enum = E' ∧ fa.source_variant = W')).length
    · rw [if_pos hlen] at hok; cases hok
    · rw [if_neg hlen] at hok
      simp only [Bind.bind, Except.bind] at hok
      cases hrec : EnumFrom.extract_fields_annotations_list m E' W' with
      | error e => rw [hrec] at hok; cases hok
      | ok pr =>
        rw [hrec] at hok
        obtain ⟨ex', res'⟩ := pr
        have hres : res = (k, ⟨fas.fields_annotations.filter
            (fun fa => ¬(fa.source_enum = E' ∧ fa.source_variant = W')), fas.field_span⟩) :: res' := by
          cases hm : fas.fields_annotations.filter
              (fun fa => fa.source_enum = E' ∧ fa.source_variant = W') with
          | nil => rw [hm] at hok; simp only at hok; cases hok; rfl
          | cons a t => rw [hm] at hok; simp only at hok; cases hok; rfl
        rcases hsurv with ⟨entry, hmem, hfa⟩
        rcases List.mem_cons.mp hmem with hh | ht
        · subst hh
          rw [hres]
          refine ⟨_, List.mem_cons_self _ _, ?_⟩
          simp only
          rw [List.mem_filter]
          exact ⟨hfa, decide_eq_true hne⟩
        · obtain ⟨entry', hmem', hfa'⟩ := ih ex' res' ⟨entry, ht, hfa⟩ hrec
          rw [hres]
          exact ⟨entry', List.mem_cons_of_mem _ hmem', hfa'⟩

theorem into_extract_list_surv (fa : EnumInto.FieldAnnotation)
    (E' : ContainerIdent) (W' : VariantIdent)
    (hne : ¬(fa.target_enum = E' ∧ fa.target_variant = W')) :
    ∀ (m : List (FieldRef × EnumInto.FieldAnnotations)) ex res,
      (∃ entry ∈ m, fa ∈ entry.2.fields_annotations) →
      EnumInto.extract_fields_annotations_list m E' W' = .ok (ex, res) →
      ∃ entry ∈ res, fa ∈ entry.2.fields_annotations := by
  intro m
  induction m with
  | nil =>
    intro ex res h _
    obtain ⟨entry, hmem, _⟩ := h
    cases hmem
  | cons p m ih =>
    intro ex res hsurv hok
    obtain ⟨k, fas⟩ := p
    simp only [EnumInto.extract_fields_annotations_list] at hok
    by_cases hlen : 2 ≤ (fas.fields_annotations.filter
        (fun fa => fa.target_enum = E' ∧ fa.target_variant = W')).length
    · rw [if_pos hlen] at hok; cases hok
    · rw [if_neg hlen] at hok
      simp only [Bind.bind, Except.bind] at hok
      cases hrec : EnumInto.extract_fields_annotations_list m E' W' with
      | error e => rw [hrec] at hok; cases hok
      | ok pr =>
        rw [hrec] at hok
        obtain ⟨ex', res'⟩ := pr
        have hres : res = (k, ⟨fas.fields_annotations.filter
            (fun fa => ¬(fa.target_enum = E' ∧ fa.target_variant = W')), fas.field_span⟩) :: res' := by
          cases hm : fas.fields_annotations.filter
              (fun fa => fa.target_enum = E' ∧ fa.target_variant = W') with
          | nil => rw [hm] at hok; simp only at hok; cases hok; rfl
          | cons a t => rw [hm] at hok; simp only at hok; cases hok; rfl
        rcases hsurv with ⟨entry, hmem, hfa⟩
        rcases List.mem_cons.mp hmem with hh | ht
        · subst hh
          rw [hres]
          refine ⟨_, List.mem_cons_self _ _, ?_⟩
          simp only
          rw [List.mem_filter]
          exact ⟨hfa, decide_eq_true hne⟩
        · obtain ⟨entry', hmem', hfa'⟩ := ih ex' res' ⟨entry, ht, hfa⟩ hrec
          rw [hres]
          exact ⟨entry', List.mem_cons_of_mem _ hmem', hfa'⟩

theorem from_check_unused_nonempty
    (se : List (ContainerIdent × EnumFrom.VariantsMapping)) :
    ∀ l : List (FieldRef × EnumFrom.FieldAnnotations),
      (∃ entry ∈ l, ∃ fa, fa ∈ entry.2.fields_annotations) →
      ∃ e, EnumFrom.check_unused_fields_annotations se l = .error e := by
  intro l
  induction l with
  | nil =>
    intro h
    obtain ⟨entry, hmem, _⟩ := h
    cases hmem
  | cons p l ih =>
    intro h
    obtain ⟨k, fas⟩ := p
    cases hm : fas.fields_annotations with
    | nil =>
      obtain ⟨entry, hmem, fa, hfa⟩ := h
      rcases List.mem_cons.mp hmem with hh | ht
      · subst hh
        rw [hm] at hfa
        cases hfa
      · obtain ⟨e, he⟩ := ih ⟨entry, ht, fa, hfa⟩
        exact ⟨e, by simp [EnumFrom.check_unused_fields_annotations, hm, he]⟩
    | cons fa' rest =>
      by_cases hc : acontains se fa'.source_enum
      · exact ⟨.syn fa'.variant_span "Field mapping for unexpected enum and variant combination",
          by simp [EnumFrom.check_unused_fields_annotations, hm, hc]⟩
      · refine ⟨.syn fa'.enum_span "Field mapping for unknown enum", ?_⟩
        simp only [Bool.not_eq_true] at hc
        simp [EnumFrom.check_unused_fields_annotations, hm, hc]

theorem into_check_unused_fields_nonempty
    (te : List (ContainerIdent × EnumInto.VariantsMapping)) :
    ∀ l : List (FieldRef × EnumInto.FieldAnnotations),
      (∃ entry ∈ l, ∃ fa, fa ∈ entry.2.fields_annotations) →
      ∃ e, EnumInto.check_unused_fields_annotations te l = .error e := by
  intro l
  induction l with
  | nil =>
    intro h
    obtain ⟨entry, hmem, _⟩ := h
    cases hmem
  | cons p l ih =>
    intro h
    obtain ⟨k, fas⟩ := p
    cases hm : fas.fields_annotations with
    | nil =>
      obtain ⟨entry, hmem, fa, hfa⟩ := h
      rcases List.mem_cons.mp hmem with hh | ht
      · subst hh
        rw [hm] at hfa
        cases hfa
      · obtain ⟨e, he⟩ := ih ⟨entry, ht, fa, hfa⟩
        exact ⟨e, by simp [EnumInto.check_unused_fields_annotations, hm, he]⟩
    | cons fa' rest =>
      by_cases hc : acontains te fa'.target_enum
      · exact ⟨.syn fa'.variant_span "Field mapping for unexpected enum and variant combination",
          by simp [EnumInto.check_unused_fields_annotations, hm, hc]⟩
      · refine ⟨.syn fa'.enum_span "Field mapping for unknown enum", ?_⟩
        simp only [Bool.not_eq_true] at hc
        simp [EnumInto.check_unused_fields_annotations, hm, hc]

theorem from_pva_surv (single : Option ContainerIdent) (v : Variant)
    (fa : EnumFrom.FieldAnnotation) (va : EnumFrom.VariantAnnotation)
    (st st' : List (ContainerIdent × EnumFrom.VariantsMapping) × List (FieldRef × EnumFrom.FieldAnnotations))
    (hcl : ∀ E' W' sp, EnumFrom.get_source_enum_and_variant v single va = .ok (E', W', sp) →
      ¬(fa.source_enum = E' ∧ fa.source_variant = W'))
    (hsurv : ∃ entry ∈ st.2, fa ∈ entry.2.fields_annotations)
    (hok : EnumFrom.process_variant_annot single v st va = .ok st') :
    ∃ entry ∈ st'.2, fa ∈ entry.2.fields_annotations := by
  obtain ⟨se, fam⟩ := st
  simp only [EnumFrom.process_variant_annot, Bind.bind, Except.bind] at hok
  cases hgs : EnumFrom.get_source_enum_and_variant v single va with
  | error e => rw [hgs] at hok; cases hok
  | ok triple =>
    rw [hgs] at hok
    obtain ⟨E', W', sp⟩ := triple
    simp only at hok
    cases hlk : alookup se E' with
    | none => rw [hlk] at hok; cases hok
    | some vm =>
      rw [hlk] at hok
      simp only at hok
      simp only [EnumFrom.extract_fields_annotations, Bind.bind, Except.bind] at hok
      cases hex : EnumFrom.extract_fields_annotations_list fam E' W' with
      | error e => rw [hex] at hok; cases hok
      | ok pr =>
        rw [hex] at hok
        obtain ⟨ex0, res0⟩ := pr
        simp only at hok
        cases hcm : EnumFrom.compute_variant_mapping E' W'
            (btreeOfList FieldRef.le ex0) v.fields v.ident with
        | error e => rw [hcm] at hok; cases hok
        | ok vmap =>
          rw [hcm] at hok
          simp only at hok
          cases hok
          exact from_extract_list_surv fa E' W' (hcl E' W' sp hgs) fam ex0 res0 hsurv hex

theorem from_process_variant_unused_errors (single : Option ContainerIdent)
    (v : Variant) (anns : EnumFrom.VariantAnnotations) (fa : EnumFrom.FieldAnnotation)
    (hfa : ∃ entry ∈ anns.fields_annotations, fa ∈ entry.2.fields_annotations)
    (hcl : ∀ va ∈ anns.variant_annotations, ∀ E' W' sp,
      EnumFrom.get_source_enum_and_variant v single va = .ok (E', W', sp) →
      ¬(fa.source_enum = E' ∧ fa.source_variant = W')) :
    ∀ acc, ∃ e, EnumFrom.process_variant single acc (v, anns) = .error e := by
  intro acc
  obtain ⟨se, tvs⟩ := acc
  cases hfold : foldlE (EnumFrom.process_variant_annot single v)
      (se, anns.fields_annotations) anns.variant_annotations with
  | error e =>
    exact ⟨e, by simp [EnumFrom.process_variant, hfold, Bind.bind, Except.bind]⟩
  | ok st' =>
    obtain ⟨se', res'⟩ := st'
    have hsurv : ∃ entry ∈ res', fa ∈ entry.2.fields_annotations := by
      have := foldlE_preserves_mem
        (fun st : List (ContainerIdent × EnumFrom.VariantsMapping) × List (FieldRef × EnumFrom.FieldAnnotations) =>
          ∃ entry ∈ st.2, fa ∈ entry.2.fields_annotations)
        (EnumFrom.process_variant_annot single v)
        anns.variant_annotations
        (fun s a s' ha hP hf => from_pva_surv single v fa a s s' (hcl a ha) hP hf)
        (se, anns.fields_annotations) (se', res') hfa hfold
      exact this
    obtain ⟨e, he⟩ := from_check_unused_nonempty se' res'
      (hsurv.imp (fun entry h => ⟨h.1, fa, h.2⟩))
    exact ⟨e, by simp [EnumFrom.process_variant, hfold, he, Bind.bind, Except.bind]⟩

/-- The `single_source_enum` value `EnumFromGenerator::try_from` computes
from the container-level list (for a nonempty list). -/
def EnumFrom.singleSourceOf (cas : List EnumFrom.ContainerAnnotation) : Option ContainerIdent :=
  match cas with
  | [ca] => some ca.ident
  | _ => none

theorem from_try_from_unused_errors (p : EnumFrom.ParsedEnumFrom)
    (v : Variant) (anns : EnumFrom.VariantAnnotations) (fa : EnumFrom.FieldAnnotation)
    (hvmem : (v, anns) ∈ p.variants_annotations)
    (hfa : ∃ entry ∈ anns.fields_annotations, fa ∈ entry.2.fields_annotations)
    (hcl : ∀ va ∈ anns.variant_annotations, ∀ E' W' sp,
      EnumFrom.get_source_enum_and_variant v
        (EnumFrom.singleSourceOf p.container_annotations) va = .ok (E', W', sp) →
      ¬(fa.source_enum = E' ∧ fa.source_variant = W')) :
    ∃ e, EnumFrom.EnumFromGenerator.try_from p = .error e := by
  obtain ⟨T, cas, vas⟩ := p
  simp only at hvmem hcl
  have main : ∀ single : Option ContainerIdent,
      single = EnumFrom.singleSourceOf cas →
      ∃ e, foldlE (EnumFrom.process_variant single)
        (cas.foldl (fun m ca => ainsert m ca.ident ([] : EnumFrom.VariantsMapping)) [], []) vas =
        .error e := by
    intro single hs
    exact foldlE_error_of_mem (fun _ => True)
      (EnumFrom.process_variant single)
      (fun _ _ _ _ _ => trivial)
      (v, anns)
      (fun s _ => from_process_variant_unused_errors single v anns fa hfa
        (hs ▸ hcl) s)
      vas _ hvmem trivial
  cases cas with
  | nil => exact ⟨.syn callSite "enum_from attribute with source enum names is required", rfl⟩
  | cons ca cs =>
    cases cs with
    | nil =>
      obtain ⟨e, he⟩ := main (some ca.ident) rfl
      refine ⟨e, ?_⟩
      simp only [EnumFrom.EnumFromGenerator.try_from, Bind.bind, Except.bind]
      rw [he]
    | cons ca2 cs' =>
      obtain ⟨e, he⟩ := main none rfl
      refine ⟨e, ?_⟩
      simp only [EnumFrom.EnumFromGenerator.try_from, Bind.bind, Except.bind]
      rw [he]

theorem aremove_fst {κ α : Type} [DecidableEq κ] :
    ∀ (m : List (κ × α)) (k : κ), (aremove m k).1 = alookup m k := by
  intro m
  induction m with
  | nil => intro k; rfl
  | cons p m ih =>
    intro k
    obtain ⟨k', v'⟩ := p
    by_cases hk : k' = k
    · simp [aremove, alookup, hk]
    · simp [aremove, alookup, hk, ih]

theorem ainsert_keys_nodup {κ α : Type} [DecidableEq κ] :
    ∀ (m : List (κ × α)) (k : κ) (v : α), (m.map Prod.fst).Nodup →
      ((ainsert m k v).map Prod.fst).Nodup := by
  intro m
  induction m with
  | nil => intro k v _; simp [ainsert]
  | cons p m ih =>
    intro k v hnd
    obtain ⟨k', v'⟩ := p
    simp only [List.map_cons, List.nodup_cons] at hnd
    by_cases hk : k' = k
    · subst hk
      rw [show ainsert ((k', v') :: m) k' v = (k', v) :: m from by simp [ainsert]]
      simp only [List.map_cons, List.nodup_cons]
      exact ⟨hnd.1, hnd.2⟩
    · simp only [ainsert, if_neg hk, List.map_cons, List.nodup_cons]
      refine ⟨?_, ih k v hnd.2⟩
      intro hmem
      obtain ⟨q, hq, hq1⟩ := List.mem_map.mp hmem
      rcases mem_ainsert m k v q hq with h | h
      · apply hk
        rw [← hq1, h]
      · exact hnd.1 (hq1 ▸ List.mem_map_of_mem Prod.fst h)

theorem foldl_ainsert_keys_nodup {κ α β : Type} [DecidableEq κ] (f : β → κ) (c : α) :
    ∀ (l : List β) (m0 : List (κ × α)), (m0.map Prod.fst).Nodup →
      ((l.foldl (fun m b => ainsert m (f b) c) m0).map Prod.fst).Nodup := by
  intro l
  induction l with
  | nil => intro m0 h; exact h
  | cons b l ih =>
    intro m0 h
    simp only [List.foldl_cons]
    exact ih _ (ainsert_keys_nodup m0 (f b) c h)

/-- The target variant the into-direction resolver pairs a declared target
enum `k` with: the explicitly annotated variant when the variant-level
annotation map names `k`, the annotated variant's own name otherwise. -/
def EnumInto.resolvedTargetVariant (v : Variant)
    (tvm : List (ContainerIdent × (VariantIdent × Span))) (k : ContainerIdent) : VariantIdent :=
  match alookup tvm k with
  | some pr => pr.1
  | none => v.ident

theorem into_process_variant_keys
    (acc : List (ContainerIdent × EnumInto.VariantsMapping) × List (VariantIdent × Variant))
    (entry : Variant × EnumInto.VariantAnnotations)
    (acc' : List (ContainerIdent × EnumInto.VariantsMapping) × List (VariantIdent × Variant))
    (hok : EnumInto.process_variant acc entry = .ok acc') :
    acc'.1.map Prod.fst = acc.1.map Prod.fst := by
  obtain ⟨tes, svs⟩ := acc
  obtain ⟨v, anns⟩ := entry
  rw [into_process_variant_eq] at hok
  simp only [Bind.bind, Except.bind] at hok
  cases hpte : EnumInto.process_target_enums v tes
      (EnumInto.variantTargets v anns, anns.fields_annotations) with
  | error e => rw [hpte] at hok; cases hok
  | ok res =>
    rw [hpte] at hok
    obtain ⟨res1, res2, res3⟩ := res
    simp only at hok
    cases hcv : EnumInto.check_unused_variants_annotations res2 with
    | error e => rw [hcv] at hok; cases hok
    | ok u =>
      rw [hcv] at hok
      simp only at hok
      cases hcf : EnumInto.check_unused_fields_annotations res1 res3 with
      | error e => rw [hcf] at hok; cases hok
      | ok u2 =>
        rw [hcf] at hok
        simp only at hok
        cases hok
        exact into_pte_keys v tes _ (res1, res2, res3) hpte

theorem into_pte_surv (v : Variant) (fa : EnumInto.FieldAnnotation) :
    ∀ (tes : List (ContainerIdent × EnumInto.VariantsMapping))
      (tvm : List (ContainerIdent × (VariantIdent × Span)))
      (fam : List (FieldRef × EnumInto.FieldAnnotations))
      (res : List (ContainerIdent × EnumInto.VariantsMapping) ×
        (List (ContainerIdent × (VariantIdent × Span)) × List (FieldRef × EnumInto.FieldAnnotations))),
      (tes.map Prod.fst).Nodup →
      (∀ q ∈ tes, ¬(fa.target_enum = q.1 ∧
        fa.target_variant = EnumInto.resolvedTargetVariant v tvm q.1)) →
      (∃ entry ∈ fam, fa ∈ entry.2.fields_annotations) →
      EnumInto.process_target_enums v tes (tvm, fam) = .ok res →
      ∃ entry ∈ res.2.2, fa ∈ entry.2.fields_annotations
  | [], tvm, fam, res, _, _, hsurv, hok => by
    simp only [EnumInto.process_target_enums] at hok
    cases hok
    exact hsurv
  | (k, vm) :: rest, tvm, fam, res, hnd, hsafe, hsurv, hok => by
    simp only [List.map_cons, List.nodup_cons] at hnd
    simp only [EnumInto.process_target_enums, Bind.bind, Except.bind] at hok
    have hne : ¬(fa.target_enum = k ∧ fa.target_variant =
        (match (aremove tvm k).1 with | some p => p.1 | none => v.ident)) := by
      rintro ⟨hE, hW⟩
      refine hsafe (k, vm) (List.mem_cons_self _ _) ⟨hE, ?_⟩
      simp only [EnumInto.resolvedTargetVariant]
      rw [← aremove_fst]
      exact hW
    simp only [EnumInto.extract_fields_annotations, Bind.bind, Except.bind] at hok
    cases hex : EnumInto.extract_fields_annotations_list fam k
        (match (aremove tvm k).1 with | some p => p.1 | none => v.ident) with
    | error e => rw [hex] at hok; cases hok
    | ok pr =>
      rw [hex] at hok
      obtain ⟨ex0, res0⟩ := pr
      simp only at hok
      cases hcm : EnumInto.compute_variant_mapping k
          (match (aremove tvm k).1 with | some p => p.1 | none => v.ident)
          (btreeOfList FieldRef.le ex0) v.fields v.ident with
      | error e => rw [hcm] at hok; cases hok
      | ok vmap =>
        rw [hcm] at hok
        simp only at hok
        cases hrec : EnumInto.process_target_enums v rest ((aremove tvm k).2, res0) with
        | error e => rw [hrec] at hok; cases hok
        | ok res' =>
          rw [hrec] at hok
          simp only at hok
          cases hok
          have hsurv0 := into_extract_list_surv fa k
            (match (aremove tvm k).1 with | some p => p.1 | none => v.ident)
            hne fam ex0 res0 hsurv hex
          refine into_pte_surv v fa rest ((aremove tvm k).2) res0 res' hnd.2 ?_ hsurv0 hrec
          intro q hq hcontra
          have hqk : q.1 ≠ k := by
            intro h
            exact hnd.1 (h ▸ List.mem_map_of_mem Prod.fst hq)
          refine hsafe q (List.mem_cons_of_mem _ hq) ⟨hcontra.1, ?_⟩
          simp only [EnumInto.resolvedTargetVariant] at hcontra ⊢
          rw [← alookup_aremove_ne tvm k q.1 hqk]
          exact hcontra.2

theorem into_process_variant_unused_errors
    (v : Variant) (anns : EnumInto.VariantAnnotations) (fa : EnumInto.FieldAnnotation)
    (hfa : ∃ entry ∈ anns.fields_annotations, fa ∈ entry.2.fields_annotations)
    (hcl : ∀ k : ContainerIdent, ¬(fa.target_enum = k ∧ fa.target_variant =
      EnumInto.resolvedTargetVariant v (EnumInto.variantTargets v anns) k)) :
    ∀ acc, (acc.1.map Prod.fst).Nodup →
      ∃ e, EnumInto.process_variant acc (v, anns) = .error e := by
  intro acc hnd
  obtain ⟨tes, svs⟩ := acc
  simp only at hnd
  rw [into_process_variant_eq]
  simp only [Bind.bind, Except.bind]
  cases hpte : EnumInto.process_target_enums v tes
      (EnumInto.variantTargets v anns, anns.fields_annotations) with
  | error e => exact ⟨e, rfl⟩
  | ok res =>
    have hsurv := into_pte_surv v fa tes (EnumInto.variantTargets v anns)
      anns.fields_annotations res hnd (fun q _ => hcl q.1) hfa hpte
    cases hcv : EnumInto.check_unused_variants_annotations res.2.1 with
    | error e =>
      refine ⟨e, ?_⟩
      simp only [hcv]
    | ok u =>
      obtain ⟨e, he⟩ := into_check_unused_fields_nonempty res.1 res.2.2
        (hsurv.imp (fun entry h => ⟨h.1, fa, h.2⟩))
      refine ⟨e, ?_⟩
      simp only [hcv, he]

theorem into_try_from_unused_errors (p : EnumInto.ParsedEnumInto)
    (v : Variant) (anns : EnumInto.VariantAnnotations) (fa : EnumInto.FieldAnnotation)
    (hvmem : (v, anns) ∈ p.variants_annotations)
    (hfa : ∃ entry ∈ anns.fields_annotations, fa ∈ entry.2.fields_annotations)
    (hcl : ∀ k : ContainerIdent, ¬(fa.target_enum = k ∧ fa.target_variant =
      EnumInto.resolvedTargetVariant v (EnumInto.variantTargets v anns) k)) :
    ∃ e, EnumInto.EnumIntoGenerator.try_from p = .error e := by
  obtain ⟨S, cas, vas⟩ := p
  simp only at hvmem
  cases cas with
  | nil => exact ⟨.syn callSite "enum_into attribute with target enum names is required", rfl⟩
  | cons ca cs =>
    obtain ⟨e, he⟩ := foldlE_error_of_mem
      (fun acc : List (ContainerIdent × EnumInto.VariantsMapping) × List (VariantIdent × Variant) =>
        (acc.1.map Prod.fst).Nodup)
      EnumInto.process_variant
      (fun s a s' hP hf => by
        show (List.map Prod.fst s'.1).Nodup
        rw [into_process_variant_keys s a s' hf]
        exact hP)
      (v, anns)
      (fun s hP => into_process_variant_unused_errors v anns fa hfa hcl s hP)
      vas ((ca :: cs).foldl (fun m ca => ainsert m ca.ident ([] : EnumInto.VariantsMapping)) [], [])
      hvmem
      (foldl_ainsert_keys_nodup (fun ca => ca.ident) ([] : EnumInto.VariantsMapping)
        (ca :: cs) [] List.nodup_nil)
    refine ⟨e, ?_⟩
    simp only [EnumInto.EnumIntoGenerator.try_from, List.isEmpty_cons, Bind.bind, Except.bind,
      Bool.false_eq_true, if_false]
    rw [he]

/-- C6: a field-level annotation referencing a `(paired union, paired
variant)` combination that no variant-level annotation on the same variant
claims always makes resolution fail, in both directions — it is never
silently ignored — and when the leftover-annotation check reports it, the
diagnostic distinguishes an unknown paired union (`enum_span`, "Field
mapping for unknown enum") from an unclaimed union+variant combination
(`variant_span`, "Field mapping for unexpected enum and variant
combination").  In the from direction "claimed" means resolved by some
variant-level annotation via `get_source_enum_and_variant`; in the into
direction it means equal to a declared target enum's resolved pair
(explicit annotation or the name-identity default). -/
theorem c6_theorem :
    (∀ (p : EnumFrom.ParsedEnumFrom) (v : Variant) (anns : EnumFrom.VariantAnnotations)
      (fa : EnumFrom.FieldAnnotation),
      (v, anns) ∈ p.variants_annotations →
      (∃ entry ∈ anns.fields_annotations, fa ∈ entry.2.fields_annotations) →
      (∀ va ∈ anns.variant_annotations, ∀ E' W' sp,
        EnumFrom.get_source_enum_and_variant v
          (EnumFrom.singleSourceOf p.container_annotations) va = .ok (E', W', sp) →
        ¬(fa.source_enum = E' ∧ fa.source_variant = W')) →
      ∃ e, EnumFrom.EnumFromGenerator.try_from p = .error e) ∧
    (∀ (p : EnumInto.ParsedEnumInto) (v : Variant) (anns : EnumInto.VariantAnnotations)
      (fa : EnumInto.FieldAnnotation),
      (v, anns) ∈ p.variants_annotations →
      (∃ entry ∈ anns.fields_annotations, fa ∈ entry.2.fields_annotations) →
      (∀ k : ContainerIdent, ¬(fa.target_enum = k ∧ fa.target_variant =
        EnumInto.resolvedTargetVariant v (EnumInto.variantTargets v anns) k)) →
      ∃ e, EnumInto.EnumIntoGenerator.try_from p = .error e) ∧
    (∀ (se : List (ContainerIdent × EnumFrom.VariantsMapping)) (k : FieldRef)
      (fas : EnumFrom.FieldAnnotations) (rest : List (FieldRef × EnumFrom.FieldAnnotations))
      (fa : EnumFrom.FieldAnnotation) (tl : List EnumFrom.FieldAnnotation),
      fas.fields_annotations = fa :: tl →
      (acontains se fa.source_enum = true →
        EnumFrom.check_unused_fields_annotations se ((k, fas) :: rest) =
          .error (.syn fa.variant_span "Field mapping for unexpected enum and variant combination")) ∧
      (acontains se fa.source_enum = false →
        EnumFrom.check_unused_fields_annotations se ((k, fas) :: rest) =
          .error (.syn fa.enum_span "Field mapping for unknown enum"))) ∧
    (∀ (te : List (ContainerIdent × EnumInto.VariantsMapping)) (k : FieldRef)
      (fas : EnumInto.FieldAnnotations) (rest : List (FieldRef × EnumInto.FieldAnnotations))
      (fa : EnumInto.FieldAnnotation) (tl : List EnumInto.FieldAnnotation),
      fas.fields_annotations = fa :: tl →
      (acontains te fa.target_enum = true →
        EnumInto.check_unused_fields_annotations te ((k, fas) :: rest) =
          .error (.syn fa.variant_span "Field mapping for unexpected enum and variant combination")) ∧
      (acontains te fa.target_enum = false →
        EnumInto.check_unused_fields_annotations te ((k, fas) :: rest) =
          .error (.syn fa.enum_span "Field mapping for unknown enum"))) := by
  refine ⟨?_, ?_, ?_, ?_⟩
  · intro p v anns fa h1 h2 h3
    exact from_try_from_unused_errors p v anns fa h1 h2 h3
  · intro p v anns fa h1 h2 h3
    exact into_try_from_unused_errors p v anns fa h1 h2 h3
  · intro se k fas rest fa tl hfas
    constructor
    · intro hc
      simp [EnumFrom.check_unused_fields_annotations, hfas, hc]
    · intro hc
      simp [EnumFrom.check_unused_fields_annotations, hfas, hc]
  · intro te k fas rest fa tl hfas
    constructor
    · intro hc
      simp [EnumInto.check_unused_fields_annotations, hfas, hc]
    · intro hc
      simp [EnumInto.check_unused_fields_annotations, hfas, hc]

/-- Witness for C6 at concrete inputs: the from direction with a field
annotation referencing an unclaimed variant, and the into direction with
the variant remapped to `K::W` while a field annotation references
`K::V` — the variant's own name, unclaimed because the default does not
apply to an explicitly remapped enum. -/
theorem c6_witness :
    (∃ e, EnumFrom.EnumFromGenerator.try_from
      ⟨⟨"T"⟩, [⟨⟨"S"⟩⟩],
        [(⟨⟨"V"⟩, .Named [(⟨"x"⟩, 20)]⟩, ⟨[.Nothing 5],
          [(.FieldIdent ⟨"x"⟩,
            ⟨[⟨⟨"S"⟩, ⟨"W"⟩, .FieldIdent ⟨"a"⟩, 31, 32, 33⟩], 20⟩)]⟩)]⟩ = .error e) ∧
    (∃ e, EnumInto.EnumIntoGenerator.try_from
      ⟨⟨"T"⟩, [⟨⟨"K"⟩⟩],
        [(⟨⟨"V"⟩, .Named [(⟨"f"⟩, 20)]⟩, ⟨[.EnumVariant 5 ⟨"K"⟩ ⟨"W"⟩],
          [(.FieldIdent ⟨"f"⟩,
            ⟨[⟨⟨"K"⟩, ⟨"V"⟩, .FieldIdent ⟨"g"⟩, 41, 42, 43⟩], 20⟩)]⟩)]⟩ = .error e) := by
  constructor
  · refine c6_theorem.1
      ⟨⟨"T"⟩, [⟨⟨"S"⟩⟩],
        [(⟨⟨"V"⟩, .Named [(⟨"x"⟩, 20)]⟩, ⟨[.Nothing 5],
          [(.FieldIdent ⟨"x"⟩,
            ⟨[⟨⟨"S"⟩, ⟨"W"⟩, .FieldIdent ⟨"a"⟩, 31, 32, 33⟩], 20⟩)]⟩)]⟩
      ⟨⟨"V"⟩, .Named [(⟨"x"⟩, 20)]⟩
      ⟨[.Nothing 5], [(.FieldIdent ⟨"x"⟩, ⟨[⟨⟨"S"⟩, ⟨"W"⟩, .FieldIdent ⟨"a"⟩, 31, 32, 33⟩], 20⟩)]⟩
      ⟨⟨"S"⟩, ⟨"W"⟩, .FieldIdent ⟨"a"⟩, 31, 32, 33⟩
      (by simp) ?_ ?_
    · refine ⟨_, List.mem_cons_self _ _, ?_⟩
      simp
    · intro va hva E' W' sp h
      simp only [List.mem_singleton] at hva
      subst hva
      simp only [EnumFrom.get_source_enum_and_variant, EnumFrom.singleSourceOf] at h
      cases h
      decide
  · refine c6_theorem.2.1
      ⟨⟨"T"⟩, [⟨⟨"K"⟩⟩],
        [(⟨⟨"V"⟩, .Named [(⟨"f"⟩, 20)]⟩, ⟨[.EnumVariant 5 ⟨"K"⟩ ⟨"W"⟩],
          [(.FieldIdent ⟨"f"⟩,
            ⟨[⟨⟨"K"⟩, ⟨"V"⟩, .FieldIdent ⟨"g"⟩, 41, 42, 43⟩], 20⟩)]⟩)]⟩
      ⟨⟨"V"⟩, .Named [(⟨"f"⟩, 20)]⟩
      ⟨[.EnumVariant 5 ⟨"K"⟩ ⟨"W"⟩],
        [(.FieldIdent ⟨"f"⟩, ⟨[⟨⟨"K"⟩, ⟨"V"⟩, .FieldIdent ⟨"g"⟩, 41, 42, 43⟩], 20⟩)]⟩
      ⟨⟨"K"⟩, ⟨"V"⟩, .FieldIdent ⟨"g"⟩, 41, 42, 43⟩
      (by simp) ?_ ?_
    · refine ⟨_, List.mem_cons_self _ _, ?_⟩
      simp
    · intro k hk
      obtain ⟨hk1, hk2⟩ := hk
      subst hk1
      exact absurd hk2 (by decide)

theorem optionMapList_perm {α β : Type} (f : α → Option β) :
    ∀ {l1 l2 : List α}, l1.Perm l2 →
      ∀ r1, optionMapList f l1 = some r1 →
        ∃ r2, optionMapList f l2 = some r2 ∧ r1.Perm r2 := by
  intro l1 l2 hperm
  induction hperm with
  | nil =>
    intro r1 h
    exact ⟨r1, h, List.Perm.refl r1⟩
  | @cons a l₁ l₂ h ih =>
    intro r1 hr
    simp only [optionMapList, Bind.bind, Option.bind] at hr
    cases hfa : f a with
    | none => rw [hfa] at hr; cases hr
    | some b =>
      rw [hfa] at hr
      simp only at hr
      cases hrec : optionMapList f l₁ with
      | none => rw [hrec] at hr; cases hr
      | some t1 =>
        rw [hrec] at hr
        simp only at hr
        cases hr
        obtain ⟨t2, ht2, hp⟩ := ih t1 hrec
        exact ⟨b :: t2, by simp [optionMapList, hfa, ht2, Bind.bind, Option.bind],
          List.Perm.cons b hp⟩
  | swap a b l =>
    intro r1 hr
    simp only [optionMapList, Bind.bind, Option.bind] at hr ⊢
    cases hfb : f b with
    | none => rw [hfb] at hr; cases hr
    | some vb =>
      rw [hfb] at hr
      simp only at hr
      cases hfa : f a with
      | none => rw [hfa] at hr; cases hr
      | some va =>
        rw [hfa] at hr
        simp only at hr
        cases hrec : optionMapList f l with
        | none => rw [hrec] at hr; cases hr
        | some t =>
          rw [hrec] at hr
          simp only at hr
          cases hr
          exact ⟨va :: vb :: t, by simp [hfa, hfb, hrec], List.Perm.swap va vb t⟩
  | trans h1 h2 ih1 ih2 =>
    intro r1 hr
    obtain ⟨r2, hr2, hp1⟩ := ih1 r1 hr
    obtain ⟨r3, hr3, hp2⟩ := ih2 r2 hr2
    exact ⟨r3, hr3, hp1.trans hp2⟩

/-- A two-source-enum from-direction input: two unit variants, each
claiming a distinct source enum, so the resolved `source_enums` map has
two keys and the emissions for distinct iteration orders can differ. -/
def c8ex : EnumFrom.ParsedEnumFrom :=
  { target_enum := ⟨"T"⟩
  , container_annotations := [⟨⟨"A"⟩⟩, ⟨⟨"B"⟩⟩]
  , variants_annotations :=
      [ (⟨⟨"VA"⟩, .Unit⟩, ⟨[.EnumOnly 1 ⟨"A"⟩], []⟩)
      , (⟨⟨"VB"⟩, .Unit⟩, ⟨[.EnumOnly 2 ⟨"B"⟩], []⟩) ] }

/-- The generator value that `try_from` resolves `c8ex` to. -/
def c8gen : EnumFrom.EnumFromGenerator :=
  { source_enums :=
      [ (⟨"A"⟩, [(⟨"VA"⟩, .UnitToUnit ⟨"VA"⟩)])
      , (⟨"B"⟩, [(⟨"VB"⟩, .UnitToUnit ⟨"VB"⟩)]) ]
  , target_enum := ⟨"T"⟩
  , target_variants := [ (⟨"VA"⟩, ⟨⟨"VA"⟩, .Unit⟩), (⟨"VB"⟩, ⟨⟨"VB"⟩, .Unit⟩) ] }

/-- An admissible inner-order family for `c8gen`. -/
def c8inner : ContainerIdent → List VariantIdent :=
  fun E => if E = ⟨"A"⟩ then [⟨"VA"⟩] else [⟨"VB"⟩]

/-- The impl block `generate` emits for source enum `A` of `c8gen`. -/
def c8blockA : ImplBlock :=
  { source_enum := ⟨"A"⟩, target_enum := ⟨"T"⟩
  , arms := [{ source_enum := ⟨"A"⟩, source_variant := ⟨"VA"⟩, pat := .unit
             , target_enum := ⟨"T"⟩, target_variant := ⟨"VA"⟩, expr := .unit }] }

/-- The impl block `generate` emits for source enum `B` of `c8gen`. -/
def c8blockB : ImplBlock :=
  { source_enum := ⟨"B"⟩, target_enum := ⟨"T"⟩
  , arms := [{ source_enum := ⟨"B"⟩, source_variant := ⟨"VB"⟩, pat := .unit
             , target_enum := ⟨"T"⟩, target_variant := ⟨"VB"⟩, expr := .unit }] }

/-- A one-source-enum input whose table holds two variant mappings, so the
inner `variants_mapping` `HashMap` walk can reorder arms within the one
impl block. -/
def c8ex2 : EnumFrom.ParsedEnumFrom :=
  { target_enum := ⟨"T"⟩
  , container_annotations := [⟨⟨"E"⟩⟩]
  , variants_annotations :=
      [ (⟨⟨"VA"⟩, .Unit⟩, ⟨[.Nothing 1], []⟩)
      , (⟨⟨"VB"⟩, .Unit⟩, ⟨[.Nothing 2], []⟩) ] }

/-- The generator value that `try_from` resolves `c8ex2` to. -/
def c8gen2 : EnumFrom.EnumFromGenerator :=
  { source_enums :=
      [ (⟨"E"⟩, [(⟨"VA"⟩, .UnitToUnit ⟨"VA"⟩), (⟨"VB"⟩, .UnitToUnit ⟨"VB"⟩)]) ]
  , target_enum := ⟨"T"⟩
  , target_variants := [ (⟨"VA"⟩, ⟨⟨"VA"⟩, .Unit⟩), (⟨"VB"⟩, ⟨⟨"VB"⟩, .Unit⟩) ] }

/-- C8, counterexample: the generated output is NOT iterated in a fixed
sorted order.  First, `generate` walks the `source_enums` `HashMap` in its
unspecified iteration order: `c8gen` admits two admissible orders that
yield differently-ordered impl blocks.  Second, `generate_from_impl` walks
the inner `variants_mapping` `HashMap`, also in unspecified order: `c8gen2`
admits two admissible inner orders that yield the same block with
differently-ordered arms.  The output is not byte-identical across runs
that iterate either map differently. -/
theorem c8_counterexample :
    (EnumFrom.EnumFromGenerator.try_from c8ex = .ok c8gen ∧
     EnumFrom.IsIterOrder [⟨"A"⟩, ⟨"B"⟩] c8gen.source_enums ∧
     EnumFrom.IsIterOrder [⟨"B"⟩, ⟨"A"⟩] c8gen.source_enums ∧
     EnumFrom.IsInnerIterOrder c8inner c8gen.source_enums ∧
     EnumFrom.EnumFromGenerator.generate c8gen [⟨"A"⟩, ⟨"B"⟩] c8inner ≠
       EnumFrom.EnumFromGenerator.generate c8gen [⟨"B"⟩, ⟨"A"⟩] c8inner) ∧
    (EnumFrom.EnumFromGenerator.try_from c8ex2 = .ok c8gen2 ∧
     EnumFrom.IsIterOrder [⟨"E"⟩] c8gen2.source_enums ∧
     EnumFrom.IsInnerIterOrder (fun _ => [⟨"VA"⟩, ⟨"VB"⟩]) c8gen2.source_enums ∧
     EnumFrom.IsInnerIterOrder (fun _ => [⟨"VB"⟩, ⟨"VA"⟩]) c8gen2.source_enums ∧
     EnumFrom.EnumFromGenerator.generate c8gen2 [⟨"E"⟩] (fun _ => [⟨"VA"⟩, ⟨"VB"⟩]) ≠
       EnumFrom.EnumFromGenerator.generate c8gen2 [⟨"E"⟩] (fun _ => [⟨"VB"⟩, ⟨"VA"⟩])) :=
  ⟨⟨rfl, by unfold EnumFrom.IsIterOrder; decide, by unfold EnumFrom.IsIterOrder; decide,
    by unfold EnumFrom.IsInnerIterOrder; decide, by decide⟩,
   ⟨rfl, by unfold EnumFrom.IsIterOrder; decide,
    by unfold EnumFrom.IsInnerIterOrder; decide,
    by unfold EnumFrom.IsInnerIterOrder; decide, by decide⟩⟩

theorem option_bind_some {α β : Type} (x : Option α) (f : α → Option β) (b : β)
    (h : (x >>= f) = some b) : ∃ a, x = some a ∧ f a = some b := by
  cases x with
  | none => simp [Bind.bind, Option.bind] at h
  | some a => exact ⟨a, rfl, by simpa [Bind.bind, Option.bind] using h⟩

theorem optionMapList_forall2 {α β : Type} (f g : α → Option β) (P : β → β → Prop) :
    ∀ (l : List α),
      (∀ a ∈ l, ∀ b1, f a = some b1 → ∃ b2, g a = some b2 ∧ P b1 b2) →
      ∀ r1, optionMapList f l = some r1 →
        ∃ r2, optionMapList g l = some r2 ∧ List.Forall₂ P r1 r2 := by
  intro l
  induction l with
  | nil =>
    intro _ r1 h
    cases h
    exact ⟨[], rfl, List.Forall₂.nil⟩
  | cons a l ih =>
    intro hrel r1 h
    simp only [optionMapList, Bind.bind, Option.bind] at h
    cases hfa : f a with
    | none => rw [hfa] at h; cases h
    | some b1 =>
      rw [hfa] at h
      simp only at h
      cases hrec : optionMapList f l with
      | none => rw [hrec] at h; cases h
      | some t1 =>
        rw [hrec] at h
        simp only at h
        cases h
        obtain ⟨b2, hb2, hP⟩ := hrel a (List.mem_cons_self _ _) b1 hfa
        obtain ⟨t2, ht2, hF⟩ := ih (fun x hx => hrel x (List.mem_cons_of_mem _ hx)) t1 hrec
        exact ⟨b2 :: t2, by simp [optionMapList, hb2, ht2, Bind.bind, Option.bind],
          List.Forall₂.cons hP hF⟩

/-- Two impl blocks that convert between the same pair of enums and whose
arms agree up to order. -/
def BlockPermRel (b1 b2 : ImplBlock) : Prop :=
  b1.source_enum = b2.source_enum ∧ b1.target_enum = b2.target_enum ∧ b1.arms.Perm b2.arms

theorem from_generate_inner_perm (g : EnumFrom.EnumFromGenerator)
    (inner1 inner2 : ContainerIdent → List VariantIdent)
    (hinner : ∀ E, (inner1 E).Perm (inner2 E)) (E : ContainerIdent) (b1 : ImplBlock)
    (h1 : (do
        let vm ← alookup g.source_enums E
        EnumFrom.generate_from_impl E vm (inner1 E) g.target_enum g.target_variants)
      = some b1) :
    ∃ b2, (do
        let vm ← alookup g.source_enums E
        EnumFrom.generate_from_impl E vm (inner2 E) g.target_enum g.target_variants)
      = some b2 ∧ BlockPermRel b1 b2 := by
  obtain ⟨vm, hlk, h1m⟩ := option_bind_some _ _ _ h1
  simp only [EnumFrom.generate_from_impl] at h1m
  obtain ⟨arms1, harms1, hb1⟩ := option_bind_some _ _ _ h1m
  injection hb1 with hb1
  obtain ⟨arms2, harms2, hperm⟩ := optionMapList_perm _ (hinner E) arms1 harms1
  refine ⟨{ source_enum := E, target_enum := g.target_enum, arms := arms2 }, ?_, ?_⟩
  · have hred : (do
        let vm ← alookup g.source_enums E
        EnumFrom.generate_from_impl E vm (inner2 E) g.target_enum g.target_variants)
      = EnumFrom.generate_from_impl E vm (inner2 E) g.target_enum g.target_variants := by
      rw [hlk]
      rfl
    rw [hred]
    simp only [EnumFrom.generate_from_impl]
    rw [harms2]
    rfl
  · rw [← hb1]
    exact ⟨rfl, rfl, hperm⟩

theorem into_generate_inner_perm (g : EnumInto.EnumIntoGenerator)
    (inner1 inner2 : ContainerIdent → List VariantIdent)
    (hinner : ∀ E, (inner1 E).Perm (inner2 E)) (E : ContainerIdent) (b1 : ImplBlock)
    (h1 : (do
        let vm ← alookup g.target_enums E
        EnumInto.generate_from_impl E vm (inner1 E) g.source_enum g.source_variants)
      = some b1) :
    ∃ b2, (do
        let vm ← alookup g.target_enums E
        EnumInto.generate_from_impl E vm (inner2 E) g.source_enum g.source_variants)
      = some b2 ∧ BlockPermRel b1 b2 := by
  obtain ⟨vm, hlk, h1m⟩ := option_bind_some _ _ _ h1
  simp only [EnumInto.generate_from_impl] at h1m
  obtain ⟨ls1, hls1, hb1⟩ := option_bind_some _ _ _ h1m
  injection hb1 with hb1
  obtain ⟨ls2, hls2, hperm⟩ := optionMapList_perm _ (hinner E) ls1 hls1
  refine ⟨{ source_enum := g.source_enum, target_enum := E, arms := ls2.flatten }, ?_, ?_⟩
  · have hred : (do
        let vm ← alookup g.target_enums E
        EnumInto.generate_from_impl E vm (inner2 E) g.source_enum g.source_variants)
      = EnumInto.generate_from_impl E vm (inner2 E) g.source_enum g.source_variants := by
      rw [hlk]
      rfl
    rw [hred]
    simp only [EnumInto.generate_from_impl]
    rw [hls2]
    rfl
  · rw [← hb1]
    exact ⟨rfl, rfl, hperm.flatten⟩

/-- C8, amended: resolution itself is a pure function of the input, and
the nondeterminism in emission is exactly the two `HashMap` iteration
orders — over enums, and over the per-enum variant tables.  For any two
admissible choices of both (outer orders permutations of one another,
inner orders pointwise permutations), the runs succeed together and the
outputs agree up to reordering of the impl blocks and, within each block,
reordering of its match arms, in both directions. -/
theorem c8_amended :
    (∀ (g : EnumFrom.EnumFromGenerator) (ord1 ord2 : List ContainerIdent)
       (inner1 inner2 : ContainerIdent → List VariantIdent) (r1 : List ImplBlock),
       ord1.Perm ord2 → (∀ E, (inner1 E).Perm (inner2 E)) →
       EnumFrom.EnumFromGenerator.generate g ord1 inner1 = some r1 →
       ∃ mid r2, EnumFrom.EnumFromGenerator.generate g ord2 inner2 = some r2 ∧
         List.Forall₂ BlockPermRel r1 mid ∧ mid.Perm r2) ∧
    (∀ (g : EnumInto.EnumIntoGenerator) (ord1 ord2 : List ContainerIdent)
       (inner1 inner2 : ContainerIdent → List VariantIdent) (r1 : List ImplBlock),
       ord1.Perm ord2 → (∀ E, (inner1 E).Perm (inner2 E)) →
       EnumInto.EnumIntoGenerator.generate g ord1 inner1 = some r1 →
       ∃ mid r2, EnumInto.EnumIntoGenerator.generate g ord2 inner2 = some r2 ∧
         List.Forall₂ BlockPermRel r1 mid ∧ mid.Perm r2) := by
  constructor
  · intro g ord1 ord2 inner1 inner2 r1 hordp hinnerp h1
    simp only [EnumFrom.EnumFromGenerator.generate] at h1 ⊢
    obtain ⟨mid, hmid, hF⟩ := optionMapList_forall2 _ _ BlockPermRel ord1
      (fun E _ b1 hb1 => from_generate_inner_perm g inner1 inner2 hinnerp E b1 hb1) r1 h1
    obtain ⟨r2, hr2, hmp⟩ := optionMapList_perm _ hordp mid hmid
    exact ⟨mid, r2, hr2, hF, hmp⟩
  · intro g ord1 ord2 inner1 inner2 r1 hordp hinnerp h1
    simp only [EnumInto.EnumIntoGenerator.generate] at h1 ⊢
    obtain ⟨mid, hmid, hF⟩ := optionMapList_forall2 _ _ BlockPermRel ord1
      (fun E _ b1 hb1 => into_generate_inner_perm g inner1 inner2 hinnerp E b1 hb1) r1 h1
    obtain ⟨r2, hr2, hmp⟩ := optionMapList_perm _ hordp mid hmid
    exact ⟨mid, r2, hr2, hF, hmp⟩

/-- `c8_amended` applied at `c8gen` and the two concrete outer orders. -/
theorem c8_witness :
    ∃ mid r2, EnumFrom.EnumFromGenerator.generate c8gen [⟨"B"⟩, ⟨"A"⟩] c8inner = some r2 ∧
      List.Forall₂ BlockPermRel [c8blockA, c8blockB] mid ∧ mid.Perm r2 :=
  c8_amended.1 c8gen [⟨"A"⟩, ⟨"B"⟩] [⟨"B"⟩, ⟨"A"⟩] c8inner c8inner [c8blockA, c8blockB]
    (by decide) (fun E => List.Perm.refl _) rfl

/-- The shapes on which `EnumFrom.generate_match_arm` is defined (does not
hit a `panic!`/`.expect` branch): the mapping kind must agree with the
target variant's shape, and a `StructToTuple` table must cover every
position of the tuple variant. -/
def EnumFrom.armDefined (m : EnumFrom.VariantMapping) (f : Fields) : Bool :=
  match m, f with
  | .UnitToUnit _, .Unit => true
  | .TupleToTuple _ _, .Unnamed _ => true
  | .StructToTuple _ fm, .Unnamed fs => (List.range fs.length).all (fun i => acontains fm i)
  | .StructToStruct _ _, .Named _ => true
  | .TupleToStruct _ _, .Named _ => true
  | _, _ => false

theorem alookup_some_mem {κ α : Type} [DecidableEq κ] :
    ∀ (m : List (κ × α)) (k : κ) (v : α), alookup m k = some v → (k, v) ∈ m := by
  intro m
  induction m with
  | nil => intro k v h; cases h
  | cons p m ih =>
    intro k v h
    obtain ⟨k', v'⟩ := p
    simp only [alookup] at h
    by_cases hk : k' = k
    · rw [if_pos hk] at h
      cases h
      subst hk
      exact List.mem_cons_self _ _
    · rw [if_neg hk] at h
      exact List.mem_cons_of_mem _ (ih k v h)

theorem optionMapList_some_length {α β : Type} (f : α → Option β) :
    ∀ (l : List α) (r : List β), optionMapList f l = some r → r.length = l.length := by
  intro l
  induction l with
  | nil => intro r h; cases h; rfl
  | cons a l ih =>
    intro r h
    simp only [optionMapList, Bind.bind, Option.bind] at h
    cases hfa : f a with
    | none => rw [hfa] at h; cases h
    | some b =>
      rw [hfa] at h
      simp only at h
      cases hrec : optionMapList f l with
      | none => rw [hrec] at h; cases h
      | some t =>
        rw [hrec] at h
        simp only at h
        cases h
        simp [ih t hrec]

theorem optionMapList_total {α β : Type} (f : α → Option β) :
    ∀ (l : List α), (∀ a ∈ l, (f a).isSome) →
      ∃ r, optionMapList f l = some r ∧ r.length = l.length ∧
        ∀ b ∈ r, ∃ a ∈ l, f a = some b := by
  intro l
  induction l with
  | nil => intro _; exact ⟨[], rfl, rfl, by simp⟩
  | cons a l ih =>
    intro h
    obtain ⟨b, hb⟩ := Option.isSome_iff_exists.mp (h a (List.mem_cons_self _ _))
    obtain ⟨r, hr, hlen, hmem⟩ := ih (fun x hx => h x (List.mem_cons_of_mem _ hx))
    refine ⟨b :: r, by simp [optionMapList, hb, hr, Bind.bind, Option.bind], by simp [hlen], ?_⟩
    intro c hc
    rcases List.mem_cons.mp hc with hc | hc
    · exact ⟨a, List.mem_cons_self _ _, hc ▸ hb⟩
    · obtain ⟨x, hx, hfx⟩ := hmem c hc
      exact ⟨x, List.mem_cons_of_mem _ hx, hfx⟩

theorem find_none_coverage {β : Type} (p : Nat → Bool) :
    ∀ (l : List β) (n : Nat),
      (List.enumFrom n l).find? (fun q => ¬ p q.1) = none →
      ∀ i, i < l.length → p (n + i) = true := by
  intro l
  induction l with
  | nil => intro n _ i hi; cases hi
  | cons sp l ih =>
    intro n h i hi
    rw [show List.enumFrom n (sp :: l) = (n, sp) :: List.enumFrom (n + 1) l from rfl] at h
    cases hpn : p n with
    | false =>
      rw [List.find?_cons_of_pos _ (by simp [hpn])] at h
      cases h
    | true =>
      rw [List.find?_cons_of_neg _ (by simp [hpn])] at h
      cases i with
      | zero => simpa using hpn
      | succ j =>
        have hj : j < l.length := by
          simp only [List.length_cons] at hi
          omega
        have hrec := ih (n + 1) h j hj
        have harith : n + (j + 1) = n + 1 + j := by omega
        rw [harith]
        exact hrec

theorem except_bind_ok {α β : Type} (x : Except Failure α) (f : α → Except Failure β) (b : β)
    (h : (x >>= f) = .ok b) : ∃ a, x = .ok a ∧ f a = .ok b := by
  cases x with
  | error e => simp [Bind.bind, Except.bind] at h
  | ok a => exact ⟨a, rfl, by simpa [Bind.bind, Except.bind] using h⟩

theorem from_ctt_ok_shape (ex : List (FieldRef × EnumFrom.FieldAnnotation))
    (tv : VariantIdent) (m : EnumFrom.VariantMapping)
    (h : EnumFrom.compute_tuple_to_tuple_variant_mapping ex tv = .ok m) :
    ∃ fm, m = .TupleToTuple tv fm := by
  simp only [EnumFrom.compute_tuple_to_tuple_variant_mapping] at h
  obtain ⟨fm, _, h2⟩ := except_bind_ok _ _ _ h
  cases h2
  exact ⟨fm, rfl⟩

theorem from_css_ok_shape (ex : List (FieldRef × EnumFrom.FieldAnnotation))
    (tv : VariantIdent) (m : EnumFrom.VariantMapping)
    (h : EnumFrom.compute_struct_to_struct_variant_mapping ex tv = .ok m) :
    ∃ fm, m = .StructToStruct tv fm := by
  simp only [EnumFrom.compute_struct_to_struct_variant_mapping] at h
  obtain ⟨fm, _, h2⟩ := except_bind_ok _ _ _ h
  cases h2
  exact ⟨fm, rfl⟩

theorem from_cts_ok_shape (E : ContainerIdent) (sv : VariantIdent)
    (ex : List (FieldRef × EnumFrom.FieldAnnotation)) (fs : List (FieldIdent × Span))
    (tv : VariantIdent) (m : EnumFrom.VariantMapping)
    (h : EnumFrom.compute_tuple_to_struct_variant_mapping E sv ex fs tv = .ok m) :
    ∃ fm, m = .TupleToStruct tv fm := by
  simp only [EnumFrom.compute_tuple_to_struct_variant_mapping] at h
  obtain ⟨pairs, _, h2⟩ := except_bind_ok _ _ _ h
  cases hf : fs.find? (fun q => ¬ acontains (dedupKeysKeepLast pairs) q.1) with
  | some q => rw [hf] at h2; cases h2
  | none =>
    rw [hf] at h2
    cases h2
    exact ⟨dedupKeysKeepLast pairs, rfl⟩

theorem from_cst_ok_shape (E : ContainerIdent) (sv : VariantIdent)
    (ex : List (FieldRef × EnumFrom.FieldAnnotation)) (fs : List Span)
    (tv : VariantIdent) (m : EnumFrom.VariantMapping)
    (h : EnumFrom.compute_struct_to_tuple_variant_mapping E sv ex fs tv = .ok m) :
    ∃ fm, m = .StructToTuple tv fm ∧ ∀ i, i < fs.length → acontains fm i = true := by
  simp only [EnumFrom.compute_struct_to_tuple_variant_mapping] at h
  obtain ⟨pairs, _, h2⟩ := except_bind_ok _ _ _ h
  cases hf : fs.enum.find? (fun q => ¬ acontains (dedupKeysKeepLast pairs) q.1) with
  | some q => rw [hf] at h2; cases h2
  | none =>
    rw [hf] at h2
    cases h2
    refine ⟨dedupKeysKeepLast pairs, rfl, ?_⟩
    intro i hi
    have hcov := find_none_coverage (fun j => acontains (dedupKeysKeepLast pairs) j) fs 0 hf i hi
    simpa using hcov

theorem from_compute_ok (E : ContainerIdent) (sv : VariantIdent)
    (ex : List (FieldRef × EnumFrom.FieldAnnotation)) (F : Fields) (tvid : VariantIdent)
    (m : EnumFrom.VariantMapping)
    (h : EnumFrom.compute_variant_mapping E sv ex F tvid = .ok m) :
    EnumFrom.VariantMapping.target_variant m = tvid ∧ EnumFrom.armDefined m F = true := by
  cases ex with
  | nil =>
    cases F with
    | Unit =>
      simp only [EnumFrom.compute_variant_mapping, List.head?, Option.map] at h
      cases h
      exact ⟨rfl, rfl⟩
    | Unnamed fs =>
      simp only [EnumFrom.compute_variant_mapping, List.head?, Option.map] at h
      obtain ⟨fm, rfl⟩ := from_ctt_ok_shape _ _ _ h
      exact ⟨rfl, rfl⟩
    | Named fs =>
      simp only [EnumFrom.compute_variant_mapping, List.head?, Option.map] at h
      obtain ⟨fm, rfl⟩ := from_css_ok_shape _ _ _ h
      exact ⟨rfl, rfl⟩
  | cons a rest =>
    obtain ⟨tf, fa⟩ := a
    obtain ⟨se0, sv0, sf0, es0, vs0, fsp0⟩ := fa
    cases sf0 with
    | FieldPos pos =>
      cases F with
      | Unit =>
        simp only [EnumFrom.compute_variant_mapping, List.head?_cons, Option.map_some'] at h
        cases h
      | Unnamed fs =>
        simp only [EnumFrom.compute_variant_mapping, List.head?_cons, Option.map_some'] at h
        obtain ⟨fm, rfl⟩ := from_ctt_ok_shape _ _ _ h
        exact ⟨rfl, rfl⟩
      | Named fs =>
        simp only [EnumFrom.compute_variant_mapping, List.head?_cons, Option.map_some'] at h
        obtain ⟨fm, rfl⟩ := from_cts_ok_shape _ _ _ _ _ _ h
        exact ⟨rfl, rfl⟩
    | FieldIdent fid =>
      cases F with
      | Unit =>
        simp only [EnumFrom.compute_variant_mapping, List.head?_cons, Option.map_some'] at h
        cases h
      | Unnamed fs =>
        simp only [EnumFrom.compute_variant_mapping, List.head?_cons, Option.map_some'] at h
        obtain ⟨fm, rfl, hcov⟩ := from_cst_ok_shape _ _ _ _ _ _ h
        refine ⟨rfl, ?_⟩
        simp only [EnumFrom.armDefined]
        rw [List.all_eq_true]
        intro i hi
        exact hcov i (List.mem_range.mp hi)
      | Named fs =>
        simp only [EnumFrom.compute_variant_mapping, List.head?_cons, Option.map_some'] at h
        obtain ⟨fm, rfl⟩ := from_css_ok_shape _ _ _ h
        exact ⟨rfl, rfl⟩

theorem from_armDefined_isSome (sv : VariantIdent) (se te : ContainerIdent)
    (m : EnumFrom.VariantMapping) (v : Variant)
    (h : EnumFrom.armDefined m v.fields = true) :
    (EnumFrom.generate_match_arm sv m se te v).isSome := by
  obtain ⟨vid, vf⟩ := v
  cases vf with
  | Unit =>
    cases m with
    | UnitToUnit tv => simp [EnumFrom.generate_match_arm]
    | TupleToTuple tv fm => simp [EnumFrom.armDefined] at h
    | TupleToStruct tv fm => simp [EnumFrom.armDefined] at h
    | StructToStruct tv fm => simp [EnumFrom.armDefined] at h
    | StructToTuple tv fm => simp [EnumFrom.armDefined] at h
  | Unnamed fs =>
    cases m with
    | UnitToUnit tv => simp [EnumFrom.armDefined] at h
    | TupleToTuple tv fm => simp [EnumFrom.generate_match_arm]
    | TupleToStruct tv fm => simp [EnumFrom.armDefined] at h
    | StructToStruct tv fm => simp [EnumFrom.armDefined] at h
    | StructToTuple tv fm =>
      have hall : ∀ i ∈ List.range fs.length,
          ((alookup fm i).map (fun fi => fi.name)).isSome := by
        intro i hi
        have hc := List.all_eq_true.mp h i hi
        simp only [acontains] at hc
        cases halk : alookup fm i with
        | none => rw [halk] at hc; cases hc
        | some fi => simp
      obtain ⟨r, hr, _, _⟩ := optionMapList_total _ _ hall
      simp [EnumFrom.generate_match_arm, hr, Bind.bind, Option.bind]
  | Named fs =>
    cases m with
    | UnitToUnit tv => simp [EnumFrom.armDefined] at h
    | TupleToTuple tv fm => simp [EnumFrom.armDefined] at h
    | TupleToStruct tv fm => simp [EnumFrom.generate_match_arm]
    | StructToStruct tv fm => simp [EnumFrom.generate_match_arm]
    | StructToTuple tv fm => simp [EnumFrom.armDefined] at h

/-- The invariant `try_from` establishes: every mapping stored in the
container table points at a present target variant against whose shape the
emission is defined. -/
def EnumFrom.GenInv (se : List (ContainerIdent × EnumFrom.VariantsMapping))
    (tv : List (VariantIdent × Variant)) : Prop :=
  ∀ E vm, (E, vm) ∈ se → ∀ s m, (s, m) ∈ vm →
    ∃ w, alookup tv (EnumFrom.VariantMapping.target_variant m) = some w ∧
      EnumFrom.armDefined m w.fields = true

theorem from_pva_ok_detail (single : Option ContainerIdent) (v : Variant)
    (st st' : List (ContainerIdent × EnumFrom.VariantsMapping) × List (FieldRef × EnumFrom.FieldAnnotations))
    (va : EnumFrom.VariantAnnotation)
    (hok : EnumFrom.process_variant_annot single v st va = .ok st') :
    ∃ k s vm ex vmap,
      alookup st.1 k = some vm ∧
      EnumFrom.compute_variant_mapping k s ex v.fields v.ident = .ok vmap ∧
      st'.1 = ainsert st.1 k (ainsert vm s vmap) := by
  obtain ⟨se, fa⟩ := st
  simp only [EnumFrom.process_variant_annot, Bind.bind, Except.bind] at hok
  cases hgs : EnumFrom.get_source_enum_and_variant v single va with
  | error e => rw [hgs] at hok; cases hok
  | ok triple =>
    rw [hgs] at hok
    obtain ⟨k, s, sp⟩ := triple
    simp only at hok
    cases hlk : alookup se k with
    | none => rw [hlk] at hok; cases hok
    | some vm =>
      rw [hlk] at hok
      simp only at hok
      cases hex : EnumFrom.extract_fields_annotations fa k s with
      | error e => rw [hex] at hok; cases hok
      | ok pair =>
        rw [hex] at hok
        obtain ⟨ex, res⟩ := pair
        simp only at hok
        cases hcm : EnumFrom.compute_variant_mapping k s ex v.fields v.ident with
        | error e => rw [hcm] at hok; cases hok
        | ok vmap =>
          rw [hcm] at hok
          simp only at hok
          cases hok
          exact ⟨k, s, vm, ex, vmap, hlk, hcm, rfl⟩

theorem from_inner_fold_new (single : Option ContainerIdent) (v : Variant)
    (vas : List EnumFrom.VariantAnnotation)
    (st0 st' : List (ContainerIdent × EnumFrom.VariantsMapping) × List (FieldRef × EnumFrom.FieldAnnotations))
    (hok : foldlE (EnumFrom.process_variant_annot single v) st0 vas = .ok st') :
    ∀ E vm, (E, vm) ∈ st'.1 → ∀ s m, (s, m) ∈ vm →
      (∃ vm0, (E, vm0) ∈ st0.1 ∧ (s, m) ∈ vm0) ∨
      (EnumFrom.VariantMapping.target_variant m = v.ident ∧
        EnumFrom.armDefined m v.fields = true) := by
  refine foldlE_preserves
    (fun st => ∀ E vm, (E, vm) ∈ st.1 → ∀ s m, (s, m) ∈ vm →
      (∃ vm0, (E, vm0) ∈ st0.1 ∧ (s, m) ∈ vm0) ∨
      (EnumFrom.VariantMapping.target_variant m = v.ident ∧
        EnumFrom.armDefined m v.fields = true))
    (EnumFrom.process_variant_annot single v) ?_ vas st0 st'
    (fun E vm hmem s m hm => Or.inl ⟨vm, hmem, hm⟩) hok
  intro a x a' hP hf
  obtain ⟨k, s0, vm0, ex, vmap, hlk, hcm, hshape⟩ := from_pva_ok_detail single v a a' x hf
  intro E vm hmem s m hm
  rw [hshape] at hmem
  rcases mem_ainsert _ _ _ _ hmem with heq | hold
  · injection heq with hE hvm
    subst hE
    rw [hvm] at hm
    rcases mem_ainsert _ _ _ _ hm with heq2 | hold2
    · injection heq2 with hs hmm
      subst hmm
      exact Or.inr (from_compute_ok E s0 ex v.fields v.ident m hcm)
    · exact hP E vm0 (alookup_some_mem _ _ _ hlk) s m hold2
  · exact hP E vm hold s m hm

theorem from_process_variant_inv (single : Option ContainerIdent)
    (acc acc' : List (ContainerIdent × EnumFrom.VariantsMapping) × List (VariantIdent × Variant))
    (v : Variant) (anns : EnumFrom.VariantAnnotations) (processed : List VariantIdent)
    (hkeys : ∀ k, (alookup acc.2 k).isSome → k ∈ processed)
    (hinv : EnumFrom.GenInv acc.1 acc.2)
    (hnew : v.ident ∉ processed)
    (hok : EnumFrom.process_variant single acc (v, anns) = .ok acc') :
    acc'.2 = ainsert acc.2 v.ident v ∧
    (∀ k, (alookup acc'.2 k).isSome → k ∈ processed ++ [v.ident]) ∧
    EnumFrom.GenInv acc'.1 acc'.2 := by
  obtain ⟨se, tvs⟩ := acc
  simp only [EnumFrom.process_variant, Bind.bind, Except.bind] at hok
  cases hfold : foldlE (EnumFrom.process_variant_annot single v)
      (se, anns.fields_annotations) anns.variant_annotations with
  | error e => rw [hfold] at hok; cases hok
  | ok st' =>
    rw [hfold] at hok
    simp only at hok
    cases hch : EnumFrom.check_unused_fields_annotations st'.1 st'.2 with
    | error e => rw [hch] at hok; cases hok
    | ok u =>
      rw [hch] at hok
      simp only at hok
      cases hok
      refine ⟨rfl, ?_, ?_⟩
      · intro k hk
        rw [alookup_ainsert] at hk
        by_cases hkv : k = v.ident
        · exact List.mem_append.mpr (Or.inr (by simp [hkv]))
        · rw [if_neg hkv] at hk
          exact List.mem_append.mpr (Or.inl (hkeys k hk))
      · intro E vm hmem s m hm
        rcases from_inner_fold_new single v anns.variant_annotations
            (se, anns.fields_annotations) st' hfold E vm hmem s m hm with
          ⟨vm0, hvm0, hm0⟩ | ⟨htv, hdef⟩
        · obtain ⟨w, hw, hwdef⟩ := hinv E vm0 hvm0 s m hm0
          refine ⟨w, ?_, hwdef⟩
          rw [alookup_ainsert]
          have hne : EnumFrom.VariantMapping.target_variant m ≠ v.ident := by
            intro hcontra
            exact hnew (hcontra ▸ hkeys _ (by rw [hw]; rfl))
          rw [if_neg hne]
          exact hw
        · refine ⟨v, ?_, hdef⟩
          rw [alookup_ainsert, htv, if_pos rfl]

theorem from_fold_inv (single : Option ContainerIdent) :
    ∀ (l : List (Variant × EnumFrom.VariantAnnotations))
      (se : List (ContainerIdent × EnumFrom.VariantsMapping))
      (tvs : List (VariantIdent × Variant)) (processed : List VariantIdent),
      (∀ k, (alookup tvs k).isSome → k ∈ processed) →
      EnumFrom.GenInv se tvs →
      (l.map (fun e => e.1.ident)).Nodup →
      (∀ e ∈ l, e.1.ident ∉ processed) →
      ∀ acc', foldlE (EnumFrom.process_variant single) (se, tvs) l = .ok acc' →
      EnumFrom.GenInv acc'.1 acc'.2 := by
  intro l
  induction l with
  | nil =>
    intro se tvs processed _ hinv _ _ acc' hf
    simp only [foldlE] at hf
    cases hf
    exact hinv
  | cons e l ih =>
    intro se tvs processed hkeys hinv hnodup hfresh acc' hf
    obtain ⟨v, anns⟩ := e
    simp only [foldlE, Bind.bind, Except.bind] at hf
    cases hstep : EnumFrom.process_variant single (se, tvs) (v, anns) with
    | error er => rw [hstep] at hf; cases hf
    | ok acc1 =>
      rw [hstep] at hf
      obtain ⟨htv1, hkeys1, hinv1⟩ := from_process_variant_inv single (se, tvs) acc1 v anns
        processed hkeys hinv (hfresh (v, anns) (List.mem_cons_self _ _)) hstep
      obtain ⟨se1, tvs1⟩ := acc1
      simp only [List.map_cons, List.nodup_cons] at hnodup
      refine ih se1 tvs1 (processed ++ [v.ident]) ?_ hinv1 hnodup.2 ?_ acc' hf
      · intro k hk
        exact hkeys1 k hk
      · intro e' he'
        rw [List.mem_append]
        rintro (hp | hs)
        · exact hfresh e' (List.mem_cons_of_mem _ he') hp
        · rw [List.mem_singleton] at hs
          exact hnodup.1 (hs ▸ List.mem_map_of_mem (fun q => q.1.ident) he')

theorem foldl_ainsert_const_snd {κ α β : Type} [DecidableEq κ] (f : β → κ) (c : α) :
    ∀ (l : List β) (m0 : List (κ × α)) (q : κ × α),
      q ∈ l.foldl (fun m b => ainsert m (f b) c) m0 → q ∈ m0 ∨ q.2 = c := by
  intro l
  induction l with
  | nil => intro m0 q h; exact Or.inl h
  | cons b l ih =>
    intro m0 q h
    simp only [List.foldl_cons] at h
    rcases ih (ainsert m0 (f b) c) q h with h' | h'
    · rcases mem_ainsert _ _ _ _ h' with h2 | h2
      · exact Or.inr (by rw [h2])
      · exact Or.inl h2
    · exact Or.inr h'

theorem from_try_from_geninv (p : EnumFrom.ParsedEnumFrom) (g : EnumFrom.EnumFromGenerator)
    (hnodup : (p.variants_annotations.map (fun e => e.1.ident)).Nodup)
    (hok : EnumFrom.EnumFromGenerator.try_from p = .ok g) :
    EnumFrom.GenInv g.source_enums g.target_variants := by
  obtain ⟨T, cas, vas⟩ := p
  have main : ∀ (single : Option ContainerIdent)
      (acc' : List (ContainerIdent × EnumFrom.VariantsMapping) × List (VariantIdent × Variant)),
      foldlE (EnumFrom.process_variant single)
        (List.foldl (fun m c => ainsert m c.ident ([] : EnumFrom.VariantsMapping)) [] cas, [])
        vas = .ok acc' →
      EnumFrom.GenInv acc'.1 acc'.2 := by
    intro single acc' hf
    refine from_fold_inv single vas _ [] [] ?_ ?_ hnodup ?_ acc' hf
    · intro k hk
      simp [alookup] at hk
    · intro E vm hmem s m hm
      rcases foldl_ainsert_const_snd (fun c => c.ident)
          ([] : EnumFrom.VariantsMapping) cas [] (E, vm) hmem with h | h
      · cases h
      · simp only at h
        rw [h] at hm
        cases hm
    · intro e _ hmem
      cases hmem
  cases cas with
  | nil =>
    simp only [EnumFrom.EnumFromGenerator.try_from, Bind.bind, Except.bind] at hok
    cases hok
  | cons ca cs =>
    cases cs with
    | nil =>
      simp only [EnumFrom.EnumFromGenerator.try_from, Bind.bind, Except.bind] at hok
      cases hf : foldlE (EnumFrom.process_variant (some ca.ident))
          (List.foldl (fun m c => ainsert m c.ident ([] : EnumFrom.VariantsMapping)) [] [ca], [])
          vas with
      | error e => rw [hf] at hok; cases hok
      | ok acc =>
        rw [hf] at hok
        simp only at hok
        injection hok with hg
        subst hg
        exact main (some ca.ident) acc hf
    | cons ca2 cs2 =>
      simp only [EnumFrom.EnumFromGenerator.try_from, Bind.bind, Except.bind] at hok
      cases hf : foldlE (EnumFrom.process_variant none)
          (List.foldl (fun m c => ainsert m c.ident ([] : EnumFrom.VariantsMapping)) []
            (ca :: ca2 :: cs2), [])
          vas with
      | error e => rw [hf] at hok; cases hok
      | ok acc =>
        rw [hf] at hok
        simp only at hok
        injection hok with hg
        subst hg
        exact main none acc hf

theorem evalArms_none_of_no_match (conv : Nat → Nat) (v : Value) :
    ∀ arms : List MatchArm,
      (∀ arm ∈ arms, ¬(v.container = arm.source_enum ∧ v.variant = arm.source_variant)) →
      evalArms conv arms v = none := by
  intro arms
  induction arms with
  | nil => intro _; rfl
  | cons a arms ih =>
    intro h
    have ha : evalMatchArm conv a v = none := by
      simp only [evalMatchArm]
      rw [if_neg (h a (List.mem_cons_self _ _))]
    simp only [evalArms]
    rw [ha]
    exact ih (fun arm hm => h arm (List.mem_cons_of_mem _ hm))

theorem from_generate_blocks (g : EnumFrom.EnumFromGenerator) (order : List ContainerIdent)
    (inner : ContainerIdent → List VariantIdent)
    (horder : EnumFrom.IsIterOrder order g.source_enums)
    (hinner : EnumFrom.IsInnerIterOrder inner g.source_enums)
    (hinv : EnumFrom.GenInv g.source_enums g.target_variants) :
    ∃ blocks, EnumFrom.EnumFromGenerator.generate g order inner = some blocks ∧
      blocks.length = order.length ∧
      ∀ blk ∈ blocks, ∃ vm, (blk.source_enum, vm) ∈ g.source_enums ∧
        blk.arms.length = vm.length := by
  have horder' : order.Perm (g.source_enums.map Prod.fst) := horder
  have hstep : ∀ E ∈ order,
      ∃ vm blk, alookup g.source_enums E = some vm ∧
        EnumFrom.generate_from_impl E vm (inner E) g.target_enum g.target_variants = some blk ∧
        blk.source_enum = E ∧ blk.arms.length = vm.length := by
    intro E hE
    have hkey : E ∈ g.source_enums.map Prod.fst := horder'.mem_iff.mp hE
    cases hlk : alookup g.source_enums E with
    | none =>
      rw [alookup_eq_none_iff] at hlk
      exact absurd hkey hlk
    | some vm =>
      have hip : (inner E).Perm (vm.map Prod.fst) :=
        hinner (E, vm) (alookup_some_mem _ _ _ hlk)
      have harms : ∀ sv ∈ inner E, ((do
          let m ← alookup vm sv
          let tv ← alookup g.target_variants (EnumFrom.VariantMapping.target_variant m)
          EnumFrom.generate_match_arm sv m E g.target_enum tv) : Option MatchArm).isSome := by
        intro sv hsv
        have hsvk : sv ∈ vm.map Prod.fst := hip.mem_iff.mp hsv
        cases hm : alookup vm sv with
        | none =>
          rw [alookup_eq_none_iff] at hm
          exact absurd hsvk hm
        | some m =>
          obtain ⟨w, hw, hdef⟩ := hinv E vm (alookup_some_mem _ _ _ hlk) sv m
            (alookup_some_mem _ _ _ hm)
          simp only [Bind.bind, Option.bind, hm, hw]
          exact from_armDefined_isSome sv E g.target_enum m w hdef
      obtain ⟨arms, harmseq, hlen, _⟩ := optionMapList_total _ (inner E) harms
      refine ⟨vm, { source_enum := E, target_enum := g.target_enum, arms := arms },
        rfl, ?_, rfl, ?_⟩
      · simp only [EnumFrom.generate_from_impl]
        rw [harmseq]
        rfl
      · rw [hlen, hip.length_eq, List.length_map]
  have htop : ∀ E ∈ order, ((do
      let variants_mapping ← alookup g.source_enums E
      EnumFrom.generate_from_impl E variants_mapping (inner E)
        g.target_enum g.target_variants) :
        Option ImplBlock).isSome := by
    intro E hE
    obtain ⟨vm, blk, hlk, hgen, _, _⟩ := hstep E hE
    simp only [Bind.bind, Option.bind, hlk, hgen]
    rfl
  obtain ⟨blocks, hb, hblen, hbmem⟩ := optionMapList_total _ order htop
  refine ⟨blocks, ?_, hblen, ?_⟩
  · simp only [EnumFrom.EnumFromGenerator.generate]
    exact hb
  · intro blk hblk
    obtain ⟨E, hEord, hfE⟩ := hbmem blk hblk
    obtain ⟨vm, blk', hlk, hgen, hsrc, hlen⟩ := hstep E hEord
    simp only [Bind.bind, Option.bind, hlk] at hfE
    rw [hgen] at hfE
    injection hfE with hblk'
    subst hblk'
    refine ⟨vm, ?_, hlen⟩
    rw [hsrc]
    exact alookup_some_mem _ _ _ hlk

/-- An input whose two variants share the ident `A`: the resolver never
checks variant idents for uniqueness, and the second `(A, target)` insert
replaces the first in `target_variants`. -/
def c9ex : EnumFrom.ParsedEnumFrom :=
  { target_enum := ⟨"T"⟩
  , container_annotations := [⟨⟨"E"⟩⟩]
  , variants_annotations :=
      [ (⟨⟨"A"⟩, .Unit⟩, ⟨[.Nothing 1], []⟩)
      , (⟨⟨"A"⟩, .Unnamed [9]⟩, ⟨[], []⟩) ] }

/-- C9, counterexample: emission is NOT total on every resolver-accepted
generator.  `c9ex` carries two variants named `A` (one unit, one tuple);
resolution succeeds, but the stored `UnitToUnit` mapping now points at the
tuple-shaped `target_variants` entry, so `generate` reaches the
shape-mismatch `panic!` branch (modelled as `none`). -/
theorem c9_counterexample :
    ∃ g, EnumFrom.EnumFromGenerator.try_from c9ex = .ok g ∧
      EnumFrom.IsIterOrder [⟨"E"⟩] g.source_enums ∧
      EnumFrom.IsInnerIterOrder (fun _ => [⟨"A"⟩]) g.source_enums ∧
      EnumFrom.EnumFromGenerator.generate g [⟨"E"⟩] (fun _ => [⟨"A"⟩]) = none :=
  ⟨{ source_enums := [(⟨"E"⟩, [(⟨"A"⟩, .UnitToUnit ⟨"A"⟩)])]
   , target_enum := ⟨"T"⟩
   , target_variants := [(⟨"A"⟩, ⟨⟨"A"⟩, .Unnamed [9]⟩)] },
   rfl, by unfold EnumFrom.IsIterOrder; decide,
   by unfold EnumFrom.IsInnerIterOrder; decide, rfl⟩

/-- C9, amended: on any input whose variant idents are distinct (which is
every enum the host compiler accepts), a resolver-accepted generator makes
emission total: `generate` succeeds for every admissible pair of outer and
inner iteration orders, emits one impl block per source enum, exactly one
match arm per `VariantMapping` of that enum's table, and no catch-all
arm — a value whose variant no arm names is not converted. -/
theorem c9_amended (p : EnumFrom.ParsedEnumFrom) (g : EnumFrom.EnumFromGenerator)
    (hnodup : (p.variants_annotations.map (fun e => e.1.ident)).Nodup)
    (hok : EnumFrom.EnumFromGenerator.try_from p = .ok g)
    (order : List ContainerIdent) (inner : ContainerIdent → List VariantIdent)
    (horder : EnumFrom.IsIterOrder order g.source_enums)
    (hinner : EnumFrom.IsInnerIterOrder inner g.source_enums) :
    ∃ blocks, EnumFrom.EnumFromGenerator.generate g order inner = some blocks ∧
      blocks.length = order.length ∧
      (∀ blk ∈ blocks, ∃ vm, (blk.source_enum, vm) ∈ g.source_enums ∧
        blk.arms.length = vm.length) ∧
      (∀ blk ∈ blocks, ∀ (conv : Nat → Nat) (v : Value),
        (∀ arm ∈ blk.arms, ¬(v.container = arm.source_enum ∧ v.variant = arm.source_variant)) →
        evalImplBlock conv blk v = none) := by
  obtain ⟨blocks, h1, h2, h3⟩ := from_generate_blocks g order inner horder hinner
    (from_try_from_geninv p g hnodup hok)
  exact ⟨blocks, h1, h2, h3,
    fun blk _ conv v hno => evalArms_none_of_no_match conv v blk.arms hno⟩

/-- A well-formed single-variant input for exercising `c9_amended`. -/
def c9wp : EnumFrom.ParsedEnumFrom :=
  { target_enum := ⟨"T"⟩
  , container_annotations := [⟨⟨"E"⟩⟩]
  , variants_annotations := [ (⟨⟨"V"⟩, .Unit⟩, ⟨[.Nothing 1], []⟩) ] }

/-- The generator `try_from` resolves `c9wp` to. -/
def c9wg : EnumFrom.EnumFromGenerator :=
  { source_enums := [(⟨"E"⟩, [(⟨"V"⟩, .UnitToUnit ⟨"V"⟩)])]
  , target_enum := ⟨"T"⟩
  , target_variants := [(⟨"V"⟩, ⟨⟨"V"⟩, .Unit⟩)] }

/-- `c9_amended` applied at `c9wp`/`c9wg` and the order `[E]`. -/
theorem c9_witness :
    ∃ blocks, EnumFrom.EnumFromGenerator.generate c9wg [⟨"E"⟩] (fun _ => [⟨"V"⟩])
        = some blocks ∧
      blocks.length = ([⟨"E"⟩] : List ContainerIdent).length ∧
      (∀ blk ∈ blocks, ∃ vm, (blk.source_enum, vm) ∈ c9wg.source_enums ∧
        blk.arms.length = vm.length) ∧
      (∀ blk ∈ blocks, ∀ (conv : Nat → Nat) (v : Value),
        (∀ arm ∈ blk.arms, ¬(v.container = arm.source_enum ∧ v.variant = arm.source_variant)) →
        evalImplBlock conv blk v = none) :=
  c9_amended c9wp c9wg (by decide) rfl [⟨"E"⟩] (fun _ => [⟨"V"⟩])
    (by unfold EnumFrom.IsIterOrder; decide)
    (by unfold EnumFrom.IsInnerIterOrder; decide)

theorem dedupKeysKeepLast_of_nodup {κ α : Type} [DecidableEq κ] :
    ∀ (l : List (κ × α)), (l.map Prod.fst).Nodup → dedupKeysKeepLast l = l := by
  intro l
  induction l with
  | nil => intro _; rfl
  | cons p l ih =>
    intro h
    obtain ⟨k, v⟩ := p
    simp only [List.map_cons, List.nodup_cons] at h
    have hany : l.any (fun q => q.1 == k) = false := by
      rw [List.any_eq_false]
      intro q hq
      simp only [beq_iff_eq]
      intro hqk
      exact h.1 (hqk ▸ List.mem_map_of_mem Prod.fst hq)
    simp only [dedupKeysKeepLast, hany]
    rw [if_neg (by simp), ih h.2]

theorem insertSortedBy_perm {α : Type} (le : α → α → Bool) (a : α) :
    ∀ (l : List α), (insertSortedBy le a l).Perm (a :: l) := by
  intro l
  induction l with
  | nil => simp [insertSortedBy]
  | cons b l ih =>
    simp only [insertSortedBy]
    by_cases h : le a b
    · rw [if_pos h]
    · rw [if_neg h]
      exact (ih.cons b).trans (List.Perm.swap a b l)

theorem sortBy_perm {α : Type} (le : α → α → Bool) :
    ∀ (l : List α), (sortBy le l).Perm l := by
  intro l
  induction l with
  | nil => rfl
  | cons a l ih =>
    simp only [sortBy, List.foldr_cons]
    exact (insertSortedBy_perm le a (l.foldr (insertSortedBy le) [])).trans (ih.cons a)

theorem alookup_perm {κ α : Type} [DecidableEq κ] :
    ∀ {l1 l2 : List (κ × α)}, l1.Perm l2 → (l1.map Prod.fst).Nodup →
      ∀ k, alookup l1 k = alookup l2 k := by
  intro l1 l2 hperm
  induction hperm with
  | nil => intro _ k; rfl
  | @cons p t1 t2 h ih =>
    intro hnd k
    obtain ⟨pk, pv⟩ := p
    simp only [List.map_cons, List.nodup_cons] at hnd
    simp only [alookup]
    by_cases hk : pk = k
    · rw [if_pos hk, if_pos hk]
    · rw [if_neg hk, if_neg hk]
      exact ih hnd.2 k
  | swap p q t =>
    intro hnd k
    obtain ⟨pk, pv⟩ := p
    obtain ⟨qk, qv⟩ := q
    simp only [List.map_cons, List.nodup_cons, List.mem_cons] at hnd
    simp only [alookup]
    by_cases hq : qk = k
    · rw [if_pos hq]
      have hpq : ¬ pk = k := by
        intro hp
        exact hnd.1 (Or.inl (hq.trans hp.symm))
      rw [if_neg hpq, if_pos hq]
    · rw [if_neg hq]
      by_cases hp : pk = k
      · rw [if_pos hp, if_pos hp]
      · rw [if_neg hp, if_neg hp, if_neg hq]
  | @trans t1 t2 t3 h1 h2 ih1 ih2 =>
    intro hnd k
    have hnd2 : (t2.map Prod.fst).Nodup := ((h1.map Prod.fst).nodup_iff).mp hnd
    rw [ih1 hnd k, ih2 hnd2 k]

theorem optionMapList_congr {α β : Type} (f g : α → Option β) :
    ∀ (l : List α), (∀ a ∈ l, f a = g a) → optionMapList f l = optionMapList g l := by
  intro l
  induction l with
  | nil => intro _; rfl
  | cons a l ih =>
    intro h
    simp only [optionMapList, h a (List.mem_cons_self _ _),
      ih (fun x hx => h x (List.mem_cons_of_mem _ hx))]

theorem exceptMap_ok_of_forall {α β : Type} (f : α → Except Failure β) (g : α → β) :
    ∀ (l : List α), (∀ a ∈ l, f a = .ok (g a)) → exceptMap f l = .ok (l.map g) := by
  intro l
  induction l with
  | nil => intro _; rfl
  | cons a l ih =>
    intro h
    simp only [exceptMap, h a (List.mem_cons_self _ _), Bind.bind, Except.bind,
      ih (fun x hx => h x (List.mem_cons_of_mem _ hx)), List.map_cons]

theorem alookup_map_self {κ α : Type} [DecidableEq κ] (f : κ → α) :
    ∀ (l : List κ) (k : κ), k ∈ l → alookup (l.map (fun t => (t, f t))) k = some (f k) := by
  intro l
  induction l with
  | nil => intro k h; cases h
  | cons a l ih =>
    intro k h
    simp only [List.map_cons, alookup]
    by_cases hk : a = k
    · rw [if_pos hk, hk]
    · rw [if_neg hk]
      exact ih k (by rcases List.mem_cons.mp h with h' | h'; exact absurd h'.symm hk; exact h')

theorem optionMapList_env_self :
    ∀ (names : List String) (vals : List Nat), names.Nodup → names.length = vals.length →
      optionMapList (fun b => (alookup (names.zip vals) b).map (fun v => (b, v))) names
        = some (names.zip vals) := by
  intro names
  induction names with
  | nil => intro vals _ _; rfl
  | cons n ns ih =>
    intro vals hnd hlen
    cases vals with
    | nil => cases hlen
    | cons v vs =>
      simp only [List.nodup_cons] at hnd
      have hhead : alookup ((n, v) :: ns.zip vs) n = some v := by
        simp [alookup]
      have hcongr : optionMapList
          (fun b => (alookup ((n, v) :: ns.zip vs) b).map (fun w => (b, w))) ns
          = optionMapList (fun b => (alookup (ns.zip vs) b).map (fun w => (b, w))) ns := by
        apply optionMapList_congr
        intro b hb
        simp only [alookup]
        rw [if_neg (fun h : n = b => hnd.1 (h.symm ▸ hb))]
      simp only [List.zip_cons_cons, optionMapList, Bind.bind, Option.bind]
      rw [hhead, hcongr, ih vs hnd.2 (by simpa using hlen)]
      rfl

theorem matchPat_struct_self (names : List String) (vals : List Nat)
    (hnd : names.Nodup) (hlen : names.length = vals.length) :
    matchPat (.struct names) (.struct (names.zip vals)) = some (names.zip vals) := by
  simp only [matchPat]
  rw [if_pos ⟨hnd, by rw [List.map_fst_zip _ _ (le_of_eq hlen)]⟩]
  exact optionMapList_env_self names vals hnd hlen

theorem optionMapList_expr_zip (conv : Nat → Nat) :
    ∀ (ys xs : List String) (vals : List Nat), xs.Nodup → xs.length = vals.length →
      optionMapList (fun p => (alookup (xs.zip vals) p.2).map (fun v => (p.1, conv v)))
        (ys.zip xs) = some (ys.zip (vals.map conv)) := by
  intro ys
  induction ys with
  | nil => intro xs vals _ _; rfl
  | cons y ys ih =>
    intro xs vals hnd hlen
    cases xs with
    | nil =>
      cases vals with
      | nil => rfl
      | cons v vs => cases hlen
    | cons x xs =>
      cases vals with
      | nil => cases hlen
      | cons v vs =>
        simp only [List.nodup_cons] at hnd
        have hhead : alookup ((x, v) :: xs.zip vs) x = some v := by
          simp [alookup]
        have hcongr : optionMapList
            (fun p => (alookup ((x, v) :: xs.zip vs) p.2).map (fun w => (p.1, conv w)))
            (ys.zip xs)
            = optionMapList
              (fun p => (alookup (xs.zip vs) p.2).map (fun w => (p.1, conv w)))
              (ys.zip xs) := by
          apply optionMapList_congr
          intro p hp
          simp only [alookup]
          rw [if_neg (fun h : x = p.2 => hnd.1 (h.symm ▸ (List.of_mem_zip hp).2))]
        simp only [List.zip_cons_cons, List.map_cons, optionMapList, Bind.bind, Option.bind]
        rw [hhead, show List.zipWith Prod.mk ys xs = ys.zip xs from rfl,
          hcongr, ih xs vs hnd.2 (by simpa using hlen)]
        rfl

/-- The containers of the round-trip scenario. -/
def c3A : ContainerIdent := ⟨"A"⟩

def c3B : ContainerIdent := ⟨"B"⟩

def c3V : VariantIdent := ⟨"V"⟩

def c3W : VariantIdent := ⟨"W"⟩

/-- The named-field list of the annotated variant (arbitrary spans). -/
def c3fields (fs : List FieldIdent) : List (FieldIdent × Span) :=
  fs.map (fun s => (s, 0))

def c3variant (fs : List FieldIdent) : Variant :=
  ⟨c3V, .Named (c3fields fs)⟩

/-- The into-direction annotation on field `s`: map it to `B::W.(r s)`. -/
def c3annI (r : FieldIdent → FieldIdent) (s : FieldIdent) : EnumInto.FieldAnnotation :=
  { target_enum := c3B, target_variant := c3W, target_field := .FieldIdent (r s)
  , enum_span := 2, variant_span := 3, field_span := 4 }

def c3fannsI (r : FieldIdent → FieldIdent) (fs : List FieldIdent) :
    List (FieldRef × EnumInto.FieldAnnotations) :=
  fs.map (fun s => (.FieldIdent s, ⟨[c3annI r s], 5⟩))

/-- `A` deriving `enum_into(B)`: variant `V` maps to `B::W`, each field `s`
to `B::W.(r s)`. -/
def c3pInto (fs : List FieldIdent) (r : FieldIdent → FieldIdent) : EnumInto.ParsedEnumInto :=
  { source_enum := c3A
  , container_annotations := [⟨c3B⟩]
  , variants_annotations := [ (c3variant fs, ⟨[.EnumVariant 1 c3B c3W], c3fannsI r fs⟩) ] }

/-- The from-direction annotation on field `s` of `A::V`: it is sourced
from `B::W.(r s)` (the inverse rename read back). -/
def c3annF (r : FieldIdent → FieldIdent) (s : FieldIdent) : EnumFrom.FieldAnnotation :=
  { source_enum := c3B, source_variant := c3W, source_field := .FieldIdent (r s)
  , enum_span := 7, variant_span := 8, field_span := 9 }

def c3fannsF (r : FieldIdent → FieldIdent) (fs : List FieldIdent) :
    List (FieldRef × EnumFrom.FieldAnnotations) :=
  fs.map (fun s => (.FieldIdent s, ⟨[c3annF r s], 10⟩))

/-- `A` deriving `enum_from(B)`: variant `V` is built from `B::W`, each
field `s` from `B::W.(r s)`. -/
def c3pFrom (fs : List FieldIdent) (r : FieldIdent → FieldIdent) : EnumFrom.ParsedEnumFrom :=
  { target_enum := c3A
  , container_annotations := [⟨c3B⟩]
  , variants_annotations := [ (c3variant fs, ⟨[.EnumVariant 6 c3B c3W], c3fannsF r fs⟩) ] }

theorem c3_into_extract (r : FieldIdent → FieldIdent) :
    ∀ fs : List FieldIdent,
      EnumInto.extract_fields_annotations_list (c3fannsI r fs) c3B c3W =
        .ok (fs.map (fun s => ((.FieldIdent s : FieldRef), c3annI r s)),
             fs.map (fun s => ((.FieldIdent s : FieldRef), ⟨[], 5⟩))) := by
  intro fs
  induction fs with
  | nil => rfl
  | cons s fs ih =>
    simp only [c3fannsI, List.map_cons] at ih ⊢
    simp only [EnumInto.extract_fields_annotations_list]
    rw [show (List.filter (fun fa => decide (fa.target_enum = c3B ∧ fa.target_variant = c3W))
        [c3annI r s]) = [c3annI r s] from by simp [c3annI]]
    rw [show (List.filter (fun fa => ¬(fa.target_enum = c3B ∧ fa.target_variant = c3W))
        [c3annI r s]) = [] from by simp [c3annI]]
    rw [if_neg (by simp)]
    simp only [Bind.bind, Except.bind]
    rw [ih]

theorem c3_from_extract (r : FieldIdent → FieldIdent) :
    ∀ fs : List FieldIdent,
      EnumFrom.extract_fields_annotations_list (c3fannsF r fs) c3B c3W =
        .ok (fs.map (fun s => ((.FieldIdent s : FieldRef), c3annF r s)),
             fs.map (fun s => ((.FieldIdent s : FieldRef), ⟨[], 10⟩))) := by
  intro fs
  induction fs with
  | nil => rfl
  | cons s fs ih =>
    simp only [c3fannsF, List.map_cons] at ih ⊢
    simp only [EnumFrom.extract_fields_annotations_list]
    rw [show (List.filter (fun fa => decide (fa.source_enum = c3B ∧ fa.source_variant = c3W))
        [c3annF r s]) = [c3annF r s] from by simp [c3annF]]
    rw [show (List.filter (fun fa => ¬(fa.source_enum = c3B ∧ fa.source_variant = c3W))
        [c3annF r s]) = [] from by simp [c3annF]]
    rw [if_neg (by simp)]
    simp only [Bind.bind, Except.bind]
    rw [ih]

theorem c3_sorted_perm {β : Type} (f : FieldIdent → β) (fs : List FieldIdent)
    (h1 : (fs.map FieldIdent.name).Nodup) :
    (btreeOfList FieldRef.le (fs.map (fun s => ((.FieldIdent s : FieldRef), f s)))).Perm
      (fs.map (fun s => ((.FieldIdent s : FieldRef), f s))) := by
  have hfs : fs.Nodup := List.Nodup.of_map _ h1
  have hkeysEq : ((fs.map (fun s => ((.FieldIdent s : FieldRef), f s))).map Prod.fst)
      = fs.map (fun s => (.FieldIdent s : FieldRef)) := by
    rw [List.map_map]
    exact List.map_congr_left (fun a _ => rfl)
  have hkeys : ((fs.map (fun s => ((.FieldIdent s : FieldRef), f s))).map Prod.fst).Nodup := by
    rw [hkeysEq]
    exact hfs.map (fun a b h => by injection h)
  unfold btreeOfList
  rw [dedupKeysKeepLast_of_nodup _ hkeys]
  exact sortBy_perm _ _

/-- Read the ident out of a `FieldRef` (dummy on positional refs). -/
def c3identOf : FieldRef → FieldIdent
  | .FieldPos _ => ⟨""⟩
  | .FieldIdent s => s

theorem c3_into_css (r : FieldIdent → FieldIdent) (fs : List FieldIdent) :
    ∀ L, (∀ a ∈ L, ∃ t, t ∈ fs ∧ a = ((.FieldIdent t : FieldRef), c3annI r t)) →
      ∃ fm, EnumInto.compute_struct_to_struct_variant_mapping L c3V =
          .ok (.StructToStruct c3V fm) ∧
        fm = L.map (fun p => (c3identOf p.1, c3identOf p.2.target_field)) := by
  intro L
  induction L with
  | nil => intro _; exact ⟨[], rfl, rfl⟩
  | cons a L ih =>
    intro hmem
    obtain ⟨t, ht, hteq⟩ := hmem a (List.mem_cons_self _ _)
    obtain ⟨fm, hfm, hfmeq⟩ := ih (fun x hx => hmem x (List.mem_cons_of_mem _ hx))
    subst hteq
    simp only [EnumInto.compute_struct_to_struct_variant_mapping] at hfm ⊢
    obtain ⟨fmL, hfmL, hrest⟩ := except_bind_ok _ _ _ hfm
    simp only [Except.ok.injEq, EnumInto.VariantMapping.StructToStruct.injEq] at hrest
    rw [hrest.2] at hfmL
    refine ⟨(t, r t) :: fm, ?_, by rw [List.map_cons, hfmeq]; rfl⟩
    simp only [exceptMap, c3annI, Bind.bind, Except.bind]
    rw [hfmL]

theorem c3_from_css (r : FieldIdent → FieldIdent) (fs : List FieldIdent) :
    ∀ L, (∀ a ∈ L, ∃ t, t ∈ fs ∧ a = ((.FieldIdent t : FieldRef), c3annF r t)) →
      ∃ fm, EnumFrom.compute_struct_to_struct_variant_mapping L c3V =
          .ok (.StructToStruct c3V fm) ∧
        fm = L.map (fun p => (c3identOf p.1, c3identOf p.2.source_field)) := by
  intro L
  induction L with
  | nil => intro _; exact ⟨[], rfl, rfl⟩
  | cons a L ih =>
    intro hmem
    obtain ⟨t, ht, hteq⟩ := hmem a (List.mem_cons_self _ _)
    obtain ⟨fm, hfm, hfmeq⟩ := ih (fun x hx => hmem x (List.mem_cons_of_mem _ hx))
    subst hteq
    simp only [EnumFrom.compute_struct_to_struct_variant_mapping] at hfm ⊢
    obtain ⟨fmL, hfmL, hrest⟩ := except_bind_ok _ _ _ hfm
    simp only [Except.ok.injEq, EnumFrom.VariantMapping.StructToStruct.injEq] at hrest
    rw [hrest.2] at hfmL
    refine ⟨(t, r t) :: fm, ?_, by rw [List.map_cons, hfmeq]; rfl⟩
    simp only [exceptMap, c3annF, Bind.bind, Except.bind]
    rw [hfmL]

theorem c3_into_compute (r : FieldIdent → FieldIdent) (fs : List FieldIdent)
    (h1 : (fs.map FieldIdent.name).Nodup) :
    ∃ fm, EnumInto.compute_variant_mapping c3B c3W
        (btreeOfList FieldRef.le (fs.map (fun s => ((.FieldIdent s : FieldRef), c3annI r s))))
        (.Named (c3fields fs)) c3V
      = .ok (.StructToStruct c3V fm) ∧
      (∀ s ∈ fs, alookup fm s = some (r s)) := by
  have hperm := c3_sorted_perm (fun s => c3annI r s) fs h1
  have hfs : fs.Nodup := List.Nodup.of_map _ h1
  cases hL : btreeOfList FieldRef.le
      (fs.map (fun s => ((.FieldIdent s : FieldRef), c3annI r s))) with
  | nil =>
    rw [hL] at hperm
    have hnil : fs.map (fun s => ((.FieldIdent s : FieldRef), c3annI r s)) = [] :=
      List.perm_nil.mp hperm.symm
    have hfsnil : fs = [] := List.map_eq_nil_iff.mp hnil
    subst hfsnil
    exact ⟨[], rfl, by intro s h; cases h⟩
  | cons q rest =>
    rw [hL] at hperm
    have hmem : ∀ a ∈ q :: rest,
        ∃ t, t ∈ fs ∧ a = ((.FieldIdent t : FieldRef), c3annI r t) := by
      intro a ha
      obtain ⟨t, ht, hteq⟩ := List.mem_map.mp (hperm.subset ha)
      exact ⟨t, ht, hteq.symm⟩
    obtain ⟨t0, ht0, hq⟩ := hmem q (List.mem_cons_self _ _)
    obtain ⟨fm, hcss, hfmval⟩ := c3_into_css r fs (q :: rest) hmem
    refine ⟨fm, ?_, ?_⟩
    · subst hq
      simp only [EnumInto.compute_variant_mapping, List.head?_cons, Option.map_some', c3annI]
      exact hcss
    · have hmapg : (fs.map (fun s => ((.FieldIdent s : FieldRef), c3annI r s))).map
          (fun p => (c3identOf p.1, c3identOf p.2.target_field))
          = fs.map (fun s => (s, r s)) := by
        rw [List.map_map]
        exact List.map_congr_left (fun a _ => rfl)
      have hfmperm : fm.Perm (fs.map (fun s => (s, r s))) := by
        rw [hfmval, ← hmapg]
        exact hperm.map _
      have hfmnd : (fm.map Prod.fst).Nodup := by
        have h := hfmperm.map Prod.fst
        rw [List.map_map] at h
        have hid : List.map (Prod.fst ∘ fun s : FieldIdent => (s, r s)) fs = fs := by
          have h2 : List.map (Prod.fst ∘ fun s : FieldIdent => (s, r s)) fs
              = List.map id fs := List.map_congr_left (fun a _ => rfl)
          rw [h2, List.map_id]
        rw [hid] at h
        exact h.nodup_iff.mpr hfs
      intro s hs
      rw [alookup_perm hfmperm hfmnd s, alookup_map_self r fs s hs]

theorem c3_from_compute (r : FieldIdent → FieldIdent) (fs : List FieldIdent)
    (h1 : (fs.map FieldIdent.name).Nodup) :
    ∃ fm, EnumFrom.compute_variant_mapping c3B c3W
        (btreeOfList FieldRef.le (fs.map (fun s => ((.FieldIdent s : FieldRef), c3annF r s))))
        (.Named (c3fields fs)) c3V
      = .ok (.StructToStruct c3V fm) ∧
      (∀ s ∈ fs, alookup fm s = some (r s)) := by
  have hperm := c3_sorted_perm (fun s => c3annF r s) fs h1
  have hfs : fs.Nodup := List.Nodup.of_map _ h1
  cases hL : btreeOfList FieldRef.le
      (fs.map (fun s => ((.FieldIdent s : FieldRef), c3annF r s))) with
  | nil =>
    rw [hL] at hperm
    have hnil : fs.map (fun s => ((.FieldIdent s : FieldRef), c3annF r s)) = [] :=
      List.perm_nil.mp hperm.symm
    have hfsnil : fs = [] := List.map_eq_nil_iff.mp hnil
    subst hfsnil
    exact ⟨[], rfl, by intro s h; cases h⟩
  | cons q rest =>
    rw [hL] at hperm
    have hmem : ∀ a ∈ q :: rest,
        ∃ t, t ∈ fs ∧ a = ((.FieldIdent t : FieldRef), c3annF r t) := by
      intro a ha
      obtain ⟨t, ht, hteq⟩ := List.mem_map.mp (hperm.subset ha)
      exact ⟨t, ht, hteq.symm⟩
    obtain ⟨t0, ht0, hq⟩ := hmem q (List.mem_cons_self _ _)
    obtain ⟨fm, hcss, hfmval⟩ := c3_from_css r fs (q :: rest) hmem
    refine ⟨fm, ?_, ?_⟩
    · subst hq
      simp only [EnumFrom.compute_variant_mapping, List.head?_cons, Option.map_some', c3annF]
      exact hcss
    · have hmapg : (fs.map (fun s => ((.FieldIdent s : FieldRef), c3annF r s))).map
          (fun p => (c3identOf p.1, c3identOf p.2.source_field))
          = fs.map (fun s => (s, r s)) := by
        rw [List.map_map]
        exact List.map_congr_left (fun a _ => rfl)
      have hfmperm : fm.Perm (fs.map (fun s => (s, r s))) := by
        rw [hfmval, ← hmapg]
        exact hperm.map _
      have hfmnd : (fm.map Prod.fst).Nodup := by
        have h := hfmperm.map Prod.fst
        rw [List.map_map] at h
        have hid : List.map (Prod.fst ∘ fun s : FieldIdent => (s, r s)) fs = fs := by
          have h2 : List.map (Prod.fst ∘ fun s : FieldIdent => (s, r s)) fs
              = List.map id fs := List.map_congr_left (fun a _ => rfl)
          rw [h2, List.map_id]
        rw [hid] at h
        exact h.nodup_iff.mpr hfs
      intro s hs
      rw [alookup_perm hfmperm hfmnd s, alookup_map_self r fs s hs]

theorem c3_into_extract_btree (r : FieldIdent → FieldIdent) (fs : List FieldIdent) :
    EnumInto.extract_fields_annotations (c3fannsI r fs) c3B c3W =
      .ok (btreeOfList FieldRef.le (fs.map (fun s => ((.FieldIdent s : FieldRef), c3annI r s))),
           fs.map (fun s => ((.FieldIdent s : FieldRef), ⟨[], 5⟩))) := by
  simp only [EnumInto.extract_fields_annotations, Bind.bind, Except.bind]
  rw [c3_into_extract r fs]

theorem c3_from_extract_btree (r : FieldIdent → FieldIdent) (fs : List FieldIdent) :
    EnumFrom.extract_fields_annotations (c3fannsF r fs) c3B c3W =
      .ok (btreeOfList FieldRef.le (fs.map (fun s => ((.FieldIdent s : FieldRef), c3annF r s))),
           fs.map (fun s => ((.FieldIdent s : FieldRef), ⟨[], 10⟩))) := by
  simp only [EnumFrom.extract_fields_annotations, Bind.bind, Except.bind]
  rw [c3_from_extract r fs]

theorem c3_into_check_unused (te : List (ContainerIdent × EnumInto.VariantsMapping)) :
    ∀ fs : List FieldIdent,
      EnumInto.check_unused_fields_annotations te
        (fs.map (fun s => ((.FieldIdent s : FieldRef), (⟨[], 5⟩ : EnumInto.FieldAnnotations))))
        = .ok () := by
  intro fs
  induction fs with
  | nil => rfl
  | cons s fs ih =>
    simpa [EnumInto.check_unused_fields_annotations] using ih

theorem c3_from_check_unused (se : List (ContainerIdent × EnumFrom.VariantsMapping)) :
    ∀ fs : List FieldIdent,
      EnumFrom.check_unused_fields_annotations se
        (fs.map (fun s => ((.FieldIdent s : FieldRef), (⟨[], 10⟩ : EnumFrom.FieldAnnotations))))
        = .ok () := by
  intro fs
  induction fs with
  | nil => rfl
  | cons s fs ih =>
    simpa [EnumFrom.check_unused_fields_annotations] using ih

theorem c3_into_pte (r : FieldIdent → FieldIdent) (fs : List FieldIdent)
    (h1 : (fs.map FieldIdent.name).Nodup) :
    ∃ fm, EnumInto.process_target_enums (c3variant fs) [(c3B, [])]
        ([(c3B, (c3W, 1))], c3fannsI r fs) =
      .ok ([(c3B, [(c3W, [.StructToStruct c3V fm])])],
        ([], fs.map (fun s => ((.FieldIdent s : FieldRef), ⟨[], 5⟩)))) ∧
      (∀ s ∈ fs, alookup fm s = some (r s)) := by
  obtain ⟨fm, hcomp, hchar⟩ := c3_into_compute r fs h1
  refine ⟨fm, ?_, hchar⟩
  simp only [EnumInto.process_target_enums, Bind.bind, Except.bind, aremove, ainsert,
    c3_into_extract_btree r fs, Option.getD, List.nil_append, if_true, c3variant, hcomp]

theorem c3_from_pva (r : FieldIdent → FieldIdent) (fs : List FieldIdent)
    (h1 : (fs.map FieldIdent.name).Nodup) :
    ∃ fm, EnumFrom.process_variant_annot (some c3B) (c3variant fs)
        ([(c3B, [])], c3fannsF r fs) (.EnumVariant 6 c3B c3W) =
      .ok ([(c3B, [(c3W, .StructToStruct c3V fm)])],
        fs.map (fun s => ((.FieldIdent s : FieldRef), ⟨[], 10⟩))) ∧
      (∀ s ∈ fs, alookup fm s = some (r s)) := by
  obtain ⟨fm, hcomp, hchar⟩ := c3_from_compute r fs h1
  refine ⟨fm, ?_, hchar⟩
  simp only [EnumFrom.process_variant_annot, EnumFrom.get_source_enum_and_variant,
    Bind.bind, Except.bind, alookup, ainsert, c3_from_extract_btree r fs, if_true,
    c3variant, hcomp]

theorem c3_from_pv (r : FieldIdent → FieldIdent) (fs : List FieldIdent)
    (h1 : (fs.map FieldIdent.name).Nodup) :
    ∃ fm, EnumFrom.process_variant (some c3B) ([(c3B, [])], [])
        (c3variant fs, ⟨[.EnumVariant 6 c3B c3W], c3fannsF r fs⟩) =
      .ok ([(c3B, [(c3W, .StructToStruct c3V fm)])], [(c3V, c3variant fs)]) ∧
      (∀ s ∈ fs, alookup fm s = some (r s)) := by
  obtain ⟨fm, hpva, hchar⟩ := c3_from_pva r fs h1
  refine ⟨fm, ?_, hchar⟩
  simp only [EnumFrom.process_variant, Bind.bind, Except.bind, foldlE]
  rw [hpva]
  simp only [c3_from_check_unused, ainsert, c3variant]

theorem c3_from_resolves (r : FieldIdent → FieldIdent) (fs : List FieldIdent)
    (h1 : (fs.map FieldIdent.name).Nodup) :
    ∃ fm, EnumFrom.EnumFromGenerator.try_from (c3pFrom fs r) =
      .ok { source_enums := [(c3B, [(c3W, .StructToStruct c3V fm)])]
          , target_enum := c3A
          , target_variants := [(c3V, c3variant fs)] } ∧
      (∀ s ∈ fs, alookup fm s = some (r s)) := by
  obtain ⟨fm, hpv, hchar⟩ := c3_from_pv r fs h1
  refine ⟨fm, ?_, hchar⟩
  simp only [EnumFrom.EnumFromGenerator.try_from, c3pFrom, Bind.bind, Except.bind, foldlE,
    List.foldl_cons, List.foldl_nil, ainsert, hpv]

theorem c3_into_pv (r : FieldIdent → FieldIdent) (fs : List FieldIdent)
    (h1 : (fs.map FieldIdent.name).Nodup) :
    ∃ fm, EnumInto.process_variant ([(c3B, [])], [])
        (c3variant fs, ⟨[.EnumVariant 1 c3B c3W], c3fannsI r fs⟩) =
      .ok ([(c3B, [(c3W, [.StructToStruct c3V fm])])], [(c3V, c3variant fs)]) ∧
      (∀ s ∈ fs, alookup fm s = some (r s)) := by
  obtain ⟨fm, hpte, hchar⟩ := c3_into_pte r fs h1
  refine ⟨fm, ?_, hchar⟩
  simp only [EnumInto.process_variant, Bind.bind, Except.bind, List.filterMap_cons,
    List.filterMap_nil, List.foldl_cons, List.foldl_nil, ainsert]
  rw [hpte]
  simp only [EnumInto.check_unused_variants_annotations, c3_into_check_unused,
    ainsert, c3variant]

theorem c3_into_resolves (r : FieldIdent → FieldIdent) (fs : List FieldIdent)
    (h1 : (fs.map FieldIdent.name).Nodup) :
    ∃ fm, EnumInto.EnumIntoGenerator.try_from (c3pInto fs r) =
      .ok { target_enums := [(c3B, [(c3W, [.StructToStruct c3V fm])])]
          , source_enum := c3A
          , source_variants := [(c3V, c3variant fs)] } ∧
      (∀ s ∈ fs, alookup fm s = some (r s)) := by
  obtain ⟨fm, hpv, hchar⟩ := c3_into_pv r fs h1
  refine ⟨fm, ?_, hchar⟩
  simp only [EnumInto.EnumIntoGenerator.try_from, c3pInto, Bind.bind, Except.bind, foldlE,
    List.foldl_cons, List.foldl_nil, ainsert, hpv, List.isEmpty_cons]
  rfl

/-- The single match arm of the generated `impl From<A> for B`. -/
def c3intoArm (fs : List FieldIdent) (r : FieldIdent → FieldIdent) : MatchArm :=
  { source_enum := c3A, source_variant := c3V
  , pat := .struct (fs.map FieldIdent.name)
  , target_enum := c3B, target_variant := c3W
  , expr := .struct (fs.map (fun s => ((r s).name, s.name))) }

/-- The single match arm of the generated `impl From<B> for A`. -/
def c3fromArm (fs : List FieldIdent) (r : FieldIdent → FieldIdent) : MatchArm :=
  { source_enum := c3B, source_variant := c3W
  , pat := .struct (fs.map (fun s => (r s).name))
  , target_enum := c3A, target_variant := c3V
  , expr := .struct (fs.map (fun s => (s.name, (r s).name))) }

theorem c3_into_generates (r : FieldIdent → FieldIdent) (fs : List FieldIdent)
    (fm : List (FieldIdent × FieldIdent))
    (hfm : ∀ s ∈ fs, alookup fm s = some (r s)) :
    EnumInto.EnumIntoGenerator.generate
      { target_enums := [(c3B, [(c3W, [.StructToStruct c3V fm])])]
      , source_enum := c3A
      , source_variants := [(c3V, c3variant fs)] } [c3B] (fun _ => [c3W])
    = some [{ source_enum := c3A, target_enum := c3B, arms := [c3intoArm fs r] }] := by
  have hsf : (c3fields fs).map (fun p => p.1.name) = fs.map FieldIdent.name := by
    simp only [c3fields, List.map_map]
    exact List.map_congr_left (fun a _ => rfl)
  have htf : (c3fields fs).map
      (fun p => ((((alookup fm p.1).getD p.1)).name, p.1.name))
      = fs.map (fun s => ((r s).name, s.name)) := by
    simp only [c3fields, List.map_map]
    apply List.map_congr_left
    intro a ha
    simp only [Function.comp]
    rw [hfm a ha]
    rfl
  have harm : EnumInto.generate_match_arm c3W (.StructToStruct c3V fm) c3B c3A (c3variant fs)
      = some (c3intoArm fs r) := by
    simp only [EnumInto.generate_match_arm, c3variant]
    rw [hsf, htf]
    rfl
  simp only [EnumInto.EnumIntoGenerator.generate, EnumInto.generate_from_impl, optionMapList,
    Bind.bind, Option.bind, alookup, EnumInto.VariantMapping.source_variant, harm,
    List.flatten_cons, List.flatten_nil, List.append_nil, if_true]

theorem c3_from_generates (r : FieldIdent → FieldIdent) (fs : List FieldIdent)
    (fm : List (FieldIdent × FieldIdent))
    (hfm : ∀ s ∈ fs, alookup fm s = some (r s)) :
    EnumFrom.EnumFromGenerator.generate
      { source_enums := [(c3B, [(c3W, .StructToStruct c3V fm)])]
      , target_enum := c3A
      , target_variants := [(c3V, c3variant fs)] } [c3B] (fun _ => [c3W])
    = some [{ source_enum := c3B, target_enum := c3A, arms := [c3fromArm fs r] }] := by
  have hsf : (c3fields fs).map (fun p => (((alookup fm p.1).getD p.1)).name)
      = fs.map (fun s => (r s).name) := by
    simp only [c3fields, List.map_map]
    apply List.map_congr_left
    intro a ha
    simp only [Function.comp]
    rw [hfm a ha]
    rfl
  have htf : (c3fields fs).map
      (fun p => (p.1.name, (((alookup fm p.1).getD p.1)).name))
      = fs.map (fun s => (s.name, (r s).name)) := by
    simp only [c3fields, List.map_map]
    apply List.map_congr_left
    intro a ha
    simp only [Function.comp]
    rw [hfm a ha]
    rfl
  have harm : EnumFrom.generate_match_arm c3W (.StructToStruct c3V fm) c3B c3A (c3variant fs)
      = some (c3fromArm fs r) := by
    simp only [EnumFrom.generate_match_arm, c3variant]
    rw [hsf, htf]
    rfl
  simp only [EnumFrom.EnumFromGenerator.generate, EnumFrom.generate_from_impl, optionMapList,
    Bind.bind, Option.bind, alookup, EnumFrom.VariantMapping.target_variant, harm, if_true]

/-- A runtime value of `A::V` with field contents `vals`. -/
def c3valA (fs : List FieldIdent) (vals : List Nat) : Value :=
  ⟨c3A, c3V, .struct ((fs.map FieldIdent.name).zip vals)⟩

/-- Its image in `B::W`: the same contents under the renamed fields. -/
def c3valB (fs : List FieldIdent) (r : FieldIdent → FieldIdent) (vals : List Nat) : Value :=
  ⟨c3B, c3W, .struct ((fs.map (fun s => (r s).name)).zip vals)⟩

theorem c3_into_evals (r : FieldIdent → FieldIdent) (fs : List FieldIdent) (vals : List Nat)
    (h1 : (fs.map FieldIdent.name).Nodup) (hlen : vals.length = fs.length) :
    evalImplBlock id { source_enum := c3A, target_enum := c3B, arms := [c3intoArm fs r] }
      (c3valA fs vals) = some (c3valB fs r vals) := by
  have hnlen : (fs.map FieldIdent.name).length = vals.length := by
    rw [List.length_map, hlen]
  simp only [evalImplBlock, evalArms, evalMatchArm, c3intoArm, c3valA, c3valB]
  rw [if_pos ⟨trivial, trivial⟩]
  rw [matchPat_struct_self _ _ h1 hnlen]
  simp only [Option.bind, evalArmExpr]
  rw [show fs.map (fun s => ((r s).name, s.name))
      = (fs.map (fun s => (r s).name)).zip (fs.map FieldIdent.name) from
    (List.zip_map' _ _ fs).symm]
  rw [optionMapList_expr_zip id _ _ vals h1 hnlen]
  simp only [List.map_id, Option.map_some']

theorem c3_from_evals (r : FieldIdent → FieldIdent) (fs : List FieldIdent) (vals : List Nat)
    (h2 : ((fs.map r).map FieldIdent.name).Nodup) (hlen : vals.length = fs.length) :
    evalImplBlock id { source_enum := c3B, target_enum := c3A, arms := [c3fromArm fs r] }
      (c3valB fs r vals) = some (c3valA fs vals) := by
  have hmapr : (fs.map r).map FieldIdent.name = fs.map (fun s => (r s).name) := by
    rw [List.map_map]
    exact List.map_congr_left (fun a _ => rfl)
  rw [hmapr] at h2
  have hnlen : (fs.map (fun s => (r s).name)).length = vals.length := by
    rw [List.length_map, hlen]
  simp only [evalImplBlock, evalArms, evalMatchArm, c3fromArm, c3valA, c3valB]
  rw [if_pos ⟨trivial, trivial⟩]
  rw [matchPat_struct_self _ _ h2 hnlen]
  simp only [Option.bind, evalArmExpr]
  rw [show fs.map (fun s => (s.name, (r s).name))
      = (fs.map FieldIdent.name).zip (fs.map (fun s => (r s).name)) from
    (List.zip_map' _ _ fs).symm]
  rw [optionMapList_expr_zip id _ _ vals h2 hnlen]
  simp only [List.map_id, Option.map_some']

/-- The generated `impl From<A> for B` block. -/
def c3intoBlock (fs : List FieldIdent) (r : FieldIdent → FieldIdent) : ImplBlock :=
  { source_enum := c3A, target_enum := c3B, arms := [c3intoArm fs r] }

/-- The generated `impl From<B> for A` block. -/
def c3fromBlock (fs : List FieldIdent) (r : FieldIdent → FieldIdent) : ImplBlock :=
  { source_enum := c3B, target_enum := c3A, arms := [c3fromArm fs r] }

/-- C3, amended: taking "B annotated to map from A" as the `enum_from`
derive on A naming B (so that the two generated conversions are `impl
From<A> for B` and `impl From<B> for A` and actually compose), the round
trip holds: for any struct variant field list `fs` with distinct names, any
rename `r` injective on it, and any field contents `vals`, resolving
`A enum_into(B)` with `s ↦ B::W.(r s)` and `A enum_from(B)` with
`s ↦ B::W.(r s)`, generating both impls and composing them on the value
`A::V { fs := vals }` reproduces that value exactly — every field passes
through a single `.into()` and returns to its original slot. -/
theorem c3_amended (fs : List FieldIdent) (r : FieldIdent → FieldIdent) (vals : List Nat)
    (h1 : (fs.map FieldIdent.name).Nodup)
    (h2 : ((fs.map r).map FieldIdent.name).Nodup)
    (hlen : vals.length = fs.length) :
    ∃ fm1 fm2,
      EnumInto.EnumIntoGenerator.try_from (c3pInto fs r) =
        .ok { target_enums := [(c3B, [(c3W, [.StructToStruct c3V fm1])])]
            , source_enum := c3A, source_variants := [(c3V, c3variant fs)] } ∧
      EnumFrom.EnumFromGenerator.try_from (c3pFrom fs r) =
        .ok { source_enums := [(c3B, [(c3W, .StructToStruct c3V fm2)])]
            , target_enum := c3A, target_variants := [(c3V, c3variant fs)] } ∧
      EnumInto.EnumIntoGenerator.generate
        { target_enums := [(c3B, [(c3W, [.StructToStruct c3V fm1])])]
        , source_enum := c3A, source_variants := [(c3V, c3variant fs)] }
        [c3B] (fun _ => [c3W])
        = some [c3intoBlock fs r] ∧
      EnumFrom.EnumFromGenerator.generate
        { source_enums := [(c3B, [(c3W, .StructToStruct c3V fm2)])]
        , target_enum := c3A, target_variants := [(c3V, c3variant fs)] }
        [c3B] (fun _ => [c3W])
        = some [c3fromBlock fs r] ∧
      (evalImplBlock id (c3intoBlock fs r) (c3valA fs vals)).bind
        (evalImplBlock id (c3fromBlock fs r)) = some (c3valA fs vals) := by
  obtain ⟨fm1, hres1, hchar1⟩ := c3_into_resolves r fs h1
  obtain ⟨fm2, hres2, hchar2⟩ := c3_from_resolves r fs h1
  refine ⟨fm1, fm2, hres1, hres2, c3_into_generates r fs fm1 hchar1,
    c3_from_generates r fs fm2 hchar2, ?_⟩
  simp only [c3intoBlock, c3fromBlock]
  rw [c3_into_evals r fs vals h1 hlen]
  simp only [Option.bind]
  exact c3_from_evals r fs vals h2 hlen

/-- The claim's literal setup on the `B` side: `B` derives `enum_from(A)`
with the inverse rename (`B::W.y` sourced from `A::V.x`). -/
def c3exPFromB : EnumFrom.ParsedEnumFrom :=
  { target_enum := c3B
  , container_annotations := [⟨c3A⟩]
  , variants_annotations :=
      [ (⟨c3W, .Named [(⟨"y"⟩, 0)]⟩,
         ⟨[.EnumVariant 11 c3A c3V],
          [(.FieldIdent ⟨"y"⟩, ⟨[⟨c3A, c3V, .FieldIdent ⟨"x"⟩, 12, 13, 14⟩], 15⟩)]⟩) ] }

/-- C3, counterexample to the literal claim: annotating `A` to map into
`B` and annotating `B` to map *from* `A` (with the inverse rename) does
not yield a round trip — both derives emit an `A → B` conversion (`impl
From<A> for B`), so the two generated functions cannot be composed: the
second one, applied to the `B`-value produced by the first, matches no arm
and converts nothing. -/
theorem c3_counterexample :
    ∃ gInto gFromB intoBlk fromBlk,
      EnumInto.EnumIntoGenerator.try_from (c3pInto [⟨"x"⟩] (fun _ => ⟨"y"⟩)) = .ok gInto ∧
      EnumFrom.EnumFromGenerator.try_from c3exPFromB = .ok gFromB ∧
      EnumInto.EnumIntoGenerator.generate gInto [c3B] (fun _ => [c3W]) = some [intoBlk] ∧
      EnumFrom.EnumFromGenerator.generate gFromB [c3A] (fun _ => [c3V]) = some [fromBlk] ∧
      intoBlk.source_enum = c3A ∧ intoBlk.target_enum = c3B ∧
      fromBlk.source_enum = c3A ∧ fromBlk.target_enum = c3B ∧
      (evalImplBlock id intoBlk (c3valA [⟨"x"⟩] [3])).isSome ∧
      (evalImplBlock id intoBlk (c3valA [⟨"x"⟩] [3])).bind
        (evalImplBlock id fromBlk) = none :=
  ⟨{ target_enums := [(c3B, [(c3W, [.StructToStruct c3V [(⟨"x"⟩, ⟨"y"⟩)]])])]
   , source_enum := c3A
   , source_variants := [(c3V, ⟨c3V, .Named [(⟨"x"⟩, 0)]⟩)] },
   { source_enums := [(c3A, [(c3V, .StructToStruct c3W [(⟨"y"⟩, ⟨"x"⟩)])])]
   , target_enum := c3B
   , target_variants := [(c3W, ⟨c3W, .Named [(⟨"y"⟩, 0)]⟩)] },
   { source_enum := c3A, target_enum := c3B
   , arms := [{ source_enum := c3A, source_variant := c3V, pat := .struct ["x"]
              , target_enum := c3B, target_variant := c3W
              , expr := .struct [("y", "x")] }] },
   { source_enum := c3A, target_enum := c3B
   , arms := [{ source_enum := c3A, source_variant := c3V, pat := .struct ["x"]
              , target_enum := c3B, target_variant := c3W
              , expr := .struct [("y", "x")] }] },
   by decide, by decide, by decide, by decide, rfl, rfl, rfl, rfl, by decide, by decide⟩

/-- `c3_amended` applied at the two-field variant
`A::V { x, y }` with the rename `x ↦ u, y ↦ v` and contents `[3, 4]`. -/
theorem c3_witness :
    ∃ fm1 fm2,
      EnumInto.EnumIntoGenerator.try_from
        (c3pInto [⟨"x"⟩, ⟨"y"⟩] (fun s => if s.name = "x" then ⟨"u"⟩ else ⟨"v"⟩)) =
        .ok { target_enums := [(c3B, [(c3W, [.StructToStruct c3V fm1])])]
            , source_enum := c3A
            , source_variants := [(c3V, c3variant [⟨"x"⟩, ⟨"y"⟩])] } ∧
      EnumFrom.EnumFromGenerator.try_from
        (c3pFrom [⟨"x"⟩, ⟨"y"⟩] (fun s => if s.name = "x" then ⟨"u"⟩ else ⟨"v"⟩)) =
        .ok { source_enums := [(c3B, [(c3W, .StructToStruct c3V fm2)])]
            , target_enum := c3A
            , target_variants := [(c3V, c3variant [⟨"x"⟩, ⟨"y"⟩])] } ∧
      EnumInto.EnumIntoGenerator.generate
        { target_enums := [(c3B, [(c3W, [.StructToStruct c3V fm1])])]
        , source_enum := c3A
        , source_variants := [(c3V, c3variant [⟨"x"⟩, ⟨"y"⟩])] } [c3B] (fun _ => [c3W])
        = some [c3intoBlock [⟨"x"⟩, ⟨"y"⟩] (fun s => if s.name = "x" then ⟨"u"⟩ else ⟨"v"⟩)] ∧
      EnumFrom.EnumFromGenerator.generate
        { source_enums := [(c3B, [(c3W, .StructToStruct c3V fm2)])]
        , target_enum := c3A
        , target_variants := [(c3V, c3variant [⟨"x"⟩, ⟨"y"⟩])] } [c3B] (fun _ => [c3W])
        = some [c3fromBlock [⟨"x"⟩, ⟨"y"⟩] (fun s => if s.name = "x" then ⟨"u"⟩ else ⟨"v"⟩)] ∧
      (evalImplBlock id
          (c3intoBlock [⟨"x"⟩, ⟨"y"⟩] (fun s => if s.name = "x" then ⟨"u"⟩ else ⟨"v"⟩))
          (c3valA [⟨"x"⟩, ⟨"y"⟩] [3, 4])).bind
        (evalImplBlock id
          (c3fromBlock [⟨"x"⟩, ⟨"y"⟩] (fun s => if s.name = "x" then ⟨"u"⟩ else ⟨"v"⟩)))
        = some (c3valA [⟨"x"⟩, ⟨"y"⟩] [3, 4]) :=
  c3_amended [⟨"x"⟩, ⟨"y"⟩] (fun s => if s.name = "x" then ⟨"u"⟩ else ⟨"v"⟩) [3, 4]
    (by decide) (by decide) rfl
